import Mathlib

/-!
Verification of the KOAssistant translation tooling (scripts/translate.py,
scripts/translate_v2.py) against its natural-language specification.

Strings are modelled as `List Char` (Python `str`), files as lists of lines
(`List Str`, each line without its trailing newline, matching Python's
`for line in f` after `rstrip('\n')`).  Python's `str.replace`, `str.count`,
`str.split`, `str.strip` are modelled by executable functions below with the
same leftmost, non-overlapping semantics.
-/

namespace KOA

abbrev Str := List Char

/-- Python whitespace characters, as used by `str.strip()` / `str.split()`. -/
def pyWS (c : Char) : Bool :=
  c = ' ' || c = '\t' || c = '\n' || c = '\x0d' || c = Char.ofNat 11 || c = Char.ofNat 12

/-- Python `s.strip()`: remove leading and trailing whitespace. -/
def pyStrip (s : Str) : Str :=
  ((s.dropWhile pyWS).reverse.dropWhile pyWS).reverse

/-- Python `s.split(sep)` for a one-character separator (keeps empty parts;
the empty string yields one empty part). -/
def splitOnChar (sep : Char) : Str → List Str
  | [] => [[]]
  | c :: cs =>
    if c = sep then [] :: splitOnChar sep cs
    else
      match splitOnChar sep cs with
      | [] => [[c]]
      | p :: ps => (c :: p) :: ps

/-- Python `[x.strip() for x in s.split(',')]`, the flag-line tokenizer used by
the PO parser and writer. -/
def stripSplitComma (s : Str) : List Str :=
  (splitOnChar ',' s).map pyStrip

/-- Python `', '.join(parts)`, used when the PO writer re-emits a flag line. -/
def joinCommaSpace : List Str → Str
  | [] => []
  | [x] => x
  | x :: y :: rest => x ++ ", ".data ++ joinCommaSpace (y :: rest)

/-- Python `s.split()`: split on runs of whitespace, dropping empty parts. -/
def pySplitWS (s : Str) : List Str :=
  (s.splitOnP pyWS).filter (fun p => p ≠ [])

/-- Python `s.replace(pat, rep, 1)`: replace the leftmost occurrence only. -/
def replaceFirst (pat rep : Str) : Str → Str
  | [] => []
  | c :: cs =>
    if pat.isPrefixOf (c :: cs) then rep ++ List.drop pat.length (c :: cs)
    else c :: replaceFirst pat rep cs

/-- Fuel-indexed worker for `replaceAll`; fuel at least the string length is
enough because every step consumes at least one character. -/
def replaceAllGo (pat rep : Str) : Nat → Str → Str
  | _, [] => []
  | 0, s => s
  | f + 1, c :: cs =>
    if pat.isPrefixOf (c :: cs) then rep ++ replaceAllGo pat rep f (List.drop pat.length (c :: cs))
    else c :: replaceAllGo pat rep f cs

/-- Python `s.replace(pat, rep)`: leftmost, non-overlapping, the replacement
text is not rescanned. -/
def replaceAll (pat rep : Str) (s : Str) : Str :=
  replaceAllGo pat rep s.length s

/-- Fuel-indexed worker for `countSub`. -/
def countSubGo (pat : Str) : Nat → Str → Nat
  | _, [] => 0
  | 0, _ => 0
  | f + 1, c :: cs =>
    if pat.isPrefixOf (c :: cs) then 1 + countSubGo pat f (List.drop pat.length (c :: cs))
    else countSubGo pat f cs

/-- Python `s.count(pat)`: number of non-overlapping occurrences. -/
def countSub (pat : Str) (s : Str) : Nat :=
  countSubGo pat s.length s

/-- Python `pat in s`: substring containment. -/
def containsSub (pat : Str) : Str → Bool
  | [] => pat.isEmpty
  | c :: cs => pat.isPrefixOf (c :: cs) || containsSub pat cs

/-- Source `unescape_po_string` (translate.py:259, translate_v2.py:378):
`s.replace('\\n','\n').replace('\\t','\t').replace('\\"','"').replace('\\\\','\\')`. -/
def unescape_po_string (s : Str) : Str :=
  replaceAll ['\\', '\\'] ['\\']
    (replaceAll ['\\', '\"'] ['\"']
      (replaceAll ['\\', 't'] ['\t']
        (replaceAll ['\\', 'n'] ['\n'] s)))

/-- Source `escape_po_string` (translate.py:264, translate_v2.py:383):
`s.replace('\\','\\\\').replace('"','\\"').replace('\n','\\n').replace('\t','\\t')`. -/
def escape_po_string (s : Str) : Str :=
  replaceAll ['\t'] ['\\', 't']
    (replaceAll ['\n'] ['\\', 'n']
      (replaceAll ['\"'] ['\\', '\"']
        (replaceAll ['\\'] ['\\', '\\'] s)))

/-- Character-level description of `escape_po_string` (proved equal below). -/
def escChar (c : Char) : Str :=
  if c = '\\' then ['\\', '\\']
  else if c = '\"' then ['\\', '\"']
  else if c = '\n' then ['\\', 'n']
  else if c = '\t' then ['\\', 't']
  else [c]

/-- A string is escape-safe when no backslash character is immediately followed
by a literal letter `n` or `t`.  The fixed substitution order of
`unescape_po_string` loses information exactly on such pairs. -/
def noBadPairs : Str → Bool
  | [] => true
  | [_] => true
  | c :: d :: r => !(c = '\\' && (d = 'n' || d = 't')) && noBadPairs (d :: r)

/-- Python `s.upper()` restricted to the ASCII data appearing in the term lists. -/
def upperStr (s : Str) : Str :=
  s.map Char.toUpper

/-- Decimal digits of `n` (least significant first), fuel-indexed so that it is
structurally recursive and kernel-computable. -/
def natDigitsGo : Nat → Nat → List Nat
  | 0, _ => []
  | f + 1, n => if n = 0 then [] else n % 10 :: natDigitsGo f (n / 10)

/-- Python `str(n)` for a natural number. -/
def natToStr (n : Nat) : Str :=
  if n = 0 then ['0'] else ((natDigitsGo n n).map (fun d => Char.ofNat (48 + d))).reverse

/-- Python `int(ds)` for a string of decimal digits. -/
def decToNat (ds : Str) : Nat :=
  ds.foldl (fun a c => a * 10 + (c.toNat - 48)) 0

/-! ## Configuration lists (single source of truth in both scripts) -/

/-- Source `BRANDS` in translate_v2.py:43. -/
def BRANDS_V2 : List Str :=
  ["KOAssistant".data, "KOReader".data, "(KOA)".data]

/-- Source `BRANDS` in translate.py:35. -/
def BRANDS_V1 : List Str :=
  ["KOAssistant".data, "KOReader".data]

/-- Source `PROVIDERS` (identical in both scripts). -/
def PROVIDERS : List Str :=
  ["Claude".data, "GPT".data, "OpenAI".data, "Anthropic".data, "DeepSeek".data,
   "Gemini".data, "Ollama".data, "Groq".data, "Mistral".data, "xAI".data,
   "OpenRouter".data, "Qwen".data, "Kimi".data, "Together".data, "Fireworks".data,
   "SambaNova".data, "Cohere".data, "Doubao".data]

/-- Source `TECH_TERMS` (identical in both scripts). -/
def TECH_TERMS : List Str :=
  ["API".data]

/-- Source `NEWLINE_MARKER` in translate_v2.py:56. -/
def NEWLINE_MARKER : Str :=
  "[NL]".data

/-! ## NewlineHandler (translate_v2.py:89) -/

namespace NewlineHandler

/-- Source `NewlineHandler.encode`: `text.replace('\n', '[NL]')`. -/
def encode (text : Str) : Str :=
  replaceAll ['\n'] NEWLINE_MARKER text

/-- Source `NewlineHandler.decode`: `text.replace('[NL]', '\n')`. -/
def decode (text : Str) : Str :=
  replaceAll NEWLINE_MARKER ['\n'] text

end NewlineHandler

/-! ## Placeholder scanners (`re.findall` for the fixed patterns) -/

/-- Source `PlaceholderValidator.extract_placeholders`: `re.findall(r'%[1-9]', text)`,
leftmost non-overlapping scan. -/
def extract_placeholders : Str → List Str
  | '%' :: c :: r =>
    if '1' ≤ c && c ≤ '9' then ['%', c] :: extract_placeholders r
    else extract_placeholders (c :: r)
  | _ :: r => extract_placeholders r
  | [] => []

/-- Python `re.findall(r'%[sdf]', text)`, leftmost non-overlapping scan. -/
def findall_sdf : Str → List Str
  | '%' :: c :: r =>
    if c = 's' || c = 'd' || c = 'f' then ['%', c] :: findall_sdf r
    else findall_sdf (c :: r)
  | _ :: r => findall_sdf r
  | [] => []

/-- First-occurrence deduplication: the iteration order we fix for Python's
`for ph in set(source_ph)` (the claims never depend on the set's order). -/
def firstDedup (l : List Str) : List Str :=
  l.foldl (fun acc a => if a ∈ acc then acc else acc ++ [a]) []

/-! ## PlaceholderValidator (translate_v2.py:113) -/

/-- Structured rendering of the error strings built by
`PlaceholderValidator.validate`; each constructor carries the data interpolated
into the corresponding f-string. -/
inductive V2Err
  | phMismatch (ph : Str) (srcCount transCount : Nat)
  | wrongFormat
  | nlMismatch (srcCount transCount : Nat)
  | brandMissing (brand : Str)
deriving DecidableEq

/-- Structured rendering of the warning strings built by
`PlaceholderValidator.validate_warnings`. -/
inductive V2Warn
  | providerMissing (p : Str)
  | termMissing (t : Str)
deriving DecidableEq

namespace PlaceholderValidator

/-- Source `PlaceholderValidator.validate` (translate_v2.py:124): placeholder
counts for every distinct placeholder of the source, wrong-format check,
newline-marker parity, then brand presence.  Python iterates `set(source_ph)`;
we fix first-occurrence order, which the claims never depend on. -/
def validate (source translation : Str) : List V2Err :=
  let source_ph := extract_placeholders source
  let trans_ph := extract_placeholders translation
  let phErrs := (firstDedup source_ph).filterMap (fun ph =>
    if source_ph.count ph ≠ trans_ph.count ph then
      some (V2Err.phMismatch ph (source_ph.count ph) (trans_ph.count ph))
    else none)
  let fmtErrs := if source_ph ≠ [] ∧ findall_sdf translation ≠ [] then [V2Err.wrongFormat] else []
  let nlErrs :=
    if countSub NEWLINE_MARKER source ≠ countSub NEWLINE_MARKER translation then
      [V2Err.nlMismatch (countSub NEWLINE_MARKER source) (countSub NEWLINE_MARKER translation)]
    else []
  let brandErrs := BRANDS_V2.filterMap (fun b =>
    if containsSub b source ∧ ¬ containsSub b translation then some (V2Err.brandMissing b)
    else none)
  phErrs ++ fmtErrs ++ nlErrs ++ brandErrs

/-- Source `PlaceholderValidator.validate_warnings` (translate_v2.py:156). -/
def validate_warnings (source translation : Str) : List V2Warn :=
  let provWarns := PROVIDERS.filterMap (fun p =>
    if containsSub p source ∧ ¬ containsSub p translation then some (V2Warn.providerMissing p)
    else none)
  let termWarns := TECH_TERMS.filterMap (fun t =>
    if containsSub (upperStr t) (upperStr source) ∧ ¬ containsSub (upperStr t) (upperStr translation) then
      some (V2Warn.termMissing t)
    else none)
  provWarns ++ termWarns

/-- Source `PlaceholderValidator.auto_fix` (translate_v2.py:172): the i-th
wrong-format occurrence is replaced (first occurrence at the time of the
replacement) by the i-th source placeholder; indices beyond the source
placeholder list are skipped.  The fixes list carries the (old, new) pairs of
the `Fixed old -> new` messages. -/
def auto_fix (source translation : Str) : Str × List (Str × Str) :=
  let source_ph := extract_placeholders source
  let wrong := findall_sdf translation
  if wrong ≠ [] ∧ source_ph ≠ [] then
    ((wrong.zip source_ph).foldl (fun r p => replaceFirst p.1 p.2 r) translation,
     wrong.zip source_ph)
  else (translation, [])

end PlaceholderValidator

/-! ## BatchManager (translate_v2.py:194) -/

namespace BatchManager

/-- Source `BatchManager.__init__`: ceiling-division batch size. -/
def batch_size (total num : Nat) : Nat :=
  if num > 0 then (total + num - 1) / num else total

/-- Source `BatchManager.get_batch_ranges`: 1-indexed `(batch_num, start, end)`
triples, skipping batches whose start exceeds the total. -/
def get_batch_ranges (total num : Nat) : List (Nat × Nat × Nat) :=
  (List.range num).filterMap (fun i =>
    if i * batch_size total num + 1 ≤ total then
      some (i + 1, i * batch_size total num + 1, min ((i + 1) * batch_size total num) total)
    else none)

end BatchManager

/-! ## POEntry and derived state (identical in both scripts) -/

/-- Source class `POEntry`. -/
structure POEntry where
  comments : List Str := []
  references : List Str := []
  flags : List Str := []
  msgid : Str := []
  msgid_plural : Str := []
  msgstr : Str := []
  msgstr_plural : List Str := []
  line_number : Nat := 0
  is_header : Bool := false
deriving DecidableEq, Repr

/-- Source property `POEntry.is_fuzzy`: `"fuzzy" in self.flags`. -/
def POEntry.is_fuzzy (e : POEntry) : Bool :=
  decide ("fuzzy".data ∈ e.flags)

/-- Source property `POEntry.is_translated`. -/
def POEntry.is_translated (e : POEntry) : Bool :=
  !e.msgstr.isEmpty && !e.is_header

/-- Source property `POEntry.is_verified`: translated and not fuzzy. -/
def POEntry.is_verified (e : POEntry) : Bool :=
  e.is_translated && !e.is_fuzzy

/-- Source property `POEntry.is_empty`. -/
def POEntry.is_empty (e : POEntry) : Bool :=
  e.msgstr.isEmpty && !e.is_header

/-! ## PO parser (translate_v2.py:293, textually identical in translate.py:174)

The file is modelled as the list of its lines, each without its trailing
newline, exactly what Python's `for line in f` + `rstrip('\n')` yields. -/

/-- The `current_field` values of the parser (`'msgid'`, `'msgid_plural'`,
`'msgstr'`, `'msgstr[i]'`). -/
inductive PField
  | fmsgid
  | fmsgidPlural
  | fmsgstr
  | fmsgstrIdx (i : Nat)
deriving DecidableEq, Repr

/-- Parser state: emitted entries, current entry, current field, line counter. -/
structure ParseState where
  entries : List POEntry := []
  cur : Option POEntry := none
  field : Option PField := none
  lineNo : Nat := 0
deriving Repr

/-- Python `value.startswith('"') and value.endswith('"')`, returning
`value[1:-1]` on success. -/
def quotedInner : Str → Option Str
  | [] => none
  | c :: cs =>
    if c = '\"' ∧ (c :: cs).getLast? = some '\"' then some cs.dropLast else none

/-- The `re.match(r'msgstr\[(\d+)\] "(.*)"', line)` test: on success, the
parsed index and `group(2)` (the text between the first quote and the last
quote of the line). -/
def msgstrIdxMatch (line : Str) : Option (Nat × Str) :=
  if "msgstr[".data.isPrefixOf line then
    let rest := line.drop 7
    let ds := rest.takeWhile Char.isDigit
    let rest2 := rest.drop ds.length
    if ds ≠ [] ∧ "] \"".data.isPrefixOf rest2 then
      let content := rest2.drop 3
      let tail := (content.reverse.takeWhile (fun c => c ≠ '\"')).length
      if tail < content.length then some (decToNat ds, content.take (content.length - 1 - tail))
      else none
    else none
  else none

/-- One iteration of the parser loop of `parse_po_file`, translated branch by
branch from the source. -/
def parseLine (st0 : ParseState) (line : Str) : ParseState :=
  let st := { st0 with lineNo := st0.lineNo + 1 }
  if (pyStrip line).isEmpty then
    match st.cur with
    | some c =>
      if !c.msgid.isEmpty || c.is_header then
        { st with entries := st.entries ++ [c], cur := none, field := none }
      else { st with cur := none, field := none }
    | none => { st with cur := none, field := none }
  else
    let c := match st.cur with
      | some c => c
      | none => ({ line_number := st.lineNo } : POEntry)
    if "#".data.isPrefixOf line then
      let c := { c with comments := c.comments ++ [line] }
      let c :=
        if "#:".data.isPrefixOf line then
          { c with references := c.references ++ pySplitWS (pyStrip (line.drop 2)) }
        else if "#,".data.isPrefixOf line then
          { c with flags := c.flags ++ stripSplitComma (pyStrip (line.drop 2)) }
        else c
      { st with cur := some c }
    else if "msgid ".data.isPrefixOf line then
      let c :=
        match quotedInner (pyStrip (line.drop 6)) with
        | some inner =>
          let c := { c with msgid := unescape_po_string inner }
          if c.msgid.isEmpty ∧ st.entries = [] then { c with is_header := true } else c
        | none => c
      { st with cur := some c, field := some PField.fmsgid }
    else if "msgid_plural ".data.isPrefixOf line then
      let c :=
        match quotedInner (pyStrip (line.drop 13)) with
        | some inner => { c with msgid_plural := unescape_po_string inner }
        | none => c
      { st with cur := some c, field := some PField.fmsgidPlural }
    else if "msgstr ".data.isPrefixOf line then
      let c :=
        match quotedInner (pyStrip (line.drop 7)) with
        | some inner => { c with msgstr := unescape_po_string inner }
        | none => c
      { st with cur := some c, field := some PField.fmsgstr }
    else
      match msgstrIdxMatch line with
      | some (idx, raw) =>
        let value := unescape_po_string raw
        let padded := c.msgstr_plural ++ List.replicate (idx + 1 - c.msgstr_plural.length) []
        let c := { c with msgstr_plural := padded.set idx value }
        { st with cur := some c, field := some (PField.fmsgstrIdx idx) }
      | none =>
        match quotedInner line with
        | some inner =>
          let value := unescape_po_string inner
          let c :=
            match st.field with
            | some PField.fmsgid => { c with msgid := c.msgid ++ value }
            | some PField.fmsgidPlural => { c with msgid_plural := c.msgid_plural ++ value }
            | some PField.fmsgstr => { c with msgstr := c.msgstr ++ value }
            | some (PField.fmsgstrIdx i) =>
              { c with msgstr_plural := c.msgstr_plural.set i (c.msgstr_plural.getD i [] ++ value) }
            | none => c
          { st with cur := some c }
        | none => { st with cur := some c }

/-- Source `parse_po_file`: fold the line handler over the file, then flush the
trailing entry. -/
def parse_po_file (lines : List Str) : List POEntry :=
  let st := lines.foldl parseLine {}
  match st.cur with
  | some c => if !c.msgid.isEmpty || c.is_header then st.entries ++ [c] else st.entries
  | none => st.entries

/-! ## PO writer (translate_v2.py:407; translate.py:288 differs only in the
verified check on `should_add_fuzzy`) -/

/-- Rewriting of one `#,` comment line by the writer: re-split the flags,
remove `fuzzy` if requested, add `fuzzy` if requested and absent, emit nothing
if the flag list ends up empty. -/
def rewriteFlagLine (sr sa : Bool) (c : Str) : Option Str :=
  let flags := stripSplitComma (c.drop 2)
  let flags := if sr then flags.filter (fun fl => fl ≠ "fuzzy".data) else flags
  let flags := if sa ∧ ¬ flags.contains "fuzzy".data then flags ++ ["fuzzy".data] else flags
  if flags ≠ [] then some ("#, ".data ++ joinCommaSpace flags) else none

/-- The comment-replay loop of `write_po_file`: verbatim comments, rewritten
flag lines, and the `wrote_fuzzy_line` boolean. -/
def writeComments (sr sa : Bool) (comments : List Str) : List Str × Bool :=
  comments.foldl (fun acc c =>
    if "#,".data.isPrefixOf c then
      match rewriteFlagLine sr sa c with
      | some l => (acc.1 ++ [l], true)
      | none => (acc.1, true)
    else (acc.1 ++ [c], acc.2)) ([], false)

/-- The multi-line `msgid ""` block of `write_po_file`: each part is compared
by value against the final part (`part != entry.msgid.split('\n')[-1]`). -/
def msgidBlockLines (msgid : Str) : List Str :=
  let parts := splitOnChar '\n' msgid
  let lastPart := parts.getLastD []
  "msgid \"\"".data :: parts.filterMap (fun part =>
    if part ≠ lastPart then some (['\"'] ++ escape_po_string part ++ "\\n\"".data)
    else if part ≠ [] then some (['\"'] ++ escape_po_string part ++ ['\"'])
    else none)

/-- Source `format_msgstr_for_po` (index-based loop over the newline parts). -/
def format_msgstr_for_po (msgstr : Str) : List Str :=
  if msgstr.isEmpty then ["msgstr \"\"".data]
  else if '\n' ∈ msgstr then
    let parts := splitOnChar '\n' msgstr
    "msgstr \"\"".data :: parts.enum.filterMap (fun p =>
      if p.1 < parts.length - 1 then some (['\"'] ++ escape_po_string p.2 ++ "\\n\"".data)
      else if p.2 ≠ [] then some (['\"'] ++ escape_po_string p.2 ++ ['\"'])
      else none)
  else ["msgstr \"".data ++ escape_po_string msgstr ++ ['\"']]

/-- The per-entry body of `write_po_file`, shared verbatim by both scripts;
`sr`/`sa` are the computed `should_remove_fuzzy`/`should_add_fuzzy` booleans. -/
def writeEntryAux (sr sa : Bool) (e : POEntry) : List Str :=
  let cw := writeComments sr sa e.comments
  let ls := cw.1
  let ls := if sa ∧ cw.2 = false then ls ++ ["#, fuzzy".data] else ls
  let ls := ls ++
    (if '\n' ∈ e.msgid ∨ e.msgid.length > 70 then msgidBlockLines e.msgid
     else ["msgid \"".data ++ escape_po_string e.msgid ++ ['\"']])
  let ls := ls ++
    (if ¬ e.msgid_plural.isEmpty then
      ["msgid_plural \"".data ++ escape_po_string e.msgid_plural ++ ['\"']]
     else [])
  let ls := ls ++ format_msgstr_for_po e.msgstr
  ls ++ e.msgstr_plural.enum.map (fun p =>
    "msgstr[".data ++ natToStr p.1 ++ "] \"".data ++ escape_po_string p.2 ++ ['\"'])

/-- Per-entry writer of translate_v2.py: `should_add_fuzzy = entry.msgid in
add_fuzzy_for` (no verified check). -/
def writeEntryV2 (removeFuzzyFor addFuzzyFor : List Str) (e : POEntry) : List Str :=
  writeEntryAux (decide (e.msgid ∈ removeFuzzyFor)) (decide (e.msgid ∈ addFuzzyFor)) e

/-- Per-entry writer of translate.py: `should_add_fuzzy = entry.msgid in
add_fuzzy_for and not entry.is_verified`. -/
def writeEntryV1 (removeFuzzyFor addFuzzyFor : List Str) (e : POEntry) : List Str :=
  writeEntryAux (decide (e.msgid ∈ removeFuzzyFor))
    (decide (e.msgid ∈ addFuzzyFor) && !e.is_verified) e

/-- Source `write_po_file` (translate_v2.py): all entries, one blank line
between consecutive entries, none after the last. -/
def write_po_file (removeFuzzyFor addFuzzyFor : List Str) : List POEntry → List Str
  | [] => []
  | [e] => writeEntryV2 removeFuzzyFor addFuzzyFor e
  | e :: e2 :: rest =>
    writeEntryV2 removeFuzzyFor addFuzzyFor e ++ [[]] ++
      write_po_file removeFuzzyFor addFuzzyFor (e2 :: rest)

/-! ## Filtering (translate_v2.py:477; translate.py:345 lacks the errors mode) -/

/-- The four extraction modes of `filter_entries`. -/
inductive FilterMode
  | empty
  | fuzzy
  | all
  | errors
deriving DecidableEq, Repr

/-- Source `has_validation_issues` (translate_v2.py:463). -/
def has_validation_issues (e : POEntry) : Bool :=
  if e.msgstr.isEmpty then false
  else
    let source := NewlineHandler.encode e.msgid
    let trans := NewlineHandler.encode e.msgstr
    !(PlaceholderValidator.validate source trans).isEmpty ||
      !(PlaceholderValidator.validate_warnings source trans).isEmpty

/-- Source `filter_entries` (translate_v2.py:477), translated as the
accumulating loop of the source with its if/elif chain. -/
def filter_entries (entries : List POEntry) (mode : FilterMode) : List POEntry :=
  entries.foldl (fun result e =>
    if e.is_header || e.msgid.isEmpty then result
    else if e.is_verified then result
    else
      match mode with
      | FilterMode.empty => if e.is_empty then result ++ [e] else result
      | FilterMode.fuzzy => if e.is_fuzzy then result ++ [e] else result
      | FilterMode.all => result ++ [e]
      | FilterMode.errors =>
        if e.is_fuzzy && has_validation_issues e then result ++ [e] else result) []

/-! ## Validation of entries, translate.py:406 -/

/-- Structured rendering of the issue strings built by `validate_entry`
(translate.py): each constructor carries the interpolated data. -/
inductive V1Msg
  | phCountMismatch (i : Nat) (srcCount transCount : Nat)
  | wrongFormat (wrong : List Str)
  | brandMissing (b : Str)
  | providerMissing (p : Str)
  | termMissing (t : Str)
deriving DecidableEq

/-- Source class `ValidationResult` (translate.py:387); issues carry the line
number passed to `add_error` / `add_warning`. -/
structure ValidationResult where
  errors : List (Nat × V1Msg) := []
  warnings : List (Nat × V1Msg) := []
deriving DecidableEq

/-- Source `ValidationResult.add_error`. -/
def ValidationResult.add_error (r : ValidationResult) (ln : Nat) (m : V1Msg) : ValidationResult :=
  { r with errors := r.errors ++ [(ln, m)] }

/-- Source `ValidationResult.add_warning`. -/
def ValidationResult.add_warning (r : ValidationResult) (ln : Nat) (m : V1Msg) : ValidationResult :=
  { r with warnings := r.warnings ++ [(ln, m)] }

/-- Source `ValidationResult.passed`: no errors. -/
def ValidationResult.passed (r : ValidationResult) : Bool :=
  r.errors.isEmpty

/-- The `add_issue` selector of `validate_entry`: warnings for fuzzy entries,
errors otherwise. -/
def addIssue (fuzzy : Bool) (r : ValidationResult) (ln : Nat) (m : V1Msg) : ValidationResult :=
  if fuzzy then r.add_warning ln m else r.add_error ln m

/-- Check 1 of `validate_entry` (translate.py:421): placeholder counts for
%1..%9 compared with `str.count`. -/
def ve_ph_stage (e : POEntry) (r : ValidationResult) : ValidationResult :=
  (List.range' 1 9).foldl (fun r i =>
    if countSub ['%', Char.ofNat (48 + i)] e.msgid ≠
        countSub ['%', Char.ofNat (48 + i)] e.msgstr then
      addIssue e.is_fuzzy r e.line_number
        (V1Msg.phCountMismatch i (countSub ['%', Char.ofNat (48 + i)] e.msgid)
          (countSub ['%', Char.ofNat (48 + i)] e.msgstr))
    else r) r

/-- Check 2 of `validate_entry` (translate.py:430): wrong placeholder format. -/
def ve_fmt_stage (e : POEntry) (r : ValidationResult) : ValidationResult :=
  if extract_placeholders e.msgid ≠ [] ∧ findall_sdf e.msgstr ≠ [] then
    addIssue e.is_fuzzy r e.line_number (V1Msg.wrongFormat (findall_sdf e.msgstr))
  else r

/-- Check 3 of `validate_entry` (translate.py:439): brand names, added through
`add_issue` like the previous checks. -/
def ve_brand_stage (e : POEntry) (r : ValidationResult) : ValidationResult :=
  BRANDS_V1.foldl (fun r b =>
    if containsSub b e.msgid ∧ ¬ containsSub b e.msgstr then
      addIssue e.is_fuzzy r e.line_number (V1Msg.brandMissing b)
    else r) r

/-- Check 4 of `validate_entry` (translate.py:447): provider names, always
warnings. -/
def ve_provider_stage (e : POEntry) (r : ValidationResult) : ValidationResult :=
  PROVIDERS.foldl (fun r p =>
    if containsSub p e.msgid ∧ ¬ containsSub p e.msgstr then
      r.add_warning e.line_number (V1Msg.providerMissing p)
    else r) r

/-- Check 5 of `validate_entry` (translate.py:458): technical terms, always
warnings, case-insensitive. -/
def ve_term_stage (e : POEntry) (r : ValidationResult) : ValidationResult :=
  TECH_TERMS.foldl (fun r t =>
    if containsSub (upperStr t) (upperStr e.msgid) ∧
        ¬ containsSub (upperStr t) (upperStr e.msgstr) then
      r.add_warning e.line_number (V1Msg.termMissing t)
    else r) r

/-- Source `validate_entry` (translate.py:406): the five checks in source
order, after the early return for empty msgid/msgstr. -/
def validate_entry (e : POEntry) (r : ValidationResult) : ValidationResult :=
  if e.msgid.isEmpty || e.msgstr.isEmpty then r
  else ve_term_stage e (ve_provider_stage e (ve_brand_stage e (ve_fmt_stage e (ve_ph_stage e r))))

/-! ## Import pipelines -/

/-- Insert-or-update for the association lists that model Python dicts
(update keeps the original position, insertion appends). -/
def alistUpsert (k : Str) (v : Str) : List (Str × Str) → List (Str × Str)
  | [] => [(k, v)]
  | (k0, v0) :: r => if k0 = k then (k0, v) :: r else (k0, v0) :: alistUpsert k v r

/-- Same upsert for the number-keyed dicts of the numbered formats. -/
def alistUpsertNat (k : Nat) (v : Str) : List (Nat × Str) → List (Nat × Str)
  | [] => [(k, v)]
  | (k0, v0) :: r => if k0 = k then (k0, v) :: r else (k0, v0) :: alistUpsertNat k v r

/-- Lookup in the association lists that model Python dicts. -/
def alistLookup (k : Str) : List (Str × Str) → Option Str
  | [] => none
  | (k0, v0) :: r => if k0 = k then some v0 else alistLookup k r

/-- The dict comprehension `{e.msgid: e for e in entries if e.msgid}` shared by
both import paths: for a given key the last entry with that (non-empty) msgid
wins. -/
def lookupEntryByMsgid (entries : List POEntry) (k : Str) : Option POEntry :=
  ((entries.filter (fun e => !e.msgid.isEmpty)).reverse).find? (fun e => e.msgid = k)

/-- The `^(\d+)\.\s*(.*)$` match of `parse_v2_numbered_format`; yields the
number and `group(2).strip()`. -/
def numberedLineMatch (line : Str) : Option (Nat × Str) :=
  let ds := line.takeWhile Char.isDigit
  if ds ≠ [] ∧ (line.drop ds.length).head? = some '.' then
    some (decToNat ds, pyStrip (line.drop (ds.length + 1)))
  else none

/-- Source `parse_v2_numbered_format` (translate_v2.py:579) over the lines of
the import file. -/
def parse_v2_numbered_format (lines : List Str) : List (Nat × Str) :=
  lines.foldl (fun acc line =>
    if "#".data.isPrefixOf line || (pyStrip line).isEmpty then acc
    else
      match numberedLineMatch line with
      | some p => alistUpsertNat p.1 p.2 acc
      | none => acc) []

/-- Structured rendering of the error strings of `import_v2_format`. -/
inductive ImpErr
  | unknownNumber
  | msgidNotFound
  | validation (e : V2Err)
deriving DecidableEq

/-- Result quadruple of `import_v2_format`: translations dict, errors,
warnings, skipped-verified count. -/
structure ImportResult where
  translations : List (Str × Str) := []
  errors : List (Nat × ImpErr) := []
  warnings : List (Nat × V2Warn) := []
  skipped : Nat := 0
deriving DecidableEq

/-- The body of the per-item loop of `import_v2_format` (translate_v2.py:626):
unknown number, missing msgid, the verified skip, optional auto-fix,
validation, then acceptance with newline decoding. -/
def importStepV2 (mapping : Nat → Option Str) (entries : List POEntry) (autoFix : Bool)
    (st : ImportResult) (item : Nat × Str) : ImportResult :=
  match mapping item.1 with
  | none => { st with errors := st.errors ++ [(item.1, ImpErr.unknownNumber)] }
  | some msgid =>
    let source_encoded := NewlineHandler.encode msgid
    match lookupEntryByMsgid entries msgid with
    | none => { st with errors := st.errors ++ [(item.1, ImpErr.msgidNotFound)] }
    | some entry =>
      if entry.is_verified then { st with skipped := st.skipped + 1 }
      else
        let trans_text :=
          if autoFix then (PlaceholderValidator.auto_fix source_encoded item.2).1 else item.2
        let verrs := PlaceholderValidator.validate source_encoded trans_text
        if verrs ≠ [] then
          { st with errors := st.errors ++ verrs.map (fun e => (item.1, ImpErr.validation e)) }
        else
          let newWarns :=
            (PlaceholderValidator.validate_warnings source_encoded trans_text).map
              (fun w => (item.1, w))
          let st := { st with warnings := st.warnings ++ newWarns }
          { st with translations :=
              alistUpsert msgid (NewlineHandler.decode trans_text) st.translations }

/-- Source `import_v2_format` (translate_v2.py:598), starting from the parsed
numbered items (the file and mapping loads are external input). -/
def import_v2_format (mapping : Nat → Option Str) (entries : List POEntry) (autoFix : Bool)
    (items : List (Nat × Str)) : ImportResult :=
  items.foldl (importStepV2 mapping entries autoFix) {}

/-- Structured rendering of the error strings of `import_translations`
(translate.py). -/
inductive ImpErrV1
  | unknownNumber
  | msgidNotFound
  | validation (ln : Nat) (m : V1Msg)
deriving DecidableEq

/-- Result triple of `import_translations`: translations dict, errors,
skipped-verified count. -/
structure ImportResultV1 where
  translations : List (Str × Str) := []
  errors : List (Nat × ImpErrV1) := []
  skipped : Nat := 0
deriving DecidableEq

/-- The body of the per-item loop of `import_translations` (translate.py:604):
the validation runs on a temporary entry carrying only msgid/msgstr and the
number as line number. -/
def importStepV1 (mapping : Nat → Option Str) (entries : List POEntry)
    (st : ImportResultV1) (item : Nat × Str) : ImportResultV1 :=
  match mapping item.1 with
  | none => { st with errors := st.errors ++ [(item.1, ImpErrV1.unknownNumber)] }
  | some msgid =>
    match lookupEntryByMsgid entries msgid with
    | none => { st with errors := st.errors ++ [(item.1, ImpErrV1.msgidNotFound)] }
    | some entry =>
      if entry.is_verified then { st with skipped := st.skipped + 1 }
      else
        let temp : POEntry := { msgid := msgid, msgstr := item.2, line_number := item.1 }
        let tr := validate_entry temp {}
        if tr.errors ≠ [] then
          { st with errors := st.errors ++ tr.errors.map (fun e => (item.1, ImpErrV1.validation e.1 e.2)) }
        else { st with translations := alistUpsert msgid item.2 st.translations }

/-- Source `import_translations` (translate.py:575), starting from the parsed
numbered items. -/
def import_translations (mapping : Nat → Option Str) (entries : List POEntry)
    (items : List (Nat × Str)) : ImportResultV1 :=
  items.foldl (importStepV1 mapping entries) {}

/-! ## Proof-side characterizations (used only in statements and proofs) -/

/-- A numbered item resolves to a verified entry: its number is in the mapping
and the mapped msgid is owned by a verified entry. -/
def resolvesVerified (mapping : Nat → Option Str) (entries : List POEntry)
    (item : Nat × Str) : Bool :=
  match mapping item.1 with
  | none => false
  | some k =>
    match lookupEntryByMsgid entries k with
    | none => false
    | some e => e.is_verified

/-- Concatenation of a per-character token function over a string. -/
def concatTok (f : Char → Str) : Str → Str
  | [] => []
  | c :: cs => f c ++ concatTok f cs

/-- The escape tokens after undoing the `\n` substitution. -/
def escCharN (c : Char) : Str :=
  if c = '\\' then ['\\', '\\']
  else if c = '\"' then ['\\', '\"']
  else if c = '\t' then ['\\', 't']
  else [c]

/-- The escape tokens after undoing the `\n` and `\t` substitutions. -/
def escCharNT (c : Char) : Str :=
  if c = '\\' then ['\\', '\\']
  else if c = '\"' then ['\\', '\"']
  else [c]

/-- The escape tokens after undoing the `\n`, `\t` and `\"` substitutions. -/
def escCharNTQ (c : Char) : Str :=
  if c = '\\' then ['\\', '\\'] else [c]

/-! Proof-side definitions for the parse/write roundtrip analysis. -/

/-- The four entry fields the roundtrip claim compares: key, translation,
plural translations, flag set. -/
def keyFields (e : POEntry) : Str × Str × List Str × List Str :=
  (e.msgid, e.msgstr, e.msgstr_plural, e.flags)

/-- The flag tokens the parser accumulates from a comment list. -/
def flagsOfComments (cs : List Str) : List Str :=
  (cs.map (fun c =>
    if "#,".data.isPrefixOf c then stripSplitComma (pyStrip (c.drop 2)) else [])).flatten

/-- Structural shape every entry produced by `parse_po_file` has: comments are
`#`-lines and the flag list is exactly the parse of the `#,` comments. -/
def parsedShape (e : POEntry) : Prop :=
  (∀ c ∈ e.comments, "#".data.isPrefixOf c = true) ∧
  e.flags = flagsOfComments e.comments

/-- Content restrictions under which writing is lossless: escape-safe text and
no non-final newline segment of the msgid equal (by value) to the final one. -/
@[reducible] def contentSafe (e : POEntry) : Prop :=
  noBadPairs e.msgid = true ∧ noBadPairs e.msgstr = true ∧
  (∀ p ∈ e.msgstr_plural, noBadPairs p = true) ∧
  (∀ p ∈ (splitOnChar '\n' e.msgid).dropLast,
    p ≠ (splitOnChar '\n' e.msgid).getLastD [])

/-- The quoted continuation lines both multi-line writers emit for a non-empty
part list: every non-final part with an explicit `\n`, the final part only if
non-empty. -/
def contLines : List Str → List Str
  | [] => []
  | [p] => if p ≠ [] then [['\"'] ++ escape_po_string p ++ ['\"']] else []
  | p :: q :: rest =>
    (['\"'] ++ escape_po_string p ++ "\\n\"".data) :: contLines (q :: rest)

/-- Rejoining newline-split parts. -/
def joinNL : List Str → Str
  | [] => []
  | [p] => p
  | p :: q :: rest => p ++ '\n' :: joinNL (q :: rest)

/-- The trailing-entry flush of `parse_po_file`, factored out so the fold can
be reasoned about separately. -/
def parseFinish (st : ParseState) : List POEntry :=
  match st.cur with
  | some c => if !c.msgid.isEmpty || c.is_header then st.entries ++ [c] else st.entries
  | none => st.entries

/-- Structural invariant maintained by the parser loop: every emitted or
pending entry has `#`-shaped comments with a synchronised flag list, only the
first emitted entry may have an empty key, and a pending header entry implies
nothing was emitted yet. -/
def parseInv (st : ParseState) : Prop :=
  (∀ e ∈ st.entries, (∀ x ∈ e.comments, ∃ r, x = '#' :: r) ∧
    e.flags = flagsOfComments e.comments) ∧
  (∀ c, st.cur = some c → (∀ x ∈ c.comments, ∃ r, x = '#' :: r) ∧
    c.flags = flagsOfComments c.comments) ∧
  (∀ e ∈ st.entries.drop 1, e.msgid ≠ []) ∧
  (∀ c, st.cur = some c → c.is_header = true → st.entries = [])

end KOA

/-! # Theorems -/

namespace KOA

/-! ## Generic lemmas about the Python string-operation models -/

theorem replaceAllGo_nil (pat rep : Str) (f : Nat) : replaceAllGo pat rep f [] = [] := by
  cases f <;> rfl

theorem replaceAllGo_fuel (pat rep : Str) (hp : pat ≠ []) :
    ∀ f g s, s.length ≤ f → s.length ≤ g →
      replaceAllGo pat rep f s = replaceAllGo pat rep g s := by
  intro f
  induction f with
  | zero =>
    intro g s hf _
    have : s = [] := List.eq_nil_of_length_eq_zero (Nat.le_zero.mp hf)
    subst this
    rw [replaceAllGo_nil, replaceAllGo_nil]
  | succ f ih =>
    intro g s hf hg
    cases s with
    | nil => rw [replaceAllGo_nil, replaceAllGo_nil]
    | cons c cs =>
      cases g with
      | zero => simp at hg
      | succ g =>
        have hplen : 1 ≤ pat.length := List.length_pos.mpr hp
        simp only [List.length_cons] at hf hg
        simp only [replaceAllGo]
        by_cases hpre : pat.isPrefixOf (c :: cs)
        · simp only [hpre, if_true]
          have hd : (List.drop pat.length (c :: cs)).length ≤ f := by
            rw [List.length_drop, List.length_cons]
            omega
          have hd2 : (List.drop pat.length (c :: cs)).length ≤ g := by
            rw [List.length_drop, List.length_cons]
            omega
          rw [ih g _ hd hd2]
        · have h := ih g cs (by omega) (by omega)
          simp [hpre, h]

theorem replaceAll_nil (pat rep : Str) : replaceAll pat rep [] = [] := by
  simp [replaceAll, replaceAllGo_nil]

theorem replaceAll_cons (pat rep : Str) (hp : pat ≠ []) (c : Char) (cs : Str) :
    replaceAll pat rep (c :: cs) =
      if pat.isPrefixOf (c :: cs) then
        rep ++ replaceAll pat rep (List.drop pat.length (c :: cs))
      else c :: replaceAll pat rep cs := by
  have hplen : 1 ≤ pat.length := List.length_pos.mpr hp
  show replaceAllGo pat rep (cs.length + 1) (c :: cs) = _
  simp only [replaceAllGo]
  by_cases hpre : pat.isPrefixOf (c :: cs)
  · simp only [hpre, if_true]
    congr 1
    apply replaceAllGo_fuel pat rep hp
    · rw [List.length_drop, List.length_cons]
      omega
    · exact Nat.le_refl _
  · simp only [hpre, if_false]
    rfl

theorem isPrefixOf_cons2 (a b : Char) (as bs : Str) :
    (a :: as).isPrefixOf (b :: bs) = (a == b && as.isPrefixOf bs) := rfl

theorem replaceAll_one_cons (p : Char) (rep : Str) (c : Char) (cs : Str) :
    replaceAll [p] rep (c :: cs) = (if p = c then rep else [c]) ++ replaceAll [p] rep cs := by
  rw [replaceAll_cons [p] rep (by simp) c cs]
  by_cases h : p = c
  · subst h
    have hpre : [p].isPrefixOf (p :: cs) = true := by
      simp [isPrefixOf_cons2, List.isPrefixOf]
    simp [hpre]
  · have hpre : [p].isPrefixOf (c :: cs) = false := by
      simp [isPrefixOf_cons2, List.isPrefixOf]
      exact fun hh => h hh
    simp [hpre, h]

theorem replaceAll_one_append (p : Char) (rep : Str) (a b : Str) :
    replaceAll [p] rep (a ++ b) = replaceAll [p] rep a ++ replaceAll [p] rep b := by
  induction a with
  | nil => simp [replaceAll_nil]
  | cons c cs ih => simp [replaceAll_one_cons, ih]

theorem escape_nil : escape_po_string [] = [] := by
  simp [escape_po_string, replaceAll_nil]

theorem escape_cons (c : Char) (cs : Str) :
    escape_po_string (c :: cs) = escChar c ++ escape_po_string cs := by
  unfold escape_po_string
  rw [replaceAll_one_cons, replaceAll_one_append, replaceAll_one_append, replaceAll_one_append]
  congr 1
  by_cases h1 : c = '\\'
  · subst h1; rfl
  by_cases h2 : c = '\"'
  · subst h2; rfl
  by_cases h3 : c = '\n'
  · subst h3; rfl
  by_cases h4 : c = '\t'
  · subst h4; rfl
  have e1 : ('\\' = c) = False := by simp; exact fun hh => h1 hh.symm
  have e2 : ('\"' = c) = False := by simp; exact fun hh => h2 hh.symm
  have e3 : ('\n' = c) = False := by simp; exact fun hh => h3 hh.symm
  have e4 : ('\t' = c) = False := by simp; exact fun hh => h4 hh.symm
  simp [e1, e2, e3, e4, replaceAll_one_cons, replaceAll_nil, escChar, h1, h2, h3, h4]

theorem escape_eq_concatTok (s : Str) : escape_po_string s = concatTok escChar s := by
  induction s with
  | nil => exact escape_nil
  | cons c cs ih => rw [escape_cons, ih]; rfl

theorem escape_append (a b : Str) :
    escape_po_string (a ++ b) = escape_po_string a ++ escape_po_string b := by
  induction a with
  | nil => simp [escape_nil]
  | cons c cs ih => simp [escape_cons, ih]

theorem noBadPairs_tail (c : Char) (cs : Str) (h : noBadPairs (c :: cs) = true) :
    noBadPairs cs = true := by
  cases cs with
  | nil => rfl
  | cons d r => simp [noBadPairs] at h; simp [noBadPairs, h]

theorem noBadPairs_bs_head (cs : Str) (h : noBadPairs ('\\' :: cs) = true) :
    cs.head? ≠ some 'n' ∧ cs.head? ≠ some 't' := by
  cases cs with
  | nil => simp
  | cons d r =>
    constructor <;> intro hd <;> simp at hd <;> subst hd <;> simp [noBadPairs] at h

theorem ra2_step_match (x : Char) (rep : Str) (T : Str) :
    replaceAll ['\\', x] rep ('\\' :: x :: T) = rep ++ replaceAll ['\\', x] rep T := by
  rw [replaceAll_cons _ _ (by simp)]
  have hpre : (['\\', x].isPrefixOf ('\\' :: x :: T)) = true := by
    rw [isPrefixOf_cons2, isPrefixOf_cons2]
    simp [List.isPrefixOf]
  simp [hpre, List.drop]

theorem ra2_step_one (x : Char) (rep : Str) (c : Char) (T : Str) (hc : c ≠ '\\') :
    replaceAll ['\\', x] rep (c :: T) = c :: replaceAll ['\\', x] rep T := by
  rw [replaceAll_cons _ _ (by simp)]
  have hpre : (['\\', x].isPrefixOf (c :: T)) = false := by
    rw [isPrefixOf_cons2]
    simp [beq_iff_eq]
    exact fun he => absurd he.symm hc
  simp [hpre]

theorem ra2_step_bs2 (x : Char) (rep : Str) (y : Char) (T : Str) (hy : y ≠ x)
    (hT : y = '\\' → T.head? ≠ some x) :
    replaceAll ['\\', x] rep ('\\' :: y :: T) = '\\' :: y :: replaceAll ['\\', x] rep T := by
  rw [replaceAll_cons _ _ (by simp)]
  have h1 : (['\\', x].isPrefixOf ('\\' :: y :: T)) = false := by
    rw [isPrefixOf_cons2, isPrefixOf_cons2]
    simp [beq_iff_eq]
    intro hx
    exact absurd hx.symm hy
  simp only [h1, Bool.false_eq_true, if_false]
  congr 1
  by_cases hybs : y = '\\'
  · subst hybs
    rw [replaceAll_cons _ _ (by simp)]
    have h2 : (['\\', x].isPrefixOf ('\\' :: T)) = false := by
      cases T with
      | nil => rw [isPrefixOf_cons2]; simp [List.isPrefixOf]
      | cons t ts =>
        rw [isPrefixOf_cons2, isPrefixOf_cons2]
        simp [beq_iff_eq]
        intro hx
        exact (hT rfl) (by simp [hx])
    simp [h2]
  · exact ra2_step_one x rep y T hybs

theorem head?_ne_of_concatTok (f : Char → Str)
    (hf : ∀ c, (f c).head? = some c ∨ (f c).head? = some '\\')
    (x : Char) (hx : x ≠ '\\') (cs : Str) (hcs : cs.head? ≠ some x) :
    (concatTok f cs).head? ≠ some x := by
  cases cs with
  | nil => simp [concatTok]
  | cons d r =>
    show (f d ++ concatTok f r).head? ≠ some x
    rcases hf d with hd | hd <;> rw [List.head?_append] <;> rw [hd] <;> simp
    · intro he
      subst he
      simp at hcs
    · exact fun he => hx he.symm

theorem escChar_head (c : Char) : (escChar c).head? = some c ∨ (escChar c).head? = some '\\' := by
  unfold escChar
  split_ifs <;> simp

theorem escCharN_head (c : Char) :
    (escCharN c).head? = some c ∨ (escCharN c).head? = some '\\' := by
  unfold escCharN
  split_ifs <;> simp

theorem escCharNT_head_ne_quote (cs : Str) :
    (concatTok escCharNT cs).head? ≠ some '\"' := by
  cases cs with
  | nil => simp [concatTok]
  | cons d r =>
    show (escCharNT d ++ concatTok escCharNT r).head? ≠ some '\"'
    unfold escCharNT
    split_ifs with h1 h2 <;> rw [List.head?_append] <;> simp
    intro he
    exact h2 he

theorem unescape_pass_n : ∀ s : Str, noBadPairs s = true →
    replaceAll ['\\', 'n'] ['\n'] (concatTok escChar s) = concatTok escCharN s := by
  intro s
  induction s with
  | nil => intro _; simp [concatTok, replaceAll_nil]
  | cons c cs ih =>
    intro h
    have hcs : noBadPairs cs = true := noBadPairs_tail c cs h
    show replaceAll ['\\', 'n'] ['\n'] (escChar c ++ concatTok escChar cs) =
      escCharN c ++ concatTok escCharN cs
    by_cases h1 : c = '\\'
    · subst h1

      have hhead : cs.head? ≠ some 'n' := (noBadPairs_bs_head cs h).1
      have hstep := ra2_step_bs2 'n' ['\n'] '\\' (concatTok escChar cs) (by decide)
        (fun _ => head?_ne_of_concatTok escChar escChar_head 'n' (by decide) cs hhead)
      show replaceAll ['\\', 'n'] ['\n'] ('\\' :: '\\' :: concatTok escChar cs) = _
      rw [hstep, ih hcs]
      rfl
    by_cases h2 : c = '\"'
    · subst h2
      show replaceAll ['\\', 'n'] ['\n'] ('\\' :: '\"' :: concatTok escChar cs) = _
      rw [ra2_step_bs2 'n' ['\n'] '\"' _ (by decide) (by intro hq; exact absurd hq (by decide)),
        ih hcs]
      rfl
    by_cases h3 : c = '\n'
    · subst h3
      show replaceAll ['\\', 'n'] ['\n'] ('\\' :: 'n' :: concatTok escChar cs) = _
      rw [ra2_step_match 'n' ['\n'] _, ih hcs]
      rfl
    by_cases h4 : c = '\t'
    · subst h4
      show replaceAll ['\\', 'n'] ['\n'] ('\\' :: 't' :: concatTok escChar cs) = _
      rw [ra2_step_bs2 'n' ['\n'] 't' _ (by decide) (by intro hq; exact absurd hq (by decide)),
        ih hcs]
      rfl
    · have hesc : escChar c = [c] := by simp [escChar, h1, h2, h3, h4]
      have hescN : escCharN c = [c] := by simp [escCharN, h1, h2, h4]
      rw [hesc, hescN]
      show replaceAll ['\\', 'n'] ['\n'] (c :: concatTok escChar cs) = c :: concatTok escCharN cs
      rw [ra2_step_one 'n' ['\n'] c _ h1, ih hcs]

theorem unescape_pass_t : ∀ s : Str, noBadPairs s = true →
    replaceAll ['\\', 't'] ['\t'] (concatTok escCharN s) = concatTok escCharNT s := by
  intro s
  induction s with
  | nil => intro _; simp [concatTok, replaceAll_nil]
  | cons c cs ih =>
    intro h
    have hcs : noBadPairs cs = true := noBadPairs_tail c cs h
    show replaceAll ['\\', 't'] ['\t'] (escCharN c ++ concatTok escCharN cs) =
      escCharNT c ++ concatTok escCharNT cs
    by_cases h1 : c = '\\'
    · subst h1
      have hhead : cs.head? ≠ some 't' := (noBadPairs_bs_head cs h).2
      have hstep := ra2_step_bs2 't' ['\t'] '\\' (concatTok escCharN cs) (by decide)
        (fun _ => head?_ne_of_concatTok escCharN escCharN_head 't' (by decide) cs hhead)
      show replaceAll ['\\', 't'] ['\t'] ('\\' :: '\\' :: concatTok escCharN cs) = _
      rw [hstep, ih hcs]
      rfl
    by_cases h2 : c = '\"'
    · subst h2
      show replaceAll ['\\', 't'] ['\t'] ('\\' :: '\"' :: concatTok escCharN cs) = _
      rw [ra2_step_bs2 't' ['\t'] '\"' _ (by decide) (by intro hq; exact absurd hq (by decide)),
        ih hcs]
      rfl
    by_cases h4 : c = '\t'
    · subst h4
      show replaceAll ['\\', 't'] ['\t'] ('\\' :: 't' :: concatTok escCharN cs) = _
      rw [ra2_step_match 't' ['\t'] _, ih hcs]
      rfl
    · have hesc : escCharN c = [c] := by simp [escCharN, h1, h2, h4]
      have hescT : escCharNT c = [c] := by simp [escCharNT, h1, h2]
      rw [hesc, hescT]
      show replaceAll ['\\', 't'] ['\t'] (c :: concatTok escCharN cs) = c :: concatTok escCharNT cs
      rw [ra2_step_one 't' ['\t'] c _ h1, ih hcs]

theorem unescape_pass_q : ∀ s : Str,
    replaceAll ['\\', '\"'] ['\"'] (concatTok escCharNT s) = concatTok escCharNTQ s := by
  intro s
  induction s with
  | nil => simp [concatTok, replaceAll_nil]
  | cons c cs ih =>
    show replaceAll ['\\', '\"'] ['\"'] (escCharNT c ++ concatTok escCharNT cs) =
      escCharNTQ c ++ concatTok escCharNTQ cs
    by_cases h1 : c = '\\'
    · subst h1
      have hstep := ra2_step_bs2 '\"' ['\"'] '\\' (concatTok escCharNT cs) (by decide)
        (fun _ => escCharNT_head_ne_quote cs)
      show replaceAll ['\\', '\"'] ['\"'] ('\\' :: '\\' :: concatTok escCharNT cs) = _
      rw [hstep, ih]
      rfl
    by_cases h2 : c = '\"'
    · subst h2
      show replaceAll ['\\', '\"'] ['\"'] ('\\' :: '\"' :: concatTok escCharNT cs) = _
      rw [ra2_step_match '\"' ['\"'] _, ih]
      rfl
    · have hesc : escCharNT c = [c] := by simp [escCharNT, h1, h2]
      have hescQ : escCharNTQ c = [c] := by simp [escCharNTQ, h1]
      rw [hesc, hescQ]
      show replaceAll ['\\', '\"'] ['\"'] (c :: concatTok escCharNT cs) = c :: concatTok escCharNTQ cs
      rw [ra2_step_one '\"' ['\"'] c _ h1, ih]

theorem unescape_pass_bs : ∀ s : Str,
    replaceAll ['\\', '\\'] ['\\'] (concatTok escCharNTQ s) = s := by
  intro s
  induction s with
  | nil => simp [concatTok, replaceAll_nil]
  | cons c cs ih =>
    show replaceAll ['\\', '\\'] ['\\'] (escCharNTQ c ++ concatTok escCharNTQ cs) = c :: cs
    by_cases h1 : c = '\\'
    · subst h1
      show replaceAll ['\\', '\\'] ['\\'] ('\\' :: '\\' :: concatTok escCharNTQ cs) = _
      rw [ra2_step_match '\\' ['\\'] _, ih]
      rfl
    · have hesc : escCharNTQ c = [c] := by simp [escCharNTQ, h1]
      rw [hesc]
      show replaceAll ['\\', '\\'] ['\\'] (c :: concatTok escCharNTQ cs) = c :: cs
      rw [ra2_step_one '\\' ['\\'] c _ h1, ih]

theorem unescape_escape_of_noBadPairs (s : Str) (h : noBadPairs s = true) :
    unescape_po_string (escape_po_string s) = s := by
  rw [escape_eq_concatTok]
  unfold unescape_po_string
  rw [unescape_pass_n s h, unescape_pass_t s h, unescape_pass_q s, unescape_pass_bs s]

/-! ## BatchManager lemmas -/

theorem batch_size_pos (total num : Nat) (htot : 1 ≤ total) (hnum : 1 ≤ num) :
    1 ≤ BatchManager.batch_size total num := by
  unfold BatchManager.batch_size
  rw [if_pos (show num > 0 from hnum)]
  rw [Nat.le_div_iff_mul_le hnum]
  omega

theorem batch_size_total_le (total num : Nat) (hnum : 1 ≤ num) :
    total ≤ num * BatchManager.batch_size total num := by
  unfold BatchManager.batch_size
  rw [if_pos (show num > 0 from hnum)]
  have hmod := Nat.div_add_mod (total + num - 1) num
  have hr : (total + num - 1) % num < num := Nat.mod_lt _ hnum
  omega

theorem get_batch_ranges_join_aux (total num : Nat) (htot : 1 ≤ total) (hnum : 1 ≤ num) :
    ∀ m, ((((List.range m).filterMap (fun i =>
        if i * BatchManager.batch_size total num + 1 ≤ total then
          some (i + 1, i * BatchManager.batch_size total num + 1,
            min ((i + 1) * BatchManager.batch_size total num) total)
        else none)).map
          (fun r => List.range' r.2.1 (r.2.2 + 1 - r.2.1))).flatten) =
      List.range' 1 (min (m * BatchManager.batch_size total num) total) := by
  set bs := BatchManager.batch_size total num with hbs
  have hbs1 : 1 ≤ bs := batch_size_pos total num htot hnum
  intro m
  induction m with
  | zero => simp
  | succ m ih =>
    rw [List.range_succ, List.filterMap_append, List.map_append, List.flatten_append, ih]
    by_cases hm : m * bs + 1 ≤ total
    · have hmin1 : min (m * bs) total = m * bs := by omega
      have hk : m * bs ≤ min ((m + 1) * bs) total := by
        have : (m + 1) * bs = m * bs + bs := by ring
        omega
      have hsing : List.filterMap (fun i =>
          if i * bs + 1 ≤ total then
            some (i + 1, i * bs + 1, min ((i + 1) * bs) total)
          else none) [m] = [(m + 1, m * bs + 1, min ((m + 1) * bs) total)] := by
        simp [hm]
      rw [hsing]
      simp only [List.map_cons, List.map_nil, List.flatten_cons, List.flatten_nil, List.append_nil]
      rw [hmin1]
      rw [show min ((m + 1) * bs) total + 1 - (m * bs + 1) = min ((m + 1) * bs) total - m * bs
        from by omega]
      have happ := List.range'_append 1 (m * bs) (min ((m + 1) * bs) total - m * bs) 1
      simp only [one_mul, Nat.mul_one] at happ
      rw [show (1 : Nat) + m * bs = m * bs + 1 by omega] at happ
      rw [happ]
      congr 1
      omega
    · simp only [List.filterMap_cons, List.filterMap_nil, if_neg hm]
      simp only [List.map_nil, List.flatten_nil, List.append_nil]
      congr 1
      have : (m + 1) * bs = m * bs + bs := by ring
      omega

/-! ## Filtering lemmas and Claim C3 -/

theorem filter_entries_eq (entries : List POEntry) (mode : FilterMode) :
    filter_entries entries mode = entries.filter (fun e =>
      !e.is_header && !e.msgid.isEmpty && !e.is_verified &&
        (match mode with
         | FilterMode.empty => e.is_empty
         | FilterMode.fuzzy => e.is_fuzzy
         | FilterMode.all => true
         | FilterMode.errors => e.is_fuzzy && has_validation_issues e)) := by
  unfold filter_entries
  suffices h : ∀ acc : List POEntry, entries.foldl (fun result e =>
      if e.is_header || e.msgid.isEmpty then result
      else if e.is_verified then result
      else
        match mode with
        | FilterMode.empty => if e.is_empty then result ++ [e] else result
        | FilterMode.fuzzy => if e.is_fuzzy then result ++ [e] else result
        | FilterMode.all => result ++ [e]
        | FilterMode.errors =>
          if e.is_fuzzy && has_validation_issues e then result ++ [e] else result) acc =
      acc ++ entries.filter (fun e =>
        !e.is_header && !e.msgid.isEmpty && !e.is_verified &&
          (match mode with
           | FilterMode.empty => e.is_empty
           | FilterMode.fuzzy => e.is_fuzzy
           | FilterMode.all => true
           | FilterMode.errors => e.is_fuzzy && has_validation_issues e)) by
    simpa using h []
  induction entries with
  | nil => intro acc; simp
  | cons e rest ih =>
    intro acc
    rw [List.foldl_cons, List.filter_cons]
    by_cases h1 : (e.is_header || e.msgid.isEmpty) = true
    · rw [if_pos h1, ih]
      have hor : e.is_header = true ∨ e.msgid.isEmpty = true := by simpa using h1
      rcases hor with h | h <;> simp [h]
    · have h1f : (e.is_header || e.msgid.isEmpty) = false := by
        simpa using h1
      have hh : e.is_header = false := by
        rw [Bool.or_eq_false_iff] at h1f
        exact h1f.1
      have hm : e.msgid.isEmpty = false := by
        rw [Bool.or_eq_false_iff] at h1f
        exact h1f.2
      rw [if_neg h1]
      by_cases h2 : e.is_verified = true
      · rw [if_pos h2, ih]
        simp [hh, hm, h2]
      · have h2f : e.is_verified = false := by simpa using h2
        rw [if_neg h2]
        cases mode with
        | empty =>
          rw [ih]
          by_cases h3 : e.is_empty = true <;> simp [hh, hm, h2f, h3]
        | fuzzy =>
          rw [ih]
          by_cases h3 : e.is_fuzzy = true <;> simp [hh, hm, h2f, h3]
        | all =>
          rw [ih]
          simp [hh, hm, h2f]
        | errors =>
          rw [ih]
          by_cases h3 : (e.is_fuzzy && has_validation_issues e) = true <;>
            simp [hh, hm, h2f, h3]

/-- Claim C3: for every entry list and every mode, `filter_entries` never
returns a header entry, an entry with an empty key, or a verified entry; and
among the remaining entries, mode `empty` returns exactly the empty ones, mode
`fuzzy` exactly the fuzzy ones, and mode `all` every one — each as a
`List.filter` of the input, hence preserving input order. -/
theorem C3_filter_entries (entries : List POEntry) (mode : FilterMode) :
    (∀ e ∈ filter_entries entries mode,
        e.is_header = false ∧ e.msgid ≠ [] ∧ e.is_verified = false) ∧
    filter_entries entries FilterMode.empty =
      entries.filter (fun e =>
        !e.is_header && !e.msgid.isEmpty && !e.is_verified && e.is_empty) ∧
    filter_entries entries FilterMode.fuzzy =
      entries.filter (fun e =>
        !e.is_header && !e.msgid.isEmpty && !e.is_verified && e.is_fuzzy) ∧
    filter_entries entries FilterMode.all =
      entries.filter (fun e => !e.is_header && !e.msgid.isEmpty && !e.is_verified) := by
  refine ⟨?_, ?_, ?_, ?_⟩
  · intro e he
    rw [filter_entries_eq] at he
    have hmem := List.of_mem_filter he
    simp only [Bool.and_eq_true, Bool.not_eq_true'] at hmem
    refine ⟨?_, ?_, ?_⟩
    · tauto
    · intro hnil
      have hie : e.msgid.isEmpty = false := by tauto
      rw [hnil] at hie
      simp at hie
    · tauto
  · rw [filter_entries_eq]
  · rw [filter_entries_eq]
  · rw [filter_entries_eq]
    congr 1
    funext e
    simp

/-! ## Scanner lemmas (the %[sdf] and %[1-9] findall models) -/

theorem findall_sdf_nil : findall_sdf [] = [] := rfl

theorem findall_sdf_cons_ne (a : Char) (u : Str) (ha : a ≠ '%') :
    findall_sdf (a :: u) = findall_sdf u := by
  cases u with
  | nil => simp [findall_sdf, ha]
  | cons b r => simp [findall_sdf, ha]

theorem findall_sdf_tok (c : Char) (r : Str) (hc : c = 's' ∨ c = 'd' ∨ c = 'f') :
    findall_sdf ('%' :: c :: r) = ['%', c] :: findall_sdf r := by
  rcases hc with h | h | h <;> subst h <;> rfl

theorem findall_sdf_pct_ne (c : Char) (r : Str) (hc : ¬(c = 's' ∨ c = 'd' ∨ c = 'f')) :
    findall_sdf ('%' :: c :: r) = findall_sdf (c :: r) := by
  have h1 : c ≠ 's' := fun h => hc (Or.inl h)
  have h2 : c ≠ 'd' := fun h => hc (Or.inr (Or.inl h))
  have h3 : c ≠ 'f' := fun h => hc (Or.inr (Or.inr h))
  simp [findall_sdf, h1, h2, h3]

theorem findall_sdf_single (a : Char) : findall_sdf [a] = [] := by
  by_cases ha : a = '%'
  · subst ha; rfl
  · rw [findall_sdf_cons_ne a [] ha]; rfl

theorem findall_sdf_mem (t : Str) : ∀ p ∈ findall_sdf t,
    ∃ x, p = ['%', x] ∧ (x = 's' ∨ x = 'd' ∨ x = 'f') := by
  suffices h : ∀ n (t : Str), t.length ≤ n → ∀ p ∈ findall_sdf t,
      ∃ x, p = ['%', x] ∧ (x = 's' ∨ x = 'd' ∨ x = 'f') from h t.length t le_rfl
  intro n
  induction n with
  | zero =>
    intro t ht
    have : t = [] := List.eq_nil_of_length_eq_zero (Nat.le_zero.mp ht)
    subst this
    simp [findall_sdf_nil]
  | succ n ih =>
    intro t ht p hp
    cases t with
    | nil => simp [findall_sdf_nil] at hp
    | cons a u =>
      by_cases ha : a = '%'
      · subst ha
        cases u with
        | nil => simp [findall_sdf_single] at hp
        | cons c r =>
          by_cases hc : c = 's' ∨ c = 'd' ∨ c = 'f'
          · rw [findall_sdf_tok c r hc] at hp
            rcases List.mem_cons.mp hp with hp | hp
            · exact ⟨c, hp, hc⟩
            · exact ih r (by simp at ht ⊢; omega) p hp
          · rw [findall_sdf_pct_ne c r hc] at hp
            exact ih (c :: r) (by simp at ht ⊢; omega) p hp
      · rw [findall_sdf_cons_ne a u ha] at hp
        exact ih u (by simp at ht ⊢; omega) p hp

theorem extract_placeholders_nil : extract_placeholders [] = [] := rfl

theorem extract_placeholders_cons_ne (a : Char) (u : Str) (ha : a ≠ '%') :
    extract_placeholders (a :: u) = extract_placeholders u := by
  cases u with
  | nil => simp [extract_placeholders, ha]
  | cons b r => simp [extract_placeholders, ha]

theorem extract_placeholders_single (a : Char) : extract_placeholders [a] = [] := by
  by_cases ha : a = '%'
  · subst ha; rfl
  · rw [extract_placeholders_cons_ne a [] ha]; rfl

theorem extract_placeholders_tok (c : Char) (r : Str) (hc : ('1' ≤ c && c ≤ '9') = true) :
    extract_placeholders ('%' :: c :: r) = ['%', c] :: extract_placeholders r := by
  simp [extract_placeholders, hc]

theorem extract_placeholders_pct_ne (c : Char) (r : Str) (hc : ('1' ≤ c && c ≤ '9') = false) :
    extract_placeholders ('%' :: c :: r) = extract_placeholders (c :: r) := by
  simp [extract_placeholders, hc]

theorem extract_placeholders_mem (t : Str) : ∀ p ∈ extract_placeholders t,
    ∃ x, p = ['%', x] ∧ '1' ≤ x ∧ x ≤ '9' := by
  suffices h : ∀ n (t : Str), t.length ≤ n → ∀ p ∈ extract_placeholders t,
      ∃ x, p = ['%', x] ∧ '1' ≤ x ∧ x ≤ '9' from h t.length t le_rfl
  intro n
  induction n with
  | zero =>
    intro t ht
    have : t = [] := List.eq_nil_of_length_eq_zero (Nat.le_zero.mp ht)
    subst this
    simp [extract_placeholders_nil]
  | succ n ih =>
    intro t ht p hp
    cases t with
    | nil => simp [extract_placeholders_nil] at hp
    | cons a u =>
      by_cases ha : a = '%'
      · subst ha
        cases u with
        | nil => simp [extract_placeholders_single] at hp
        | cons c r =>
          by_cases hc : ('1' ≤ c && c ≤ '9') = true
          · rw [extract_placeholders_tok c r hc] at hp
            rcases List.mem_cons.mp hp with hp | hp
            · refine ⟨c, hp, ?_⟩
              simpa [Bool.and_eq_true, decide_eq_true_eq] using hc
            · exact ih r (by simp at ht ⊢; omega) p hp
          · rw [extract_placeholders_pct_ne c r (by simpa using hc)] at hp
            exact ih (c :: r) (by simp at ht ⊢; omega) p hp
      · rw [extract_placeholders_cons_ne a u ha] at hp
        exact ih u (by simp at ht ⊢; omega) p hp

/-! ## Auto-fix lemmas (Claim C9) -/

theorem digit_not_sdf_pct (x : Char) (h1 : '1' ≤ x) (h9 : x ≤ '9') :
    x ≠ 's' ∧ x ≠ 'd' ∧ x ≠ 'f' ∧ x ≠ '%' := by
  refine ⟨?_, ?_, ?_, ?_⟩ <;> intro he <;> subst he <;> revert h1 h9 <;> decide

theorem replaceFirst_head (pat rep : Str) (hrep : rep.head? = some '%') (b : Char) (r : Str) :
    (replaceFirst pat rep (b :: r)).head? = some b ∨
      (replaceFirst pat rep (b :: r)).head? = some '%' := by
  unfold replaceFirst
  by_cases hpre : pat.isPrefixOf (b :: r)
  · simp only [hpre, if_true]
    right
    cases rep with
    | nil => simp at hrep
    | cons c cr => simp at hrep; simp [hrep]
  · simp [hpre]

theorem findall_sdf_pct_skip (u : Str)
    (hu : ∀ c, u.head? = some c → ¬(c = 's' ∨ c = 'd' ∨ c = 'f')) :
    findall_sdf ('%' :: u) = findall_sdf u := by
  cases u with
  | nil => rfl
  | cons c r => exact findall_sdf_pct_ne c r (hu c rfl)

theorem findall_replaceFirst (x : Char) (hx : x = 's' ∨ x = 'd' ∨ x = 'f') (d : Char)
    (hd : d ≠ 's' ∧ d ≠ 'd' ∧ d ≠ 'f' ∧ d ≠ '%') :
    ∀ t rest, findall_sdf t = ['%', x] :: rest →
      findall_sdf (replaceFirst ['%', x] ['%', d] t) = rest := by
  suffices h : ∀ n (t : Str), t.length ≤ n → ∀ rest, findall_sdf t = ['%', x] :: rest →
      findall_sdf (replaceFirst ['%', x] ['%', d] t) = rest from
    fun t rest ht => h t.length t le_rfl rest ht
  intro n
  induction n with
  | zero =>
    intro t ht rest htok
    have : t = [] := List.eq_nil_of_length_eq_zero (Nat.le_zero.mp ht)
    subst this
    simp [findall_sdf_nil] at htok
  | succ n ih =>
    intro t ht rest htok
    cases t with
    | nil => simp [findall_sdf_nil] at htok
    | cons a u =>
      by_cases ha : a = '%'
      · subst ha
        cases u with
        | nil => simp [findall_sdf_single] at htok
        | cons c r =>
          by_cases hc : c = 's' ∨ c = 'd' ∨ c = 'f'
          · rw [findall_sdf_tok c r hc] at htok
            have hcx : c = x ∧ findall_sdf r = rest := by
              have h1 := List.head_eq_of_cons_eq htok
              have h2 := List.tail_eq_of_cons_eq htok
              simp at h1
              exact ⟨h1, h2⟩
            obtain ⟨hcx1, hcx2⟩ := hcx
            subst hcx1
            have hpre : (['%', c].isPrefixOf ('%' :: c :: r)) = true := by
              simp [isPrefixOf_cons2, List.isPrefixOf]
            show findall_sdf (replaceFirst ['%', c] ['%', d] ('%' :: c :: r)) = rest
            unfold replaceFirst
            simp only [hpre, if_true]
            show findall_sdf ('%' :: d :: r) = rest
            rw [findall_sdf_pct_ne d r (by tauto)]
            rw [findall_sdf_cons_ne d r hd.2.2.2]
            exact hcx2
          · rw [findall_sdf_pct_ne c r hc] at htok
            have hcx : c ≠ x := fun he => hc (he ▸ hx)
            have hpre : (['%', x].isPrefixOf ('%' :: c :: r)) = false := by
              rw [isPrefixOf_cons2, isPrefixOf_cons2]
              simp [beq_iff_eq]
              exact fun he => absurd he.symm hcx
            show findall_sdf (replaceFirst ['%', x] ['%', d] ('%' :: c :: r)) = rest
            unfold replaceFirst
            simp only [hpre, Bool.false_eq_true, if_false]
            have hrec := ih (c :: r) (by simp at ht ⊢; omega) rest htok
            have hhead := replaceFirst_head ['%', x] ['%', d] rfl c r
            rw [findall_sdf_pct_skip]
            · exact hrec
            · intro cc hcc hsdf
              rcases hhead with hh | hh
              · rw [hh] at hcc
                simp at hcc
                subst hcc
                exact hc hsdf
              · rw [hh] at hcc
                simp at hcc
                subst hcc
                simp at hsdf
      · rw [findall_sdf_cons_ne a u ha] at htok
        have hpre : (['%', x].isPrefixOf (a :: u)) = false := by
          rw [isPrefixOf_cons2]
          simp [beq_iff_eq]
          exact fun he => absurd he.symm ha
        show findall_sdf (replaceFirst ['%', x] ['%', d] (a :: u)) = rest
        unfold replaceFirst
        simp only [hpre, Bool.false_eq_true, if_false]
        rw [findall_sdf_cons_ne a _ ha]
        exact ih u (by simp at ht ⊢; omega) rest htok

theorem auto_fix_fold_tokens :
    ∀ (wrong : List Str) (phs : List Str) (t : Str),
      (∀ p ∈ phs, ∃ c, p = ['%', c] ∧ '1' ≤ c ∧ c ≤ '9') →
      findall_sdf t = wrong → wrong.length ≤ phs.length →
      findall_sdf ((wrong.zip phs).foldl (fun r p => replaceFirst p.1 p.2 r) t) = [] := by
  intro wrong
  induction wrong with
  | nil =>
    intro phs t _ htok _
    simpa using htok
  | cons w ws ih =>
    intro phs t hphs htok hlen
    cases phs with
    | nil => simp at hlen
    | cons p ps =>
      obtain ⟨x, hw, hx⟩ := findall_sdf_mem t w (by rw [htok]; exact List.mem_cons_self w ws)
      obtain ⟨c, hp, hc1, hc9⟩ := hphs p (List.mem_cons_self p ps)
      rw [hw] at htok
      have hstep : findall_sdf (replaceFirst w p t) = ws := by
        rw [hw, hp]
        exact findall_replaceFirst x hx c (digit_not_sdf_pct c hc1 hc9) t ws htok
      have hres := ih ps (replaceFirst w p t)
        (fun q hq => hphs q (List.mem_cons_of_mem p hq)) hstep (by simpa using hlen)
      simpa using hres

theorem auto_fix_no_wrong (source t : Str) (h : findall_sdf t = []) :
    PlaceholderValidator.auto_fix source t = (t, []) := by
  show (if findall_sdf t ≠ [] ∧ extract_placeholders source ≠ [] then
      (((findall_sdf t).zip (extract_placeholders source)).foldl
          (fun r p => replaceFirst p.1 p.2 r) t,
        (findall_sdf t).zip (extract_placeholders source))
    else (t, [])) = (t, [])
  rw [if_neg (fun hc => hc.1 h)]

theorem auto_fix_not_applied (source t : Str)
    (h : ¬(findall_sdf t ≠ [] ∧ extract_placeholders source ≠ [])) :
    PlaceholderValidator.auto_fix source t = (t, []) := by
  show (if findall_sdf t ≠ [] ∧ extract_placeholders source ≠ [] then
      (((findall_sdf t).zip (extract_placeholders source)).foldl
          (fun r p => replaceFirst p.1 p.2 r) t,
        (findall_sdf t).zip (extract_placeholders source))
    else (t, [])) = (t, [])
  rw [if_neg h]

theorem auto_fix_applied (source t : Str)
    (h : findall_sdf t ≠ [] ∧ extract_placeholders source ≠ []) :
    PlaceholderValidator.auto_fix source t =
      (((findall_sdf t).zip (extract_placeholders source)).foldl
          (fun r p => replaceFirst p.1 p.2 r) t,
        (findall_sdf t).zip (extract_placeholders source)) := by
  show (if findall_sdf t ≠ [] ∧ extract_placeholders source ≠ [] then
      (((findall_sdf t).zip (extract_placeholders source)).foldl
          (fun r p => replaceFirst p.1 p.2 r) t,
        (findall_sdf t).zip (extract_placeholders source))
    else (t, [])) = _
  rw [if_pos h]

/-! ## Claim C9 -/

/-- Claim C9, counterexample: `auto_fix` is not idempotent.  With source `%1`
and translation `%s %s` the first application fixes only the first wrong
occurrence (there is a single source placeholder), yielding `%1 %s`; a second
application then rewrites the remaining `%s` as well, yielding `%1 %1` together
with a further fix, so applying `auto_fix` twice differs from applying it
once. -/
theorem C9_counterexample :
    (PlaceholderValidator.auto_fix "%1".data "%s %s".data).1 = "%1 %s".data ∧
    (PlaceholderValidator.auto_fix "%1".data
        (PlaceholderValidator.auto_fix "%1".data "%s %s".data).1).1 = "%1 %1".data ∧
    (PlaceholderValidator.auto_fix "%1".data
        (PlaceholderValidator.auto_fix "%1".data "%s %s".data).1).1 ≠
      (PlaceholderValidator.auto_fix "%1".data "%s %s".data).1 :=
  ⟨by decide, by decide, by decide⟩

/-- Claim C9 (amended): `auto_fix` is idempotent whenever the translation does
not contain more wrong-format occurrences (`%s`, `%d`, `%f`) than the source
has placeholders (or the source has none at all): the second application then
returns the first result unchanged with no further fixes.  When the wrong
occurrences outnumber the source placeholders, the leftovers are fixed again by
the second application (see the counterexample). -/
theorem C9_auto_fix_idempotent (source translation : Str)
    (h : (findall_sdf translation).length ≤ (extract_placeholders source).length ∨
      extract_placeholders source = []) :
    PlaceholderValidator.auto_fix source
        (PlaceholderValidator.auto_fix source translation).1 =
      ((PlaceholderValidator.auto_fix source translation).1, []) := by
  by_cases h0 : findall_sdf translation ≠ [] ∧ extract_placeholders source ≠ []
  · have hlen : (findall_sdf translation).length ≤ (extract_placeholders source).length := by
      rcases h with h | h
      · exact h
      · exact absurd h h0.2
    have hempty : findall_sdf ((PlaceholderValidator.auto_fix source translation).1) = [] := by
      rw [auto_fix_applied source translation h0]
      exact auto_fix_fold_tokens (findall_sdf translation) (extract_placeholders source)
        translation (extract_placeholders_mem source) rfl hlen
    exact auto_fix_no_wrong source _ hempty
  · rw [auto_fix_not_applied source translation h0]
    exact auto_fix_not_applied source translation h0

/-- Claim C9, witness: the amended idempotence applied at a source with two
placeholders and a translation with two wrong-format occurrences. -/
theorem C9_witness :
    ((findall_sdf "a %s b %d".data).length ≤
        (extract_placeholders "%1 %2".data).length ∨
      extract_placeholders "%1 %2".data = []) ∧
    PlaceholderValidator.auto_fix "%1 %2".data
        (PlaceholderValidator.auto_fix "%1 %2".data "a %s b %d".data).1 =
      ((PlaceholderValidator.auto_fix "%1 %2".data "a %s b %d".data).1, []) :=
  ⟨Or.inl (by decide),
    C9_auto_fix_idempotent "%1 %2".data "a %s b %d".data (Or.inl (by decide))⟩

/-! ## ValidationResult bookkeeping lemmas (translate.py validator) -/

theorem foldl_vr_ext {α : Type} (f : ValidationResult → α → ValidationResult)
    (hf : ∀ r a, ∃ er wr, f r a =
      { errors := r.errors ++ er, warnings := r.warnings ++ wr }) :
    ∀ (l : List α) (r : ValidationResult), ∃ er wr,
      l.foldl f r = { errors := r.errors ++ er, warnings := r.warnings ++ wr } := by
  intro l
  induction l with
  | nil => intro r; exact ⟨[], [], by simp⟩
  | cons a l ih =>
    intro r
    obtain ⟨er0, wr0, h0⟩ := hf r a
    obtain ⟨er1, wr1, h1⟩ := ih (f r a)
    refine ⟨er0 ++ er1, wr0 ++ wr1, ?_⟩
    rw [List.foldl_cons, h1, h0]
    simp

theorem foldl_vr_errors_const {α : Type} (f : ValidationResult → α → ValidationResult)
    (hf : ∀ r a, (f r a).errors = r.errors) :
    ∀ (l : List α) (r : ValidationResult), (l.foldl f r).errors = r.errors := by
  intro l
  induction l with
  | nil => intro r; rfl
  | cons a l ih => intro r; rw [List.foldl_cons, ih, hf]

theorem addIssue_ext (fuzzy : Bool) (r : ValidationResult) (ln : Nat) (m : V1Msg) :
    ∃ er wr, addIssue fuzzy r ln m =
      { errors := r.errors ++ er, warnings := r.warnings ++ wr } := by
  cases fuzzy with
  | false => exact ⟨[(ln, m)], [], by simp [addIssue, ValidationResult.add_error]⟩
  | true => exact ⟨[], [(ln, m)], by simp [addIssue, ValidationResult.add_warning]⟩

theorem ite_vr_ext (c : Prop) [Decidable c] (r : ValidationResult)
    (f : ValidationResult) (hf : ∃ er wr, f =
      { errors := r.errors ++ er, warnings := r.warnings ++ wr }) :
    ∃ er wr, (if c then f else r) =
      { errors := r.errors ++ er, warnings := r.warnings ++ wr } := by
  by_cases hc : c
  · rw [if_pos hc]; exact hf
  · rw [if_neg hc]; exact ⟨[], [], by simp⟩

theorem vr_ext_comp {r a b : ValidationResult}
    (hab : ∃ er wr, a = { errors := r.errors ++ er, warnings := r.warnings ++ wr })
    (hba : ∃ er wr, b = { errors := a.errors ++ er, warnings := a.warnings ++ wr }) :
    ∃ er wr, b = { errors := r.errors ++ er, warnings := r.warnings ++ wr } := by
  obtain ⟨e1, w1, h1⟩ := hab
  obtain ⟨e2, w2, h2⟩ := hba
  exact ⟨e1 ++ e2, w1 ++ w2, by rw [h2, h1]; simp⟩

theorem ve_ph_stage_ext (e : POEntry) (r : ValidationResult) :
    ∃ er wr, ve_ph_stage e r =
      { errors := r.errors ++ er, warnings := r.warnings ++ wr } :=
  foldl_vr_ext _ (fun r i => ite_vr_ext _ r _ (addIssue_ext e.is_fuzzy r e.line_number _))
    (List.range' 1 9) r

theorem ve_fmt_stage_ext (e : POEntry) (r : ValidationResult) :
    ∃ er wr, ve_fmt_stage e r =
      { errors := r.errors ++ er, warnings := r.warnings ++ wr } :=
  ite_vr_ext _ r _ (addIssue_ext e.is_fuzzy r e.line_number _)

theorem ve_brand_stage_ext (e : POEntry) (r : ValidationResult) :
    ∃ er wr, ve_brand_stage e r =
      { errors := r.errors ++ er, warnings := r.warnings ++ wr } :=
  foldl_vr_ext _ (fun r b => ite_vr_ext _ r _ (addIssue_ext e.is_fuzzy r e.line_number _))
    BRANDS_V1 r

theorem ve_provider_stage_ext (e : POEntry) (r : ValidationResult) :
    ∃ er wr, ve_provider_stage e r =
      { errors := r.errors ++ er, warnings := r.warnings ++ wr } :=
  foldl_vr_ext _ (fun r p => ite_vr_ext _ r _
    ⟨[], [(e.line_number, V1Msg.providerMissing p)], by
      simp [ValidationResult.add_warning]⟩) PROVIDERS r

theorem ve_term_stage_ext (e : POEntry) (r : ValidationResult) :
    ∃ er wr, ve_term_stage e r =
      { errors := r.errors ++ er, warnings := r.warnings ++ wr } :=
  foldl_vr_ext _ (fun r t => ite_vr_ext _ r _
    ⟨[], [(e.line_number, V1Msg.termMissing t)], by
      simp [ValidationResult.add_warning]⟩) TECH_TERMS r

theorem validate_entry_ext (e : POEntry) (r : ValidationResult) :
    ∃ er wr, validate_entry e r =
      { errors := r.errors ++ er, warnings := r.warnings ++ wr } := by
  unfold validate_entry
  by_cases hc : (e.msgid.isEmpty || e.msgstr.isEmpty) = true
  · rw [if_pos hc]
    exact ⟨[], [], by simp⟩
  · rw [if_neg hc]
    exact vr_ext_comp (vr_ext_comp (vr_ext_comp (vr_ext_comp
      (ve_ph_stage_ext e r) (ve_fmt_stage_ext e _)) (ve_brand_stage_ext e _))
      (ve_provider_stage_ext e _)) (ve_term_stage_ext e _)

theorem addIssue_errors_of_fuzzy (r : ValidationResult) (ln : Nat) (m : V1Msg) :
    (addIssue true r ln m).errors = r.errors := rfl

theorem ve_ph_stage_errors_of_fuzzy (e : POEntry) (hfz : e.is_fuzzy = true)
    (r : ValidationResult) : (ve_ph_stage e r).errors = r.errors := by
  unfold ve_ph_stage
  refine foldl_vr_errors_const _ (fun r i => ?_) _ r
  rw [hfz]
  split_ifs <;> rfl

theorem ve_fmt_stage_errors_of_fuzzy (e : POEntry) (hfz : e.is_fuzzy = true)
    (r : ValidationResult) : (ve_fmt_stage e r).errors = r.errors := by
  unfold ve_fmt_stage
  rw [hfz]
  split_ifs <;> rfl

theorem ve_brand_stage_errors_of_fuzzy (e : POEntry) (hfz : e.is_fuzzy = true)
    (r : ValidationResult) : (ve_brand_stage e r).errors = r.errors := by
  unfold ve_brand_stage
  refine foldl_vr_errors_const _ (fun r b => ?_) _ r
  rw [hfz]
  split_ifs <;> rfl

theorem ve_provider_stage_errors (e : POEntry) (r : ValidationResult) :
    (ve_provider_stage e r).errors = r.errors := by
  unfold ve_provider_stage
  refine foldl_vr_errors_const _ (fun r p => ?_) _ r
  split_ifs <;> rfl

theorem ve_term_stage_errors (e : POEntry) (r : ValidationResult) :
    (ve_term_stage e r).errors = r.errors := by
  unfold ve_term_stage
  refine foldl_vr_errors_const _ (fun r t => ?_) _ r
  split_ifs <;> rfl

/-- For a fuzzy entry, `validate_entry` never adds an error: every issue of
every check goes through `add_issue`, which routes to warnings when the entry
is fuzzy, and the provider/term checks are warnings anyway. -/
theorem validate_entry_errors_of_fuzzy (e : POEntry) (hfz : e.is_fuzzy = true)
    (r : ValidationResult) : (validate_entry e r).errors = r.errors := by
  unfold validate_entry
  by_cases hc : (e.msgid.isEmpty || e.msgstr.isEmpty) = true
  · rw [if_pos hc]
  · rw [if_neg hc, ve_term_stage_errors, ve_provider_stage_errors,
      ve_brand_stage_errors_of_fuzzy e hfz, ve_fmt_stage_errors_of_fuzzy e hfz,
      ve_ph_stage_errors_of_fuzzy e hfz]

theorem foldl_vr_mem_warnings {α : Type} (f : ValidationResult → α → ValidationResult)
    (hf : ∀ r a, ∃ er wr, f r a =
      { errors := r.errors ++ er, warnings := r.warnings ++ wr })
    (l : List α) (r : ValidationResult) (m : Nat × V1Msg) (hm : m ∈ r.warnings) :
    m ∈ (l.foldl f r).warnings := by
  obtain ⟨er, wr, h⟩ := foldl_vr_ext f hf l r
  rw [h]
  exact List.mem_append_left _ hm

theorem foldl_vr_mem_errors {α : Type} (f : ValidationResult → α → ValidationResult)
    (hf : ∀ r a, ∃ er wr, f r a =
      { errors := r.errors ++ er, warnings := r.warnings ++ wr })
    (l : List α) (r : ValidationResult) (m : Nat × V1Msg) (hm : m ∈ r.errors) :
    m ∈ (l.foldl f r).errors := by
  obtain ⟨er, wr, h⟩ := foldl_vr_ext f hf l r
  rw [h]
  exact List.mem_append_left _ hm

theorem vr_ext_mem_warnings {a b : ValidationResult}
    (hba : ∃ er wr, b = { errors := a.errors ++ er, warnings := a.warnings ++ wr })
    (m : Nat × V1Msg) (hm : m ∈ a.warnings) : m ∈ b.warnings := by
  obtain ⟨er, wr, h⟩ := hba
  rw [h]
  exact List.mem_append_left _ hm

theorem vr_ext_mem_errors {a b : ValidationResult}
    (hba : ∃ er wr, b = { errors := a.errors ++ er, warnings := a.warnings ++ wr })
    (m : Nat × V1Msg) (hm : m ∈ a.errors) : m ∈ b.errors := by
  obtain ⟨er, wr, h⟩ := hba
  rw [h]
  exact List.mem_append_left _ hm

/-- The placeholder check of `validate_entry` records the mismatch for every
index i in 1..9 whose `%i` counts differ: as a warning when the entry is fuzzy,
as an error otherwise. -/
theorem ve_ph_stage_adds (e : POEntry) (i : Nat) (h1 : 1 ≤ i) (h9 : i ≤ 9)
    (hmm : countSub ['%', Char.ofNat (48 + i)] e.msgid ≠
      countSub ['%', Char.ofNat (48 + i)] e.msgstr) (r : ValidationResult) :
    (e.is_fuzzy = true →
      (e.line_number, V1Msg.phCountMismatch i (countSub ['%', Char.ofNat (48 + i)] e.msgid)
        (countSub ['%', Char.ofNat (48 + i)] e.msgstr)) ∈ (ve_ph_stage e r).warnings) ∧
    (e.is_fuzzy = false →
      (e.line_number, V1Msg.phCountMismatch i (countSub ['%', Char.ofNat (48 + i)] e.msgid)
        (countSub ['%', Char.ofNat (48 + i)] e.msgstr)) ∈ (ve_ph_stage e r).errors) := by
  have hmem : i ∈ List.range' 1 9 := by
    rw [List.mem_range'_1]
    omega
  obtain ⟨l1, l2, hsplit⟩ := List.append_of_mem hmem
  unfold ve_ph_stage
  rw [hsplit, List.foldl_append, List.foldl_cons]
  set r1 := l1.foldl _ r with hr1
  have hstepf : ∀ (r : ValidationResult) (j : Nat), ∃ er wr,
      (if countSub ['%', Char.ofNat (48 + j)] e.msgid ≠
          countSub ['%', Char.ofNat (48 + j)] e.msgstr then
        addIssue e.is_fuzzy r e.line_number
          (V1Msg.phCountMismatch j (countSub ['%', Char.ofNat (48 + j)] e.msgid)
            (countSub ['%', Char.ofNat (48 + j)] e.msgstr))
      else r) = { errors := r.errors ++ er, warnings := r.warnings ++ wr } :=
    fun r j => ite_vr_ext _ r _ (addIssue_ext e.is_fuzzy r e.line_number _)
  constructor
  · intro hfz
    refine foldl_vr_mem_warnings _ hstepf l2 _ _ ?_
    rw [if_pos hmm, hfz]
    show _ ∈ (ValidationResult.add_warning r1 _ _).warnings
    simp [ValidationResult.add_warning]
  · intro hfz
    refine foldl_vr_mem_errors _ hstepf l2 _ _ ?_
    rw [if_pos hmm, hfz]
    show _ ∈ (ValidationResult.add_error r1 _ _).errors
    simp [ValidationResult.add_error]

theorem mem_firstDedup (l : List Str) (a : Str) (ha : a ∈ l) : a ∈ firstDedup l := by
  unfold firstDedup
  suffices h : ∀ acc, (a ∈ acc ∨ a ∈ l) →
      a ∈ l.foldl (fun acc a => if a ∈ acc then acc else acc ++ [a]) acc from
    h [] (Or.inr ha)
  clear ha
  induction l with
  | nil =>
    intro acc h
    rcases h with h | h
    · simpa using h
    · simp at h
  | cons b r ih =>
    intro acc h
    rw [List.foldl_cons]
    apply ih
    rcases h with h | h
    · left
      by_cases hb : b ∈ acc
      · rw [if_pos hb]; exact h
      · rw [if_neg hb]; exact List.mem_append_left _ h
    · rcases List.mem_cons.mp h with h | h
      · left
        subst h
        by_cases hb : a ∈ acc
        · rw [if_pos hb]; exact hb
        · rw [if_neg hb]; simp
      · right
        exact h

/-! ## Claim C5 -/

/-- Claim C5, counterexample: the v2 validator checks counts only for the
placeholder tokens present in the source (`for ph in set(source_ph)`), so with
k = 0 a translation containing a spurious `%1` passes validation, and
the import pipeline accepts it: the claim that a translation is accepted only if it
has exactly k occurrences of every token is false at k = 0. -/
theorem C5_counterexample :
    (extract_placeholders "hello".data).count "%1".data = 0 ∧
    (extract_placeholders "%1".data).count "%1".data = 1 ∧
    PlaceholderValidator.validate "hello".data "%1".data = [] ∧
    (import_v2_format (fun n => if n = 1 then some "hello".data else none)
        [({ msgid := "hello".data } : POEntry)] true [(1, "%1".data)]).translations =
      [("hello".data, "%1".data)] ∧
    (import_v2_format (fun n => if n = 1 then some "hello".data else none)
        [({ msgid := "hello".data } : POEntry)] true [(1, "%1".data)]).errors = [] := by
  refine ⟨by decide, by decide, by decide, by decide, by decide⟩

/-- Claim C5 (amended): for every placeholder token with k ≥ 1 occurrences in
the source, `PlaceholderValidator.validate` (hence `import_v2_format`, which
rejects on any validation error) accepts the translation only if it contains
exactly k occurrences of that token.  For k = 0 the v2 validator performs no
check at all (see the counterexample); the v1 `validate_entry` does check all
of %1..%9 including k = 0. -/
theorem C5_placeholder_count_exact (source translation ph : Str) (k : Nat)
    (hk : (extract_placeholders source).count ph = k) (hk1 : 1 ≤ k)
    (hacc : PlaceholderValidator.validate source translation = []) :
    (extract_placeholders translation).count ph = k := by
  have hmem : ph ∈ extract_placeholders source := by
    rw [← List.count_pos_iff_mem]
    omega
  have hval : PlaceholderValidator.validate source translation =
      (firstDedup (extract_placeholders source)).filterMap (fun p =>
        if (extract_placeholders source).count p ≠ (extract_placeholders translation).count p then
          some (V2Err.phMismatch p ((extract_placeholders source).count p)
            ((extract_placeholders translation).count p))
        else none) ++
      (if extract_placeholders source ≠ [] ∧ findall_sdf translation ≠ [] then
        [V2Err.wrongFormat] else []) ++
      (if countSub NEWLINE_MARKER source ≠ countSub NEWLINE_MARKER translation then
        [V2Err.nlMismatch (countSub NEWLINE_MARKER source)
          (countSub NEWLINE_MARKER translation)] else []) ++
      BRANDS_V2.filterMap (fun b =>
        if containsSub b source ∧ ¬ containsSub b translation then
          some (V2Err.brandMissing b) else none) := rfl
  rw [hval] at hacc
  have h1 := (List.append_eq_nil.mp hacc).1
  have h2 := (List.append_eq_nil.mp h1).1
  have hph := (List.append_eq_nil.mp h2).1
  have hnone := (List.filterMap_eq_nil.mp hph) ph (mem_firstDedup _ ph hmem)
  by_cases hcnt : (extract_placeholders source).count ph ≠
      (extract_placeholders translation).count ph
  · rw [if_pos hcnt] at hnone
    exact absurd hnone (by simp)
  · push_neg at hcnt
    omega

/-- Claim C5, witness: the amended statement at a source with two occurrences
of %1 and an accepted translation with the same two occurrences. -/
theorem C5_witness :
    ((extract_placeholders "%1 x %1".data).count "%1".data = 2 ∧ 1 ≤ 2 ∧
      PlaceholderValidator.validate "%1 x %1".data "a %1 b %1".data = []) ∧
    (extract_placeholders "a %1 b %1".data).count "%1".data = 2 :=
  ⟨⟨by decide, by decide, by decide⟩,
    C5_placeholder_count_exact "%1 x %1".data "a %1 b %1".data "%1".data 2
      (by decide) (by decide) (by decide)⟩

/-! ## Claim C6 -/

/-- Claim C6, counterexample: in the v2 import pipeline a placeholder-count
mismatch blocks acceptance even when the entry's current state is fuzzy — the
v2 validator has no fuzzy downgrade, so the mismatch is reported as an error
and the translation is rejected, contradicting the claim that for fuzzy entries
it is a warning that does not block acceptance. -/
theorem C6_counterexample :
    POEntry.is_fuzzy ({ msgid := "%1".data, msgstr := "old".data, flags := ["fuzzy".data] } : POEntry) = true ∧
    (import_v2_format (fun n => if n = 1 then some "%1".data else none)
        [({ msgid := "%1".data, msgstr := "old".data, flags := ["fuzzy".data] } : POEntry)]
        true [(1, "x".data)]).errors =
      [(1, ImpErr.validation (V2Err.phMismatch "%1".data 1 0))] ∧
    (import_v2_format (fun n => if n = 1 then some "%1".data else none)
        [({ msgid := "%1".data, msgstr := "old".data, flags := ["fuzzy".data] } : POEntry)]
        true [(1, "x".data)]).translations = [] := by
  refine ⟨by decide, by decide, by decide⟩

/-- Claim C6 (amended): in translate.py's `validate_entry`, applied to the
entry itself, a placeholder-count mismatch on a fuzzy entry is recorded as a
warning and `validate_entry` adds no error at all for a fuzzy entry (so the
result still passes); on a non-fuzzy entry the same mismatch is recorded as an
error.  In the v2 validator and in both import pipelines, however, the mismatch
blocks acceptance even for fuzzy entries (see the counterexample; the v1 import
validates a fresh temporary entry that is never fuzzy). -/
theorem C6_validate_entry_fuzzy_mismatch (e : POEntry) (i : Nat) (h1 : 1 ≤ i) (h9 : i ≤ 9)
    (hmm : countSub ['%', Char.ofNat (48 + i)] e.msgid ≠
      countSub ['%', Char.ofNat (48 + i)] e.msgstr)
    (hid : e.msgid ≠ []) (hstr : e.msgstr ≠ []) :
    (e.is_fuzzy = true →
      (e.line_number, V1Msg.phCountMismatch i (countSub ['%', Char.ofNat (48 + i)] e.msgid)
        (countSub ['%', Char.ofNat (48 + i)] e.msgstr)) ∈ (validate_entry e {}).warnings ∧
      (validate_entry e {}).errors = []) ∧
    (e.is_fuzzy = false →
      (e.line_number, V1Msg.phCountMismatch i (countSub ['%', Char.ofNat (48 + i)] e.msgid)
        (countSub ['%', Char.ofNat (48 + i)] e.msgstr)) ∈ (validate_entry e {}).errors) := by
  have hcond : ¬((e.msgid.isEmpty || e.msgstr.isEmpty) = true) := by
    simp only [Bool.or_eq_true, List.isEmpty_iff]
    rintro (h | h)
    · exact hid h
    · exact hstr h
  refine ⟨fun hfz => ⟨?_, ?_⟩, fun hfz => ?_⟩
  · show _ ∈ (validate_entry e {}).warnings
    unfold validate_entry
    rw [if_neg hcond]
    exact vr_ext_mem_warnings (ve_term_stage_ext e _) _
      (vr_ext_mem_warnings (ve_provider_stage_ext e _) _
        (vr_ext_mem_warnings (ve_brand_stage_ext e _) _
          (vr_ext_mem_warnings (ve_fmt_stage_ext e _) _
            ((ve_ph_stage_adds e i h1 h9 hmm {}).1 hfz))))
  · rw [validate_entry_errors_of_fuzzy e hfz]
  · show _ ∈ (validate_entry e {}).errors
    unfold validate_entry
    rw [if_neg hcond]
    exact vr_ext_mem_errors (ve_term_stage_ext e _) _
      (vr_ext_mem_errors (ve_provider_stage_ext e _) _
        (vr_ext_mem_errors (ve_brand_stage_ext e _) _
          (vr_ext_mem_errors (ve_fmt_stage_ext e _) _
            ((ve_ph_stage_adds e i h1 h9 hmm {}).2 hfz))))

/-- Claim C6, witness: the amended statement evaluated at a concrete fuzzy
entry whose source has one %1 and whose translation has none. -/
theorem C6_witness :
    (1 ≤ 1 ∧ (1 : Nat) ≤ 9 ∧
      countSub ['%', Char.ofNat 49] "%1 books".data ≠ countSub ['%', Char.ofNat 49] "livres".data ∧
      "%1 books".data ≠ ([] : Str) ∧ "livres".data ≠ ([] : Str)) ∧
    ((POEntry.is_fuzzy ({ msgid := "%1 books".data, msgstr := "livres".data, flags := ["fuzzy".data], line_number := 7 } : POEntry) = true →
      (7, V1Msg.phCountMismatch 1
        (countSub ['%', Char.ofNat 49] "%1 books".data)
        (countSub ['%', Char.ofNat 49] "livres".data)) ∈
        (validate_entry ({ msgid := "%1 books".data, msgstr := "livres".data, flags := ["fuzzy".data], line_number := 7 } : POEntry) {}).warnings ∧
      (validate_entry ({ msgid := "%1 books".data, msgstr := "livres".data, flags := ["fuzzy".data], line_number := 7 } : POEntry) {}).errors = []) ∧
    (POEntry.is_fuzzy ({ msgid := "%1 books".data, msgstr := "livres".data, flags := ["fuzzy".data], line_number := 7 } : POEntry) = false →
      (7, V1Msg.phCountMismatch 1
        (countSub ['%', Char.ofNat 49] "%1 books".data)
        (countSub ['%', Char.ofNat 49] "livres".data)) ∈
        (validate_entry ({ msgid := "%1 books".data, msgstr := "livres".data, flags := ["fuzzy".data], line_number := 7 } : POEntry) {}).errors)) :=
  ⟨⟨by decide, by decide, by decide, by decide, by decide⟩,
    C6_validate_entry_fuzzy_mismatch
      ({ msgid := "%1 books".data, msgstr := "livres".data, flags := ["fuzzy".data], line_number := 7 } : POEntry) 1
      (by decide) (by decide) (by decide) (by decide) (by decide)⟩

/-! ## Claim C7 -/

/-- Claim C7: the claim is right and translate.py's code is wrong.  The inline
comment at the brand check says `Brand names (ERROR if missing, even for
fuzzy)`, but the check is added through `add_issue`, which routes to warnings
for fuzzy entries: for a fuzzy entry whose source contains the brand
`KOAssistant` and whose translation lacks it, `validate_entry` records only a
warning and no error, so the missing brand does not block acceptance. -/
theorem C7_brand_downgraded_for_fuzzy :
    POEntry.is_fuzzy ({ msgid := "KOAssistant settings".data, msgstr := "ustawienia".data, flags := ["fuzzy".data], line_number := 5 } : POEntry) = true ∧
    containsSub "KOAssistant".data "KOAssistant settings".data = true ∧
    containsSub "KOAssistant".data "ustawienia".data = false ∧
    (validate_entry ({ msgid := "KOAssistant settings".data, msgstr := "ustawienia".data, flags := ["fuzzy".data], line_number := 5 } : POEntry) {}).errors = [] ∧
    (5, V1Msg.brandMissing "KOAssistant".data) ∈
      (validate_entry ({ msgid := "KOAssistant settings".data, msgstr := "ustawienia".data, flags := ["fuzzy".data], line_number := 5 } : POEntry) {}).warnings := by
  refine ⟨by decide, by decide, by decide, by decide, by decide⟩

/-! ## Strip and split toolkit (Python strip/split/join round trips) -/

theorem pyWS_head_dropWhile : ∀ (l : Str) (c : Char) (cs : Str),
    List.dropWhile pyWS l = c :: cs → pyWS c = false := by
  intro l
  induction l with
  | nil => intro c cs h; simp [List.dropWhile] at h
  | cons a r ih =>
    intro c cs h
    by_cases ha : pyWS a = true
    · rw [List.dropWhile_cons_of_pos ha] at h
      exact ih c cs h
    · rw [List.dropWhile_cons_of_neg ha] at h
      injection h with h1 _
      subst h1
      simpa using ha

theorem pyStrip_nil : pyStrip [] = [] := rfl

theorem pyStrip_getLast? (x : Str) (c : Char) (h : (pyStrip x).getLast? = some c) :
    pyWS c = false := by
  unfold pyStrip at h
  rw [List.getLast?_reverse] at h
  cases hd : List.dropWhile pyWS (List.dropWhile pyWS x).reverse with
  | nil => rw [hd] at h; simp at h
  | cons d ds =>
    rw [hd] at h
    simp at h
    subst h
    exact pyWS_head_dropWhile _ _ _ hd

theorem pyStrip_head? (x : Str) (c : Char) (cs : Str) (h : pyStrip x = c :: cs) :
    pyWS c = false := by
  unfold pyStrip at h
  have h2 : (List.dropWhile pyWS (List.dropWhile pyWS x).reverse).getLast? = some c := by
    rw [← List.head?_reverse, h]
    rfl
  set d2 := List.dropWhile pyWS (List.dropWhile pyWS x).reverse with hd2
  have hsuf := List.dropWhile_suffix (l := (List.dropWhile pyWS x).reverse) pyWS
  obtain ⟨t, ht⟩ := hsuf
  have hne : d2 ≠ [] := by
    intro hnil
    rw [hnil] at h2
    simp at h2
  have : (List.dropWhile pyWS x).reverse.getLast? = some c := by
    rw [← ht, List.getLast?_append_of_ne_nil _ hne]
    exact h2
  rw [List.getLast?_reverse] at this
  cases hdw : List.dropWhile pyWS x with
  | nil => rw [hdw] at this; simp at this
  | cons d ds =>
    rw [hdw] at this
    simp at this
    subst this
    exact pyWS_head_dropWhile _ _ _ hdw

theorem pyStrip_eq_self_of (z : Str)
    (hh : ∀ c cs, z = c :: cs → pyWS c = false)
    (hl : ∀ c, z.getLast? = some c → pyWS c = false) : pyStrip z = z := by
  have h1 : List.dropWhile pyWS z = z := by
    cases z with
    | nil => rfl
    | cons c cs => rw [List.dropWhile_cons_of_neg (by simp [hh c cs rfl])]
  unfold pyStrip
  rw [h1]
  have h2 : List.dropWhile pyWS z.reverse = z.reverse := by
    cases hz : z.reverse with
    | nil => rfl
    | cons c cs =>
      have hlast : z.getLast? = some c := by
        rw [← List.head?_reverse, hz]
        rfl
      rw [List.dropWhile_cons_of_neg (by simp [hl c hlast])]
  rw [h2, List.reverse_reverse]

theorem pyStrip_idem (x : Str) : pyStrip (pyStrip x) = pyStrip x :=
  pyStrip_eq_self_of _ (fun c cs h => pyStrip_head? x c cs h)
    (fun c h => pyStrip_getLast? x c h)

theorem pyStrip_mem_subset (x : Str) (a : Char) (ha : a ∈ pyStrip x) : a ∈ x := by
  unfold pyStrip at ha
  rw [List.mem_reverse] at ha
  have h1 := (List.dropWhile_sublist (l := (List.dropWhile pyWS x).reverse) pyWS).subset ha
  rw [List.mem_reverse] at h1
  exact (List.dropWhile_sublist (l := x) pyWS).subset h1

theorem pyStrip_space_cons (x : Str) : pyStrip (' ' :: x) = pyStrip x := by
  unfold pyStrip
  rw [List.dropWhile_cons_of_pos (by decide)]

theorem splitOnChar_ne_nil (sep : Char) (s : Str) : splitOnChar sep s ≠ [] := by
  cases s with
  | nil => simp [splitOnChar]
  | cons c cs =>
    unfold splitOnChar
    by_cases hc : c = sep
    · simp [hc]
    · rw [if_neg hc]
      cases splitOnChar sep cs <;> simp

theorem splitOnChar_sep_not_mem (sep : Char) : ∀ (s : Str), ∀ p ∈ splitOnChar sep s, sep ∉ p := by
  intro s
  induction s with
  | nil => intro p hp; simp [splitOnChar] at hp; simp [hp]
  | cons c cs ih =>
    intro p hp
    unfold splitOnChar at hp
    by_cases hc : c = sep
    · rw [if_pos hc] at hp
      rcases List.mem_cons.mp hp with hp | hp
      · simp [hp]
      · exact ih p hp
    · rw [if_neg hc] at hp
      cases hsp : splitOnChar sep cs with
      | nil => exact absurd hsp (splitOnChar_ne_nil sep cs)
      | cons q qs =>
        rw [hsp] at hp
        rcases List.mem_cons.mp hp with hp | hp
        · subst hp
          intro hmem
          rcases List.mem_cons.mp hmem with h | h
          · exact hc h.symm
          · exact ih q (by rw [hsp]; exact List.mem_cons_self q qs) h
        · exact ih p (by rw [hsp]; exact List.mem_cons_of_mem q hp)

theorem splitOnChar_of_not_mem (sep : Char) : ∀ (s : Str), sep ∉ s → splitOnChar sep s = [s] := by
  intro s
  induction s with
  | nil => intro _; rfl
  | cons c cs ih =>
    intro h
    have hc : c ≠ sep := fun he => h (by rw [he]; exact List.mem_cons_self _ _)
    have hcs : sep ∉ cs := fun hm => h (List.mem_cons_of_mem c hm)
    unfold splitOnChar
    rw [if_neg hc, ih hcs]

theorem splitOnChar_append_noSep (sep : Char) : ∀ (x l : Str), sep ∉ x →
    ∀ p ps, splitOnChar sep l = p :: ps → splitOnChar sep (x ++ l) = (x ++ p) :: ps := by
  intro x
  induction x with
  | nil => intro l _ p ps h; simpa using h
  | cons c cs ih =>
    intro l hx p ps h
    have hc : c ≠ sep := fun he => hx (by rw [he]; exact List.mem_cons_self _ _)
    have hcs : sep ∉ cs := fun hm => hx (List.mem_cons_of_mem c hm)
    show splitOnChar sep (c :: (cs ++ l)) = _
    unfold splitOnChar
    rw [if_neg hc, ih l hcs p ps h]
    rfl

theorem stripSplitComma_props (s : Str) : ∀ x ∈ stripSplitComma s, pyStrip x = x ∧ ',' ∉ x := by
  intro x hx
  unfold stripSplitComma at hx
  rw [List.mem_map] at hx
  obtain ⟨p, hp, hpx⟩ := hx
  subst hpx
  refine ⟨pyStrip_idem p, fun hm => ?_⟩
  exact splitOnChar_sep_not_mem ',' s p hp (pyStrip_mem_subset p ',' hm)

theorem stripSplitComma_space_join : ∀ (fl : List Str),
    (∀ x ∈ fl, pyStrip x = x ∧ ',' ∉ x) → fl ≠ [] →
    stripSplitComma (' ' :: joinCommaSpace fl) = fl := by
  intro fl
  induction fl with
  | nil => intro _ hne; exact absurd rfl hne
  | cons x rest ih =>
    intro hfl _
    have hx := hfl x (List.mem_cons_self x rest)
    cases rest with
    | nil =>
      show stripSplitComma (' ' :: x) = [x]
      unfold stripSplitComma
      rw [splitOnChar_of_not_mem ',' (' ' :: x) (by
        intro hm
        rcases List.mem_cons.mp hm with h | h
        · exact absurd h.symm (by decide)
        · exact hx.2 h)]
      show [pyStrip (' ' :: x)] = [x]
      rw [pyStrip_space_cons, hx.1]
    | cons y rest2 =>
      have hjoin : joinCommaSpace (x :: y :: rest2) =
          x ++ ", ".data ++ joinCommaSpace (y :: rest2) := rfl
      show stripSplitComma (' ' :: (x ++ ", ".data ++ joinCommaSpace (y :: rest2))) = _
      have hrec := ih (fun q hq => hfl q (List.mem_cons_of_mem x hq))
        (List.cons_ne_nil y rest2)
      unfold stripSplitComma at hrec ⊢
      have hsplit2 : splitOnChar ',' (',' :: (' ' :: joinCommaSpace (y :: rest2))) =
          [] :: splitOnChar ',' (' ' :: joinCommaSpace (y :: rest2)) := rfl
      have hnosep : ',' ∉ (' ' :: x) := by
        intro hm
        rcases List.mem_cons.mp hm with h | h
        · exact absurd h.symm (by decide)
        · exact hx.2 h
      cases hs : splitOnChar ',' (' ' :: joinCommaSpace (y :: rest2)) with
      | nil => exact absurd hs (splitOnChar_ne_nil _ _)
      | cons q qs =>
        rw [hs] at hsplit2
        have harr : (' ' :: (x ++ ", ".data ++ joinCommaSpace (y :: rest2))) =
            (' ' :: x) ++ (',' :: (' ' :: joinCommaSpace (y :: rest2))) := by
          simp
        rw [harr, splitOnChar_append_noSep ',' (' ' :: x) _ hnosep ([] : Str)
          (q :: qs) hsplit2]
        rw [hs] at hrec
        simp only [List.map_cons] at hrec ⊢
        rw [List.append_nil]
        have h1 : pyStrip (' ' :: x) = x := by rw [pyStrip_space_cons, hx.1]
        rw [h1]
        exact congrArg (List.cons x) hrec

/-! ## Writer flag-line lemmas (Claim C8) -/

theorem rewriteFlagLine_remove_no_fuzzy (c l : Str)
    (h : rewriteFlagLine true false c = some l) :
    "fuzzy".data ∉ stripSplitComma (l.drop 2) ∧ "#,".data.isPrefixOf l = true := by
  simp only [rewriteFlagLine] at h
  rw [if_pos trivial] at h
  rw [if_neg (show ¬(false = true ∧
    ¬(List.filter (fun fl => decide (fl ≠ "fuzzy".data))
        (stripSplitComma (List.drop 2 c))).contains "fuzzy".data = true)
    from by simp)] at h
  set fl := (stripSplitComma (c.drop 2)).filter (fun x => x ≠ "fuzzy".data) with hfl
  by_cases hne : fl ≠ []
  · rw [if_pos hne] at h
    injection h with h
    subst h
    constructor
    · have hdrop : (("#, ".data : Str) ++ joinCommaSpace fl).drop 2 =
          ' ' :: joinCommaSpace fl := rfl
      rw [hdrop]
      rw [stripSplitComma_space_join fl ?props hne]
      · intro hmem
        have := List.of_mem_filter hmem
        simp at this
      · intro x hx
        have hx2 := List.mem_of_mem_filter hx
        exact stripSplitComma_props (c.drop 2) x hx2
    · rfl
  · rw [if_neg hne] at h
    exact Option.noConfusion h

theorem rewriteFlagLine_all_removed (c : Str)
    (h : stripSplitComma (c.drop 2) = ["fuzzy".data]) :
    rewriteFlagLine true false c = none := by
  unfold rewriteFlagLine
  rw [h]
  decide

theorem writeComments_of_no_flag (sr sa : Bool) (cs : List Str)
    (h : ∀ c ∈ cs, "#,".data.isPrefixOf c = false) :
    writeComments sr sa cs = (cs, false) := by
  unfold writeComments
  suffices haux : ∀ (cs : List Str), (∀ c ∈ cs, "#,".data.isPrefixOf c = false) →
      ∀ (acc : List Str) (w : Bool),
      cs.foldl (fun acc c =>
        if "#,".data.isPrefixOf c then
          match rewriteFlagLine sr sa c with
          | some l => (acc.1 ++ [l], true)
          | none => (acc.1, true)
        else (acc.1 ++ [c], acc.2)) (acc, w) = (acc ++ cs, w) by
    simpa using haux cs h [] false
  intro cs2
  induction cs2 with
  | nil => intro _ acc w; simp
  | cons c rest ih =>
    intro hcs acc w
    rw [List.foldl_cons]
    have hc := hcs c (List.mem_cons_self c rest)
    rw [if_neg (by simp [hc])]
    rw [ih (fun x hx => hcs x (List.mem_cons_of_mem c hx)) (acc ++ [c]) w]
    simp

theorem writeComments_flag_mem (sr sa : Bool) (cs : List Str) (l : Str)
    (hl : l ∈ (writeComments sr sa cs).1) (hpre : "#,".data.isPrefixOf l = true) :
    ∃ c ∈ cs, "#,".data.isPrefixOf c = true ∧ rewriteFlagLine sr sa c = some l := by
  unfold writeComments at hl
  suffices haux : ∀ (cs : List Str) (acc : List Str) (w : Bool),
      l ∈ (cs.foldl (fun acc c =>
        if "#,".data.isPrefixOf c then
          match rewriteFlagLine sr sa c with
          | some l2 => (acc.1 ++ [l2], true)
          | none => (acc.1, true)
        else (acc.1 ++ [c], acc.2)) (acc, w)).1 →
      l ∈ acc ∨ ∃ c ∈ cs, ("#,".data.isPrefixOf c = true ∧ rewriteFlagLine sr sa c = some l) ∨
        ("#,".data.isPrefixOf c = false ∧ c = l) by
    rcases haux cs [] false hl with h | ⟨c, hc, h | h⟩
    · simp at h
    · exact ⟨c, hc, h⟩
    · rw [h.2] at h
      rw [h.1] at hpre
      exact Bool.noConfusion hpre
  intro cs2
  induction cs2 with
  | nil =>
    intro acc w h
    exact Or.inl h
  | cons c rest ih =>
    intro acc w h
    rw [List.foldl_cons] at h
    by_cases hc : "#,".data.isPrefixOf c = true
    · rw [if_pos hc] at h
      cases hrw : rewriteFlagLine sr sa c with
      | none =>
        rw [hrw] at h
        rcases ih _ _ h with h2 | ⟨c2, hc2, h2⟩
        · exact Or.inl h2
        · exact Or.inr ⟨c2, List.mem_cons_of_mem c hc2, h2⟩
      | some l2 =>
        rw [hrw] at h
        rcases ih _ _ h with h2 | ⟨c2, hc2, h2⟩
        · rcases List.mem_append.mp h2 with h3 | h3
          · exact Or.inl h3
          · rcases List.mem_singleton.mp h3 with h4
            exact Or.inr ⟨c, List.mem_cons_self c rest, Or.inl ⟨hc, by rw [hrw, h4]⟩⟩
        · exact Or.inr ⟨c2, List.mem_cons_of_mem c hc2, h2⟩
    · rw [if_neg hc] at h
      rcases ih _ _ h with h2 | ⟨c2, hc2, h2⟩
      · rcases List.mem_append.mp h2 with h3 | h3
        · exact Or.inl h3
        · rcases List.mem_singleton.mp h3 with h4
          exact Or.inr ⟨c, List.mem_cons_self c rest,
            Or.inr ⟨Bool.eq_false_iff.mpr hc, h4.symm⟩⟩
      · exact Or.inr ⟨c2, List.mem_cons_of_mem c hc2, h2⟩

theorem msgid_seg_no_flag (msgid : Str) : ∀ l ∈
    (if '\n' ∈ msgid ∨ msgid.length > 70 then msgidBlockLines msgid
     else ["msgid \"".data ++ escape_po_string msgid ++ ['\"']]),
    "#,".data.isPrefixOf l = false := by
  intro l hl
  split at hl
  · unfold msgidBlockLines at hl
    rcases List.mem_cons.mp hl with h | h
    · subst h; rfl
    · rw [List.mem_filterMap] at h
      obtain ⟨part, _, hpart⟩ := h
      split at hpart
      · injection hpart with hpart
        subst hpart
        rfl
      · split at hpart
        · injection hpart with hpart
          subst hpart
          rfl
        · exact Option.noConfusion hpart
  · rcases List.mem_singleton.mp hl with h
    subst h
    rfl

theorem format_msgstr_no_flag (msgstr : Str) : ∀ l ∈ format_msgstr_for_po msgstr,
    "#,".data.isPrefixOf l = false := by
  intro l hl
  unfold format_msgstr_for_po at hl
  split at hl
  · rcases List.mem_singleton.mp hl with h
    subst h; rfl
  · split at hl
    · rcases List.mem_cons.mp hl with h | h
      · subst h; rfl
      · rw [List.mem_filterMap] at h
        obtain ⟨p, _, hp⟩ := h
        split at hp
        · injection hp with hp
          subst hp
          rfl
        · split at hp
          · injection hp with hp
            subst hp
            rfl
          · exact Option.noConfusion hp
    · rcases List.mem_singleton.mp hl with h
      subst h; rfl

theorem plural_seg_no_flag (plurals : List Str) : ∀ l ∈ plurals.enum.map (fun p =>
    "msgstr[".data ++ natToStr p.1 ++ "] \"".data ++ escape_po_string p.2 ++ ['\"']),
    "#,".data.isPrefixOf l = false := by
  intro l hl
  rw [List.mem_map] at hl
  obtain ⟨p, _, hp⟩ := hl
  subst hp
  rfl

theorem pluralKey_seg_no_flag (msgid_plural : Str) : ∀ l ∈
    (if ¬ msgid_plural.isEmpty then
      ["msgid_plural \"".data ++ escape_po_string msgid_plural ++ ['\"']]
     else ([] : List Str)),
    "#,".data.isPrefixOf l = false := by
  intro l hl
  split at hl
  · rcases List.mem_singleton.mp hl with h
    subst h; rfl
  · simp at hl

theorem writeEntryAux_flag_mem (sr : Bool) (e : POEntry) (l : Str)
    (hl : l ∈ writeEntryAux sr false e) (hpre : "#,".data.isPrefixOf l = true) :
    ∃ c ∈ e.comments, "#,".data.isPrefixOf c = true ∧
      rewriteFlagLine sr false c = some l := by
  simp only [writeEntryAux] at hl
  rw [if_neg (show ¬(false = true ∧ (writeComments sr false e.comments).2 = false)
    from by simp)] at hl
  rcases List.mem_append.mp hl with hl | hl
  · rcases List.mem_append.mp hl with hl | hl
    · rcases List.mem_append.mp hl with hl | hl
      · rcases List.mem_append.mp hl with hl | hl
        · exact writeComments_flag_mem sr false e.comments l hl hpre
        · have hc := msgid_seg_no_flag e.msgid l hl
          rw [hpre] at hc
          exact Bool.noConfusion hc
      · have hc := pluralKey_seg_no_flag e.msgid_plural l hl
        rw [hpre] at hc
        exact Bool.noConfusion hc
    · have hc := format_msgstr_no_flag e.msgstr l hl
      rw [hpre] at hc
      exact Bool.noConfusion hc
  · have hc := plural_seg_no_flag e.msgstr_plural l hl
    rw [hpre] at hc
    exact Bool.noConfusion hc

theorem writeEntryAux_synth_mem (sr : Bool) (e : POEntry)
    (hnf : ∀ c ∈ e.comments, "#,".data.isPrefixOf c = false) :
    "#, fuzzy".data ∈ writeEntryAux sr true e := by
  simp only [writeEntryAux]
  rw [writeComments_of_no_flag sr true e.comments hnf]
  rw [if_pos (show (True ∧ ((e.comments, false) : List Str × Bool).2 = false)
    from ⟨trivial, rfl⟩)]
  apply List.mem_append_left
  apply List.mem_append_left
  apply List.mem_append_left
  apply List.mem_append_left
  exact List.mem_append_right _ (List.mem_singleton_self _)

/-- C8: In translate.py the fuzzy flag is synthesized/added only when the key is
in addFuzzyFor and the entry is not verified; in translate_v2.py the verified
check is absent and a verified entry still receives the flag. Removal and
empty-line omission hold in both. -/
theorem C8_write_fuzzy_flags (R A : List Str) (e : POEntry) :
    ((∀ c ∈ e.comments, "#,".data.isPrefixOf c = false) → e.msgid ∈ A →
      "#, fuzzy".data ∈ writeEntryV2 R A e) ∧
    (e.is_verified = true → writeEntryV1 R A e = writeEntryV1 R [] e) ∧
    ((∀ c ∈ e.comments, "#,".data.isPrefixOf c = false) → e.msgid ∈ A →
      e.is_verified = false → "#, fuzzy".data ∈ writeEntryV1 R A e) ∧
    (e.msgid ∈ R → e.msgid ∉ A →
      ∀ l ∈ writeEntryV2 R A e, "#,".data.isPrefixOf l = true →
        "fuzzy".data ∉ stripSplitComma (l.drop 2)) ∧
    (∀ c : Str, stripSplitComma (c.drop 2) = ["fuzzy".data] →
      rewriteFlagLine true false c = none) := by
  refine ⟨?_, ?_, ?_, ?_, ?_⟩
  · intro hnf hA
    unfold writeEntryV2
    rw [decide_eq_true hA]
    exact writeEntryAux_synth_mem _ e hnf
  · intro hv
    unfold writeEntryV1
    rw [hv]
    simp
  · intro hnf hA hv
    unfold writeEntryV1
    rw [decide_eq_true hA, hv]
    exact writeEntryAux_synth_mem _ e hnf
  · intro hR hA l hl hpre
    unfold writeEntryV2 at hl
    rw [decide_eq_false hA] at hl
    obtain ⟨c, _, _, hrw⟩ := writeEntryAux_flag_mem _ e l hl hpre
    rw [decide_eq_true hR] at hrw
    exact (rewriteFlagLine_remove_no_fuzzy c l hrw).1
  · intro c hc
    exact rewriteFlagLine_all_removed c hc

/-- C8 counterexample: a verified entry (translated, not fuzzy) whose key is in
addFuzzyFor still gets a synthesized `#, fuzzy` line from the translate_v2.py
writer, so the "AND the entry is not verified" part of the claim fails there. -/
theorem C8_counterexample :
    POEntry.is_verified ({ msgid := "a".data, msgstr := "x".data } : POEntry) = true ∧
    writeEntryV2 [] ["a".data] ({ msgid := "a".data, msgstr := "x".data } : POEntry) =
      ["#, fuzzy".data, "msgid \"a\"".data, "msgstr \"x\"".data] ∧
    "#, fuzzy".data ∈
      writeEntryV2 [] ["a".data] ({ msgid := "a".data, msgstr := "x".data } : POEntry) := by
  refine ⟨by decide, by decide, ?_⟩
  decide

theorem C8_witness :
    "#, fuzzy".data ∈ writeEntryV2 [] ["a".data]
      ({ msgid := "a".data, msgstr := "x".data } : POEntry) ∧
    writeEntryV1 [] ["a".data] ({ msgid := "a".data, msgstr := "x".data } : POEntry) =
      writeEntryV1 [] [] ({ msgid := "a".data, msgstr := "x".data } : POEntry) ∧
    "#, fuzzy".data ∈ writeEntryV1 [] ["b".data]
      ({ msgid := "b".data, flags := ["fuzzy".data] } : POEntry) ∧
    rewriteFlagLine true false "#, fuzzy".data = none :=
  ⟨(C8_write_fuzzy_flags [] ["a".data]
      ({ msgid := "a".data, msgstr := "x".data } : POEntry)).1
        (by simp) (by decide),
   (C8_write_fuzzy_flags [] ["a".data]
      ({ msgid := "a".data, msgstr := "x".data } : POEntry)).2.1 (by decide),
   (C8_write_fuzzy_flags [] ["b".data]
      ({ msgid := "b".data, flags := ["fuzzy".data] } : POEntry)).2.2.1
        (by simp) (by decide) (by decide),
   (C8_write_fuzzy_flags [] [] ({ } : POEntry)).2.2.2.2
      "#, fuzzy".data (by decide)⟩

/-! ## Import lemmas and Claim C1 -/

theorem alistLookup_upsert_ne (k k2 : Str) (v : Str) (l : List (Str × Str)) (hne : k2 ≠ k) :
    alistLookup k (alistUpsert k2 v l) = alistLookup k l := by
  induction l with
  | nil => simp [alistUpsert, alistLookup, hne]
  | cons p r ih =>
    unfold alistUpsert
    by_cases hp : p.1 = k2
    · rw [if_pos hp]
      unfold alistLookup
      rw [if_neg (by rw [hp]; exact hne), if_neg (by rw [hp]; exact hne)]
    · rw [if_neg hp]
      unfold alistLookup
      by_cases hk : p.1 = k
      · rw [if_pos hk, if_pos hk]
      · rw [if_neg hk, if_neg hk, ih]

theorem importStepV2_verified (mapping : Nat → Option Str) (entries : List POEntry)
    (autoFix : Bool) (st : ImportResult) (num : Nat) (text : Str) (k : Str) (e : POEntry)
    (hmap : mapping num = some k) (hk : lookupEntryByMsgid entries k = some e)
    (hv : e.is_verified = true) :
    importStepV2 mapping entries autoFix st (num, text) =
      { st with skipped := st.skipped + 1 } := by
  simp [importStepV2, hmap, hk, hv]

theorem importStepV1_verified (mapping : Nat → Option Str) (entries : List POEntry)
    (st : ImportResultV1) (num : Nat) (text : Str) (k : Str) (e : POEntry)
    (hmap : mapping num = some k) (hk : lookupEntryByMsgid entries k = some e)
    (hv : e.is_verified = true) :
    importStepV1 mapping entries st (num, text) =
      { st with skipped := st.skipped + 1 } := by
  simp [importStepV1, hmap, hk, hv]

theorem importStepV2_skipped (mapping : Nat → Option Str) (entries : List POEntry)
    (autoFix : Bool) (st : ImportResult) (it : Nat × Str) :
    (importStepV2 mapping entries autoFix st it).skipped =
      st.skipped + (if resolvesVerified mapping entries it then 1 else 0) := by
  unfold importStepV2 resolvesVerified
  cases hmap : mapping it.1 with
  | none => simp [hmap]
  | some k2 =>
    cases hlk : lookupEntryByMsgid entries k2 with
    | none => simp [hmap, hlk]
    | some e2 =>
      by_cases hv2 : e2.is_verified = true
      · simp [hmap, hlk, hv2]
      · have hvf : e2.is_verified = false := by simpa using hv2
        simp only [hmap, hlk, hvf, Bool.false_eq_true, if_false]
        split <;> (try split) <;> simp

theorem importStepV2_translations (mapping : Nat → Option Str) (entries : List POEntry)
    (autoFix : Bool) (st : ImportResult) (it : Nat × Str) (k : Str) (e : POEntry)
    (hk : lookupEntryByMsgid entries k = some e) (hv : e.is_verified = true)
    (hst : alistLookup k st.translations = none) :
    alistLookup k (importStepV2 mapping entries autoFix st it).translations = none := by
  unfold importStepV2
  cases hmap : mapping it.1 with
  | none => simpa [hmap] using hst
  | some k2 =>
    cases hlk : lookupEntryByMsgid entries k2 with
    | none => simpa [hmap, hlk] using hst
    | some e2 =>
      by_cases hv2 : e2.is_verified = true
      · simpa [hmap, hlk, hv2] using hst
      · have hvf : e2.is_verified = false := by simpa using hv2
        have hne : k2 ≠ k := by
          intro he
          subst he
          rw [hk] at hlk
          injection hlk with h2
          subst h2
          exact hv2 hv
        simp only [hmap, hlk, hvf, Bool.false_eq_true, if_false]
        split <;> (try split) <;>
          simp [alistLookup_upsert_ne k k2 _ _ hne, hst]

theorem importStepV1_skipped (mapping : Nat → Option Str) (entries : List POEntry)
    (st : ImportResultV1) (it : Nat × Str) :
    (importStepV1 mapping entries st it).skipped =
      st.skipped + (if resolvesVerified mapping entries it then 1 else 0) := by
  unfold importStepV1 resolvesVerified
  cases hmap : mapping it.1 with
  | none => simp [hmap]
  | some k2 =>
    cases hlk : lookupEntryByMsgid entries k2 with
    | none => simp [hmap, hlk]
    | some e2 =>
      by_cases hv2 : e2.is_verified = true
      · simp [hmap, hlk, hv2]
      · have hvf : e2.is_verified = false := by simpa using hv2
        simp only [hmap, hlk, hvf, Bool.false_eq_true, if_false]
        split <;> (try split) <;> simp

theorem importStepV1_translations (mapping : Nat → Option Str) (entries : List POEntry)
    (st : ImportResultV1) (it : Nat × Str) (k : Str) (e : POEntry)
    (hk : lookupEntryByMsgid entries k = some e) (hv : e.is_verified = true)
    (hst : alistLookup k st.translations = none) :
    alistLookup k (importStepV1 mapping entries st it).translations = none := by
  unfold importStepV1
  cases hmap : mapping it.1 with
  | none => simpa [hmap] using hst
  | some k2 =>
    cases hlk : lookupEntryByMsgid entries k2 with
    | none => simpa [hmap, hlk] using hst
    | some e2 =>
      by_cases hv2 : e2.is_verified = true
      · simpa [hmap, hlk, hv2] using hst
      · have hvf : e2.is_verified = false := by simpa using hv2
        have hne : k2 ≠ k := by
          intro he
          subst he
          rw [hk] at hlk
          injection hlk with h2
          subst h2
          exact hv2 hv
        simp only [hmap, hlk, hvf, Bool.false_eq_true, if_false]
        split <;> (try split) <;>
          simp [alistLookup_upsert_ne k k2 _ _ hne, hst]

theorem foldl_importStepV2_skipped (mapping : Nat → Option Str) (entries : List POEntry)
    (autoFix : Bool) :
    ∀ (items : List (Nat × Str)) (st : ImportResult),
      (items.foldl (importStepV2 mapping entries autoFix) st).skipped =
        st.skipped + items.countP (resolvesVerified mapping entries) := by
  intro items
  induction items with
  | nil => intro st; simp
  | cons it rest ih =>
    intro st
    rw [List.foldl_cons, ih, List.countP_cons, importStepV2_skipped]
    by_cases h : resolvesVerified mapping entries it = true <;> simp [h] <;> omega

theorem foldl_importStepV2_translations (mapping : Nat → Option Str) (entries : List POEntry)
    (autoFix : Bool) (k : Str) (e : POEntry)
    (hk : lookupEntryByMsgid entries k = some e) (hv : e.is_verified = true) :
    ∀ (items : List (Nat × Str)) (st : ImportResult),
      alistLookup k st.translations = none →
      alistLookup k ((items.foldl (importStepV2 mapping entries autoFix) st).translations) =
        none := by
  intro items
  induction items with
  | nil => intro st hst; simpa using hst
  | cons it rest ih =>
    intro st hst
    rw [List.foldl_cons]
    exact ih _ (importStepV2_translations mapping entries autoFix st it k e hk hv hst)

theorem foldl_importStepV1_skipped (mapping : Nat → Option Str) (entries : List POEntry) :
    ∀ (items : List (Nat × Str)) (st : ImportResultV1),
      (items.foldl (importStepV1 mapping entries) st).skipped =
        st.skipped + items.countP (resolvesVerified mapping entries) := by
  intro items
  induction items with
  | nil => intro st; simp
  | cons it rest ih =>
    intro st
    rw [List.foldl_cons, ih, List.countP_cons, importStepV1_skipped]
    by_cases h : resolvesVerified mapping entries it = true <;> simp [h] <;> omega

theorem foldl_importStepV1_translations (mapping : Nat → Option Str) (entries : List POEntry)
    (k : Str) (e : POEntry)
    (hk : lookupEntryByMsgid entries k = some e) (hv : e.is_verified = true) :
    ∀ (items : List (Nat × Str)) (st : ImportResultV1),
      alistLookup k st.translations = none →
      alistLookup k ((items.foldl (importStepV1 mapping entries) st).translations) = none := by
  intro items
  induction items with
  | nil => intro st hst; simpa using hst
  | cons it rest ih =>
    intro st hst
    rw [List.foldl_cons]
    exact ih _ (importStepV1_translations mapping entries st it k e hk hv hst)

/-! ## Claim C1 -/

/-- Claim C1: in both import pipelines, every numbered line whose mapped key
resolves to a verified entry is a pure skip: processing it only increments the
skipped-verified count by exactly 1 (no error, no warning, no translation is
recorded — the whole result record is unchanged otherwise); over a full run the
skipped count is exactly the number of such lines, and the key of a verified
entry never appears in the returned translations mapping, so its stored
translation is never changed by import. -/
theorem C1_import_skips_verified (mapping : Nat → Option Str) (entries : List POEntry)
    (autoFix : Bool) (items : List (Nat × Str)) (k : Str) (e : POEntry)
    (hk : lookupEntryByMsgid entries k = some e) (hv : e.is_verified = true) :
    (∀ (st : ImportResult) (num : Nat) (text : Str), mapping num = some k →
        importStepV2 mapping entries autoFix st (num, text) =
          { st with skipped := st.skipped + 1 }) ∧
    (import_v2_format mapping entries autoFix items).skipped =
      items.countP (resolvesVerified mapping entries) ∧
    alistLookup k (import_v2_format mapping entries autoFix items).translations = none ∧
    (∀ (st : ImportResultV1) (num : Nat) (text : Str), mapping num = some k →
        importStepV1 mapping entries st (num, text) =
          { st with skipped := st.skipped + 1 }) ∧
    (import_translations mapping entries items).skipped =
      items.countP (resolvesVerified mapping entries) ∧
    alistLookup k (import_translations mapping entries items).translations = none := by
  refine ⟨?_, ?_, ?_, ?_, ?_, ?_⟩
  · intro st num text hmap
    exact importStepV2_verified mapping entries autoFix st num text k e hmap hk hv
  · have h := foldl_importStepV2_skipped mapping entries autoFix items {}
    simpa [import_v2_format] using h
  · exact foldl_importStepV2_translations mapping entries autoFix k e hk hv items {} rfl
  · intro st num text hmap
    exact importStepV1_verified mapping entries st num text k e hmap hk hv
  · have h := foldl_importStepV1_skipped mapping entries items {}
    simpa [import_translations] using h
  · exact foldl_importStepV1_translations mapping entries k e hk hv items {} rfl

/-- Claim C1, witness: the theorem applied to a concrete catalog with a
verified entry (`a` → `x`, no fuzzy flag) and an import file that targets both
the verified entry and a distinct empty entry. -/
theorem C1_witness :
    (lookupEntryByMsgid
        [({ msgid := "a".data, msgstr := "x".data } : POEntry),
         ({ msgid := "b".data } : POEntry)] "a".data =
      some ({ msgid := "a".data, msgstr := "x".data } : POEntry) ∧
      POEntry.is_verified ({ msgid := "a".data, msgstr := "x".data } : POEntry) = true) ∧
    ((import_v2_format
        (fun n => if n = 1 then some "a".data else if n = 2 then some "b".data else none)
        [({ msgid := "a".data, msgstr := "x".data } : POEntry),
         ({ msgid := "b".data } : POEntry)] true
        [(1, "y".data), (2, "z".data)]).skipped =
      [(1, "y".data), (2, "z".data)].countP (resolvesVerified
        (fun n => if n = 1 then some "a".data else if n = 2 then some "b".data else none)
        [({ msgid := "a".data, msgstr := "x".data } : POEntry),
         ({ msgid := "b".data } : POEntry)]) ∧
      alistLookup "a".data (import_v2_format
        (fun n => if n = 1 then some "a".data else if n = 2 then some "b".data else none)
        [({ msgid := "a".data, msgstr := "x".data } : POEntry),
         ({ msgid := "b".data } : POEntry)] true
        [(1, "y".data), (2, "z".data)]).translations = none) :=
  ⟨⟨by decide, by decide⟩,
    ⟨(C1_import_skips_verified
        (fun n => if n = 1 then some "a".data else if n = 2 then some "b".data else none)
        [({ msgid := "a".data, msgstr := "x".data } : POEntry),
         ({ msgid := "b".data } : POEntry)] true
        [(1, "y".data), (2, "z".data)] "a".data
        ({ msgid := "a".data, msgstr := "x".data } : POEntry)
        (by decide) (by decide)).2.1,
      (C1_import_skips_verified
        (fun n => if n = 1 then some "a".data else if n = 2 then some "b".data else none)
        [({ msgid := "a".data, msgstr := "x".data } : POEntry),
         ({ msgid := "b".data } : POEntry)] true
        [(1, "y".data), (2, "z".data)] "a".data
        ({ msgid := "a".data, msgstr := "x".data } : POEntry)
        (by decide) (by decide)).2.2.1⟩⟩

/-! ## Claim C10 -/

/-- Claim C10: for every `total ≥ 1` and `numBatches ≥ 1`,
`BatchManager.get_batch_ranges` produces contiguous, non-overlapping ranges
covering the sequence numbers 1..total in order and without gaps (their
concatenation as intervals is exactly `[1..total]`); every range has size at
most the ceiling batch size, at least 1, and exactly the batch size unless it
is the final range (the one ending at `total`); and splitting 17 strings into
4 batches yields the ranges (1,1,5), (2,6,10), (3,11,15), (4,16,17), i.e.
sizes [5,5,5,2]. -/
theorem C10_get_batch_ranges (total num : Nat) (htot : 1 ≤ total) (hnum : 1 ≤ num) :
    (((BatchManager.get_batch_ranges total num).map
        (fun r => List.range' r.2.1 (r.2.2 + 1 - r.2.1))).flatten = List.range' 1 total) ∧
    (∀ r ∈ BatchManager.get_batch_ranges total num,
        1 ≤ r.2.2 + 1 - r.2.1 ∧
        r.2.2 + 1 - r.2.1 ≤ BatchManager.batch_size total num ∧
        (r.2.2 ≠ total → r.2.2 + 1 - r.2.1 = BatchManager.batch_size total num)) ∧
    BatchManager.get_batch_ranges 17 4 = [(1, 1, 5), (2, 6, 10), (3, 11, 15), (4, 16, 17)] := by
  refine ⟨?_, ?_, by decide⟩
  · have haux := get_batch_ranges_join_aux total num htot hnum num
    have hle := batch_size_total_le total num hnum
    unfold BatchManager.get_batch_ranges
    rw [haux, Nat.min_eq_right hle]
  · intro r hr
    unfold BatchManager.get_batch_ranges at hr
    rw [List.mem_filterMap] at hr
    obtain ⟨i, _, hfi⟩ := hr
    have hbs1 : 1 ≤ BatchManager.batch_size total num := batch_size_pos total num htot hnum
    set bs := BatchManager.batch_size total num with hbs
    by_cases hc : i * bs + 1 ≤ total
    · rw [if_pos hc] at hfi
      injection hfi with hfi
      subst hfi
      have hab : (i + 1) * bs = i * bs + bs := by ring
      refine ⟨by simp; omega, by simp; omega, ?_⟩
      intro hne
      simp only at hne ⊢
      omega
    · rw [if_neg hc] at hfi
      exact absurd hfi (by simp)

/-- Claim C10, witness: the theorem applied at the concrete 17-strings,
4-batches instance of the specification scenario. -/
theorem C10_witness :
    (1 ≤ 17 ∧ 1 ≤ 4) ∧
    ((((BatchManager.get_batch_ranges 17 4).map
        (fun r => List.range' r.2.1 (r.2.2 + 1 - r.2.1))).flatten = List.range' 1 17) ∧
    (∀ r ∈ BatchManager.get_batch_ranges 17 4,
        1 ≤ r.2.2 + 1 - r.2.1 ∧
        r.2.2 + 1 - r.2.1 ≤ BatchManager.batch_size 17 4 ∧
        (r.2.2 ≠ 17 → r.2.2 + 1 - r.2.1 = BatchManager.batch_size 17 4)) ∧
    BatchManager.get_batch_ranges 17 4 = [(1, 1, 5), (2, 6, 10), (3, 11, 15), (4, 16, 17)]) :=
  ⟨⟨by decide, by decide⟩, C10_get_batch_ranges 17 4 (by decide) (by decide)⟩

/-! ## Claim C4 -/

/-- Claim C4, counterexample: the claim `unescape_po_string (escape_po_string s) = s`
for every string `s` is false at the two-character string backslash-`n`: the
writer escapes it to backslash-backslash-`n`, and the parser's fixed-order
unescaping first rewrites the trailing backslash-`n` to a newline, yielding
backslash-newline instead of the original. -/
theorem C4_counterexample :
    unescape_po_string (escape_po_string ['\\', 'n']) = ['\\', '\n'] ∧
      unescape_po_string (escape_po_string ['\\', 'n']) ≠ ['\\', 'n'] := by
  constructor
  · decide
  · decide

/-- Claim C4 (amended): `unescape_po_string (escape_po_string s) = s` holds for
every string `s` in which no backslash character is immediately followed by a
literal letter `n` or `t`; on such pairs (e.g. the counterexample backslash-`n`)
the fixed substitution order of the unescaper loses information. -/
theorem C4_escape_unescape_roundtrip (s : Str) (h : noBadPairs s = true) :
    unescape_po_string (escape_po_string s) = s :=
  unescape_escape_of_noBadPairs s h

/-- Claim C4, witness: the amended round trip evaluated on a concrete string
exercising all four escape substitutions. -/
theorem C4_witness :
    noBadPairs "a\"b\\c\nd\te".data = true ∧
      unescape_po_string (escape_po_string "a\"b\\c\nd\te".data) = "a\"b\\c\nd\te".data :=
  ⟨by decide, C4_escape_unescape_roundtrip "a\"b\\c\nd\te".data (by decide)⟩

/-! ## Parse/write roundtrip machinery (Claim C2) -/

theorem joinNL_splitOnChar : ∀ s : Str, joinNL (splitOnChar '\n' s) = s := by
  intro s
  induction s with
  | nil => rfl
  | cons c cs ih =>
    unfold splitOnChar
    by_cases hc : c = '\n'
    · rw [if_pos hc]
      cases hsp : splitOnChar '\n' cs with
      | nil => exact absurd hsp (splitOnChar_ne_nil _ _)
      | cons p ps =>
        rw [hsp] at ih
        show joinNL ([] :: p :: ps) = c :: cs
        unfold joinNL
        rw [ih, hc]
        rfl
    · rw [if_neg hc]
      cases hsp : splitOnChar '\n' cs with
      | nil => exact absurd hsp (splitOnChar_ne_nil _ _)
      | cons p ps =>
        rw [hsp] at ih
        cases ps with
        | nil =>
          show joinNL [c :: p] = c :: cs
          unfold joinNL
          unfold joinNL at ih
          rw [ih]
        | cons q qs =>
          show joinNL ((c :: p) :: q :: qs) = c :: cs
          unfold joinNL
          unfold joinNL at ih
          rw [List.cons_append, ih]

theorem pyStrip_ws_cons (c : Char) (x : Str) (hc : pyWS c = true) :
    pyStrip (c :: x) = pyStrip x := by
  unfold pyStrip
  rw [List.dropWhile_cons_of_pos hc]

theorem sspc_ws_cons (c : Char) (s : Str) (hc : pyWS c = true) :
    stripSplitComma (c :: s) = stripSplitComma s := by
  have hcomma : c ≠ ',' := by
    intro h
    rw [h] at hc
    exact absurd hc (by decide)
  unfold stripSplitComma
  cases hsp : splitOnChar ',' s with
  | nil => exact absurd hsp (splitOnChar_ne_nil _ _)
  | cons p ps =>
    have hL : splitOnChar ',' (c :: s) = (c :: p) :: ps := by
      unfold splitOnChar
      rw [if_neg hcomma, hsp]
    rw [hL]
    simp [pyStrip_ws_cons c p hc]

theorem splitOnChar_snoc (sep c : Char) (hc : c ≠ sep) : ∀ s : Str,
    ∃ p ps, splitOnChar sep s = ps ++ [p] ∧
      splitOnChar sep (s ++ [c]) = ps ++ [p ++ [c]] := by
  intro s
  induction s with
  | nil =>
    refine ⟨[], [], rfl, ?_⟩
    show splitOnChar sep [c] = [[c]]
    simp [splitOnChar, hc]
  | cons d s2 ih =>
    obtain ⟨p, ps, h1, h2⟩ := ih
    by_cases hd : d = sep
    · refine ⟨p, [] :: ps, ?_, ?_⟩
      · show splitOnChar sep (d :: s2) = [] :: ps ++ [p]
        unfold splitOnChar
        rw [if_pos hd, h1]
        rfl
      · show splitOnChar sep (d :: (s2 ++ [c])) = [] :: ps ++ [p ++ [c]]
        unfold splitOnChar
        rw [if_pos hd, h2]
        rfl
    · cases ps with
      | nil =>
        refine ⟨d :: p, [], ?_, ?_⟩
        · show splitOnChar sep (d :: s2) = [d :: p]
          unfold splitOnChar
          rw [if_neg hd]
          simp at h1
          rw [h1]
        · show splitOnChar sep (d :: (s2 ++ [c])) = [d :: (p ++ [c])]
          unfold splitOnChar
          rw [if_neg hd]
          simp at h2
          rw [h2]
      | cons q qs =>
        refine ⟨p, (d :: q) :: qs, ?_, ?_⟩
        · show splitOnChar sep (d :: s2) = (d :: q) :: qs ++ [p]
          unfold splitOnChar
          rw [if_neg hd, h1]
          rfl
        · show splitOnChar sep (d :: (s2 ++ [c])) = (d :: q) :: qs ++ [p ++ [c]]
          unfold splitOnChar
          rw [if_neg hd, h2]
          rfl

theorem pyStrip_ws_snoc (c : Char) (x : Str) (hc : pyWS c = true) :
    pyStrip (x ++ [c]) = pyStrip x := by
  unfold pyStrip
  rw [List.dropWhile_append]
  cases h : List.dropWhile pyWS x with
  | nil =>
    rw [if_pos (by simp)]
    rw [show List.dropWhile pyWS [c] = [] from by
      rw [List.dropWhile_cons_of_pos hc]; rfl]
  | cons a b =>
    rw [if_neg (by simp)]
    rw [show ((a :: b) ++ [c]).reverse = c :: (a :: b).reverse from by simp]
    rw [List.dropWhile_cons_of_pos hc]

theorem sspc_ws_snoc (c : Char) (s : Str) (hc : pyWS c = true) :
    stripSplitComma (s ++ [c]) = stripSplitComma s := by
  have hcomma : c ≠ ',' := by
    intro h
    rw [h] at hc
    exact absurd hc (by decide)
  obtain ⟨p, ps, h1, h2⟩ := splitOnChar_snoc ',' c hcomma s
  unfold stripSplitComma
  rw [h1, h2, List.map_append, List.map_append, List.map_singleton, List.map_singleton,
    pyStrip_ws_snoc c p hc]

theorem sspc_ws_prefix : ∀ (u : Str), (∀ a ∈ u, pyWS a = true) → ∀ (s : Str),
    stripSplitComma (u ++ s) = stripSplitComma s := by
  intro u
  induction u with
  | nil => intro _ s; rfl
  | cons a u2 ih =>
    intro h s
    rw [List.cons_append, sspc_ws_cons a (u2 ++ s) (h a (List.mem_cons_self a u2))]
    exact ih (fun x hx => h x (List.mem_cons_of_mem a hx)) s

theorem sspc_ws_suffix (s : Str) : ∀ (v : Str), (∀ a ∈ v, pyWS a = true) →
    stripSplitComma (s ++ v) = stripSplitComma s := by
  intro v
  induction v using List.reverseRecOn with
  | nil => intro _; rw [List.append_nil]
  | append_singleton w a ih =>
    intro h
    rw [← List.append_assoc, sspc_ws_snoc a (s ++ w) (h a (by simp))]
    exact ih (fun x hx => h x (by simp [hx]))

theorem sspc_strip (s : Str) : stripSplitComma (pyStrip s) = stripSplitComma s := by
  have hdecomp1 : s = s.takeWhile pyWS ++ s.dropWhile pyWS :=
    (List.takeWhile_append_dropWhile pyWS s).symm
  have h1 : stripSplitComma s = stripSplitComma (s.dropWhile pyWS) := by
    conv_lhs => rw [hdecomp1]
    exact sspc_ws_prefix _ (fun a ha => List.mem_takeWhile_imp ha) _
  set t := s.dropWhile pyWS with ht
  have hdecomp2 : t = pyStrip s ++ (t.reverse.takeWhile pyWS).reverse := by
    have := (List.takeWhile_append_dropWhile pyWS t.reverse).symm
    calc t = t.reverse.reverse := by rw [List.reverse_reverse]
    _ = (t.reverse.takeWhile pyWS ++ t.reverse.dropWhile pyWS).reverse := by rw [← this]
    _ = (t.reverse.dropWhile pyWS).reverse ++ (t.reverse.takeWhile pyWS).reverse := by
        rw [List.reverse_append]
    _ = pyStrip s ++ (t.reverse.takeWhile pyWS).reverse := rfl
  have h2 : stripSplitComma t = stripSplitComma (pyStrip s) := by
    conv_lhs => rw [hdecomp2]
    exact sspc_ws_suffix _ _ (fun a ha => List.mem_takeWhile_imp (List.mem_reverse.mp ha))
  rw [h1, ← h2]

theorem noBadPairs_head_pair (c d : Char) (r : Str) (h : noBadPairs (c :: d :: r) = true) :
    (!(c = '\\' && (d = 'n' || d = 't'))) = true := by
  unfold noBadPairs at h
  exact (Bool.and_eq_true_iff.mp h).1

theorem noBadPairs_snoc (d : Char) (hd1 : d ≠ 'n') (hd2 : d ≠ 't') :
    ∀ (s : Str), noBadPairs s = true → noBadPairs (s ++ [d]) = true := by
  intro s
  induction s with
  | nil => intro _; rfl
  | cons a s2 ih =>
    intro h
    cases s2 with
    | nil =>
      show noBadPairs [a, d] = true
      unfold noBadPairs
      simp [hd1, hd2]
      rfl
    | cons b r =>
      show noBadPairs (a :: b :: (r ++ [d])) = true
      unfold noBadPairs
      rw [Bool.and_eq_true_iff]
      exact ⟨noBadPairs_head_pair a b r h, ih (noBadPairs_tail a (b :: r) h)⟩

theorem splitOnChar_cons_head (sep d : Char) (p : Str) (ps : List Str) :
    ∀ (s : Str), splitOnChar sep s = (d :: p) :: ps →
    ∃ s2, s = d :: s2 ∧ splitOnChar sep s2 = p :: ps := by
  intro s
  cases s with
  | nil => intro h; simp [splitOnChar] at h
  | cons e s2 =>
    intro h
    unfold splitOnChar at h
    by_cases he : e = sep
    · rw [if_pos he] at h
      exact absurd (List.head_eq_of_cons_eq h) (by simp)
    · rw [if_neg he] at h
      cases hsp : splitOnChar sep s2 with
      | nil => exact absurd hsp (splitOnChar_ne_nil _ _)
      | cons q qs =>
        rw [hsp] at h
        have h1 := List.head_eq_of_cons_eq h
        have h2 := List.tail_eq_of_cons_eq h
        have h3 := List.head_eq_of_cons_eq h1.symm
        have h4 := List.tail_eq_of_cons_eq h1.symm
        subst h3
        refine ⟨s2, rfl, ?_⟩
        rw [hsp, h4, h2]

theorem noBadPairs_split (sep : Char) (hsep1 : sep ≠ 'n') (hsep2 : sep ≠ 't') :
    ∀ (s : Str), noBadPairs s = true → ∀ p ∈ splitOnChar sep s, noBadPairs p = true := by
  intro s
  induction s with
  | nil =>
    intro _ p hp
    simp [splitOnChar] at hp
    rw [hp]
    rfl
  | cons c cs ih =>
    intro h p hp
    unfold splitOnChar at hp
    by_cases hc : c = sep
    · rw [if_pos hc] at hp
      rcases List.mem_cons.mp hp with h2 | h2
      · rw [h2]; rfl
      · exact ih (noBadPairs_tail c cs h) p h2
    · rw [if_neg hc] at hp
      cases hsp : splitOnChar sep cs with
      | nil => exact absurd hsp (splitOnChar_ne_nil _ _)
      | cons q qs =>
        rw [hsp] at hp
        rcases List.mem_cons.mp hp with h2 | h2
        · subst h2
          cases hq : q with
          | nil => rfl
          | cons b r =>
            show noBadPairs (c :: b :: r) = true
            obtain ⟨s2, hs2, _⟩ := splitOnChar_cons_head sep b r qs cs (by rw [hsp, hq])
            unfold noBadPairs
            rw [Bool.and_eq_true_iff]
            constructor
            · rw [hs2] at h
              exact noBadPairs_head_pair c b s2 h
            · have := ih (noBadPairs_tail c cs h) q (by rw [hsp]; exact List.mem_cons_self q qs)
              rw [hq] at this
              exact this
        · exact ih (noBadPairs_tail c cs h) p (by rw [hsp]; exact List.mem_cons_of_mem q h2)

theorem escape_snoc_nl (p : Str) :
    escape_po_string (p ++ ['\n']) = escape_po_string p ++ ['\\', 'n'] := by
  rw [escape_append]
  rfl

theorem quotedInner_delim (b : Str) :
    quotedInner (['\"'] ++ b ++ ['\"']) = some b := by
  show (if ('\"' : Char) = '\"' ∧ (('\"' : Char) :: (b ++ ['\"'])).getLast? = some '\"'
    then some ((b ++ ['\"']).dropLast) else none) = some b
  rw [if_pos ⟨rfl, by rw [show ('\"' : Char) :: (b ++ ['\"']) = ('\"' :: b) ++ ['\"'] from rfl,
    List.getLast?_concat]⟩]
  rw [List.dropLast_concat]

theorem pyWS_quote : pyWS '\"' = false := by decide

theorem pyStrip_quoted (b : Str) :
    pyStrip (['\"'] ++ b ++ ['\"']) = ['\"'] ++ b ++ ['\"'] := by
  apply pyStrip_eq_self_of
  · intro c cs h
    have : c = '\"' := List.head_eq_of_cons_eq h.symm
    rw [this]
    exact pyWS_quote
  · intro c h
    rw [List.getLast?_concat] at h
    rw [Option.some_inj.mp h.symm]
    exact pyWS_quote

theorem digit_char_val (d : Nat) (hd : d < 10) :
    (Char.ofNat (48 + d)).toNat - 48 = d := by
  interval_cases d <;> decide

theorem digit_char_isDigit (d : Nat) (hd : d < 10) :
    (Char.ofNat (48 + d)).isDigit = true := by
  interval_cases d <;> decide

theorem decToNat_snoc (ds : Str) (c : Char) :
    decToNat (ds ++ [c]) = decToNat ds * 10 + (c.toNat - 48) := by
  unfold decToNat
  rw [List.foldl_append]
  rfl

theorem natDigitsGo_lt (f : Nat) : ∀ n, ∀ d ∈ natDigitsGo f n, d < 10 := by
  induction f with
  | zero => intro n d hd; simp [natDigitsGo] at hd
  | succ f2 ih =>
    intro n d hd
    unfold natDigitsGo at hd
    by_cases hn : n = 0
    · rw [if_pos hn] at hd
      simp at hd
    · rw [if_neg hn] at hd
      rcases List.mem_cons.mp hd with h | h
      · rw [h]
        exact Nat.mod_lt n (by decide)
      · exact ih (n / 10) d h

theorem decToNat_digits (f : Nat) : ∀ n, n ≤ f →
    decToNat (((natDigitsGo f n).map (fun d => Char.ofNat (48 + d))).reverse) = n := by
  induction f with
  | zero =>
    intro n hn
    interval_cases n
    rfl
  | succ f2 ih =>
    intro n hn
    unfold natDigitsGo
    by_cases hn0 : n = 0
    · rw [if_pos hn0, hn0]
      rfl
    · rw [if_neg hn0]
      rw [List.map_cons, List.reverse_cons, decToNat_snoc]
      have hdiv : n / 10 ≤ f2 := by
        have h1 : n / 10 < n := Nat.div_lt_self (Nat.pos_of_ne_zero hn0) (by decide)
        omega
      rw [ih (n / 10) hdiv, digit_char_val (n % 10) (Nat.mod_lt n (by decide))]
      omega

theorem decToNat_natToStr (n : Nat) : decToNat (natToStr n) = n := by
  unfold natToStr
  by_cases hn : n = 0
  · rw [if_pos hn, hn]
    rfl
  · rw [if_neg hn]
    exact decToNat_digits n n (Nat.le_refl n)

theorem natToStr_isDigit (n : Nat) : ∀ c ∈ natToStr n, c.isDigit = true := by
  intro c hc
  unfold natToStr at hc
  by_cases hn : n = 0
  · rw [if_pos hn] at hc
    rcases List.mem_singleton.mp hc with h
    rw [h]
    rfl
  · rw [if_neg hn] at hc
    rw [List.mem_reverse, List.mem_map] at hc
    obtain ⟨d, hd, hdc⟩ := hc
    rw [← hdc]
    exact digit_char_isDigit d (natDigitsGo_lt n n d hd)

theorem isPrefixOf_append_self (a b : Str) : a.isPrefixOf (a ++ b) = true := by
  induction a with
  | nil => simp [List.isPrefixOf]
  | cons c a2 ih =>
    show ((c :: a2).isPrefixOf (c :: (a2 ++ b))) = true
    simp [List.isPrefixOf, ih]

theorem takeWhile_all_append (p : Char → Bool) : ∀ (a : Str), (∀ c ∈ a, p c = true) →
    ∀ (b : Char), p b = false → ∀ (r : Str),
    (a ++ b :: r).takeWhile p = a := by
  intro a
  induction a with
  | nil =>
    intro _ b hb r
    show (b :: r).takeWhile p = []
    rw [List.takeWhile_cons_of_neg (by simp [hb])]
  | cons c a2 ih =>
    intro ha b hb r
    show ((c :: (a2 ++ b :: r)).takeWhile p) = c :: a2
    rw [List.takeWhile_cons_of_pos (by simp [ha c (List.mem_cons_self c a2)])]
    rw [ih (fun x hx => ha x (List.mem_cons_of_mem c hx)) b hb r]

theorem natToStr_ne_nil (n : Nat) : natToStr n ≠ [] := by
  unfold natToStr
  by_cases hn : n = 0
  · rw [if_pos hn]
    simp
  · rw [if_neg hn]
    cases n with
    | zero => exact absurd rfl hn
    | succ m =>
      rw [natDigitsGo, if_neg hn]
      simp

theorem msgstrIdxMatch_writer (i : Nat) (q : Str) :
    msgstrIdxMatch ("msgstr[".data ++ (natToStr i ++
      (']' :: ' ' :: '\"' :: (q ++ ['\"'])))) = some (i, q) := by
  simp only [msgstrIdxMatch]
  rw [if_pos (isPrefixOf_append_self _ _)]
  rw [show (7 : Nat) = ("msgstr[".data).length from rfl, List.drop_left]
  rw [takeWhile_all_append Char.isDigit (natToStr i) (natToStr_isDigit i) ']' (by decide) _]
  rw [List.drop_left]
  rw [if_pos ⟨natToStr_ne_nil i,
    (show ("] \"".data).isPrefixOf (']' :: ' ' :: '\"' :: (q ++ ['\"'])) = true from
      isPrefixOf_append_self "] \"".data (q ++ ['\"']))⟩]
  have hcontent : (']' :: ' ' :: '\"' :: (q ++ ['\"'])).drop 3 = q ++ ['\"'] := rfl
  rw [hcontent]
  have hrev : (q ++ ['\"']).reverse = '\"' :: q.reverse := by simp
  rw [hrev]
  rw [List.takeWhile_cons_of_neg (by simp)]
  rw [if_pos (by simp)]
  rw [decToNat_natToStr]
  have hlen : (q ++ ['\"']).length - 1 - ([] : Str).length = q.length := by simp
  rw [hlen]
  rw [List.take_left]

theorem pyStrip_isEmpty_head (c : Char) (r : Str) (hc : pyWS c = false) :
    (pyStrip (c :: r)).isEmpty = false := by
  rw [List.isEmpty_eq_false_iff_exists_mem]
  by_contra hcon
  push_neg at hcon
  have hnil : pyStrip (c :: r) = [] := List.eq_nil_iff_forall_not_mem.mpr hcon
  unfold pyStrip at hnil
  rw [List.dropWhile_cons_of_neg (by simp [hc])] at hnil
  rw [List.reverse_eq_nil_iff] at hnil
  rw [List.dropWhile_eq_nil_iff] at hnil
  have := hnil c (by simp)
  rw [hc] at this
  exact Bool.noConfusion this

theorem parseLine_nil_flush (st0 : ParseState) (c : POEntry) (hcur : st0.cur = some c)
    (hc : (!c.msgid.isEmpty || c.is_header) = true) :
    parseLine st0 [] = ({ entries := st0.entries ++ [c], cur := none, field := none, lineNo := st0.lineNo + 1 } : ParseState) := by
  simp only [parseLine, hcur]
  rw [if_pos (by rfl)]
  rw [if_pos hc]

theorem parseLine_cur_none (st0 : ParseState) (line : Str)
    (hnb : (pyStrip line).isEmpty = false) (hcur : st0.cur = none) :
    parseLine st0 line = parseLine { st0 with
      cur := some ({ line_number := st0.lineNo + 1 } : POEntry) } line := by
  have hne : ¬(pyStrip line = []) := by
    intro h
    rw [h] at hnb
    exact Bool.noConfusion hnb
  simp [parseLine, hcur, hne]

theorem parseLine_comment (st0 : ParseState) (c : POEntry) (r : Str)
    (hcur : st0.cur = some c) :
    ∃ c2, parseLine st0 ('#' :: r) = ({ entries := st0.entries, cur := some c2, field := st0.field, lineNo := st0.lineNo + 1 } : ParseState) ∧
      c2.msgid = c.msgid ∧ c2.msgstr = c.msgstr ∧
      c2.msgstr_plural = c.msgstr_plural ∧ c2.is_header = c.is_header ∧
      c2.comments = c.comments ++ [('#' :: r)] ∧
      c2.flags = c.flags ++ (if "#,".data.isPrefixOf ('#' :: r) then
        stripSplitComma (pyStrip (('#' :: r).drop 2)) else []) := by
  simp only [parseLine, hcur]
  rw [if_neg (by simp [pyStrip_isEmpty_head '#' r (by decide)])]
  rw [if_pos (show ("#".data.isPrefixOf ('#' :: r)) = true by simp [List.isPrefixOf])]
  by_cases h1 : "#:".data.isPrefixOf ('#' :: r) = true
  · rw [if_pos h1]
    have h2 : "#,".data.isPrefixOf ('#' :: r) = false := by
      cases r with
      | nil => rfl
      | cons a r2 =>
        simp [List.isPrefixOf] at h1 ⊢
        intro ha
        rw [← ha] at h1
        exact absurd h1 (by decide)
    refine ⟨_, rfl, by simp, by simp, by simp, by simp, by simp, by simp [h2]⟩
  · rw [if_neg h1]
    by_cases h2 : "#,".data.isPrefixOf ('#' :: r) = true
    · rw [if_pos h2]
      refine ⟨_, rfl, by simp, by simp, by simp, by simp, by simp, by simp [h2]⟩
    · rw [if_neg h2]
      refine ⟨_, rfl, by simp, by simp, by simp, by simp, by simp, by simp [h2]⟩

theorem parseLine_msgid (st0 : ParseState) (c : POEntry) (b : Str)
    (hcur : st0.cur = some c) :
    parseLine st0 ("msgid ".data ++ (['\"'] ++ b ++ ['\"'])) =
      ({ entries := st0.entries, cur := some (if (unescape_po_string b).isEmpty ∧ st0.entries = [] then { c with msgid := unescape_po_string b, is_header := true } else { c with msgid := unescape_po_string b }), field := some PField.fmsgid, lineNo := st0.lineNo + 1 } : ParseState) := by
  have hbl : ¬(pyStrip ('m' :: 's' :: 'g' :: 'i' :: 'd' :: ' ' :: '\"' :: (b ++ ['\"'])) = []) := by
    intro hcon
    have h := pyStrip_isEmpty_head 'm' ('s' :: 'g' :: 'i' :: 'd' :: ' ' :: '\"' :: (b ++ ['\"'])) (by decide)
    rw [hcon] at h
    exact Bool.noConfusion h
  have hpre : (['m', 's', 'g', 'i', 'd', ' '] : Str) <+:
      ('m' :: 's' :: 'g' :: 'i' :: 'd' :: ' ' :: '\"' :: (b ++ ['\"'])) :=
    List.prefix_append "msgid ".data (['\"'] ++ b ++ ['\"'])
  have hq : pyStrip ('\"' :: (b ++ ['\"'])) = '\"' :: (b ++ ['\"']) := pyStrip_quoted b
  have hqi : quotedInner ('\"' :: (b ++ ['\"'])) = some b := quotedInner_delim b
  simp [parseLine, hcur, hbl, hpre, hq, hqi, List.cons_prefix_iff]

theorem parseLine_msgid_plural (st0 : ParseState) (c : POEntry) (b : Str)
    (hcur : st0.cur = some c) :
    parseLine st0 ("msgid_plural ".data ++ (['\"'] ++ b ++ ['\"'])) =
      ({ entries := st0.entries, cur := some { c with msgid_plural := unescape_po_string b }, field := some PField.fmsgidPlural, lineNo := st0.lineNo + 1 } : ParseState) := by
  have hbl : ¬(pyStrip ('m' :: 's' :: 'g' :: 'i' :: 'd' :: '_' :: 'p' :: 'l' :: 'u' :: 'r' :: 'a' :: 'l' :: ' ' :: '\"' :: (b ++ ['\"'])) = []) := by
    intro hcon
    have h := pyStrip_isEmpty_head 'm' ('s' :: 'g' :: 'i' :: 'd' :: '_' :: 'p' :: 'l' :: 'u' :: 'r' :: 'a' :: 'l' :: ' ' :: '\"' :: (b ++ ['\"'])) (by decide)
    rw [hcon] at h
    exact Bool.noConfusion h
  have hpre : (['m', 's', 'g', 'i', 'd', '_', 'p', 'l', 'u', 'r', 'a', 'l', ' '] : Str) <+:
      ('m' :: 's' :: 'g' :: 'i' :: 'd' :: '_' :: 'p' :: 'l' :: 'u' :: 'r' :: 'a' :: 'l' :: ' ' :: '\"' :: (b ++ ['\"'])) :=
    List.prefix_append "msgid_plural ".data (['\"'] ++ b ++ ['\"'])
  have hq : pyStrip ('\"' :: (b ++ ['\"'])) = '\"' :: (b ++ ['\"']) := pyStrip_quoted b
  have hqi : quotedInner ('\"' :: (b ++ ['\"'])) = some b := quotedInner_delim b
  simp [parseLine, hcur, hbl, hpre, hq, hqi, List.cons_prefix_iff]

theorem parseLine_msgstr (st0 : ParseState) (c : POEntry) (b : Str)
    (hcur : st0.cur = some c) :
    parseLine st0 ("msgstr ".data ++ (['\"'] ++ b ++ ['\"'])) =
      ({ entries := st0.entries, cur := some { c with msgstr := unescape_po_string b }, field := some PField.fmsgstr, lineNo := st0.lineNo + 1 } : ParseState) := by
  have hbl : ¬(pyStrip ('m' :: 's' :: 'g' :: 's' :: 't' :: 'r' :: ' ' :: '\"' :: (b ++ ['\"'])) = []) := by
    intro hcon
    have h := pyStrip_isEmpty_head 'm' ('s' :: 'g' :: 's' :: 't' :: 'r' :: ' ' :: '\"' :: (b ++ ['\"'])) (by decide)
    rw [hcon] at h
    exact Bool.noConfusion h
  have hpre : (['m', 's', 'g', 's', 't', 'r', ' '] : Str) <+:
      ('m' :: 's' :: 'g' :: 's' :: 't' :: 'r' :: ' ' :: '\"' :: (b ++ ['\"'])) :=
    List.prefix_append "msgstr ".data (['\"'] ++ b ++ ['\"'])
  have hq : pyStrip ('\"' :: (b ++ ['\"'])) = '\"' :: (b ++ ['\"']) := pyStrip_quoted b
  have hqi : quotedInner ('\"' :: (b ++ ['\"'])) = some b := quotedInner_delim b
  simp [parseLine, hcur, hbl, hpre, hq, hqi, List.cons_prefix_iff]

theorem parseLine_cont (st0 : ParseState) (c : POEntry) (b : Str)
    (hcur : st0.cur = some c) :
    parseLine st0 (['\"'] ++ b ++ ['\"']) =
      ({ entries := st0.entries, cur := some (match st0.field with | some PField.fmsgid => { c with msgid := c.msgid ++ unescape_po_string b } | some PField.fmsgidPlural => { c with msgid_plural := c.msgid_plural ++ unescape_po_string b } | some PField.fmsgstr => { c with msgstr := c.msgstr ++ unescape_po_string b } | some (PField.fmsgstrIdx i) => { c with msgstr_plural := c.msgstr_plural.set i (c.msgstr_plural.getD i [] ++ unescape_po_string b) } | none => c), field := st0.field, lineNo := st0.lineNo + 1 } : ParseState) := by
  have hbl : ¬(pyStrip ('\"' :: (b ++ ['\"'])) = []) := by
    intro hcon
    have h := pyStrip_isEmpty_head '\"' (b ++ ['\"']) (by decide)
    rw [hcon] at h
    exact Bool.noConfusion h
  have hmatch : msgstrIdxMatch ('\"' :: (b ++ ['\"'])) = none := rfl
  have hqi : quotedInner ('\"' :: (b ++ ['\"'])) = some b := quotedInner_delim b
  simp [parseLine, hcur, hbl, hmatch, hqi, List.cons_prefix_iff]

theorem parseLine_plural (st0 : ParseState) (c : POEntry) (i : Nat) (q : Str)
    (hcur : st0.cur = some c) :
    parseLine st0 ("msgstr[".data ++ (natToStr i ++ (']' :: ' ' :: '\"' :: (q ++ ['\"'])))) =
      ({ entries := st0.entries, cur := some { c with msgstr_plural := (c.msgstr_plural ++ List.replicate (i + 1 - c.msgstr_plural.length) []).set i (unescape_po_string q) }, field := some (PField.fmsgstrIdx i), lineNo := st0.lineNo + 1 } : ParseState) := by
  have hbl : ¬(pyStrip ('m' :: 's' :: 'g' :: 's' :: 't' :: 'r' :: '[' :: (natToStr i ++ (']' :: ' ' :: '\"' :: (q ++ ['\"'])))) = []) := by
    intro hcon
    have h := pyStrip_isEmpty_head 'm' ('s' :: 'g' :: 's' :: 't' :: 'r' :: '[' :: (natToStr i ++ (']' :: ' ' :: '\"' :: (q ++ ['\"'])))) (by decide)
    rw [hcon] at h
    exact Bool.noConfusion h
  have hmatch : msgstrIdxMatch ('m' :: 's' :: 'g' :: 's' :: 't' :: 'r' :: '[' :: (natToStr i ++ (']' :: ' ' :: '\"' :: (q ++ ['\"'])))) = some (i, q) :=
    msgstrIdxMatch_writer i q
  simp [parseLine, hcur, hbl, hmatch, List.cons_prefix_iff]

theorem stripSplitComma_ne_nil (s : Str) : stripSplitComma s ≠ [] := by
  unfold stripSplitComma
  cases hsp : splitOnChar ',' s with
  | nil => exact absurd hsp (splitOnChar_ne_nil _ _)
  | cons p ps => simp

theorem rewriteFlagLine_noop (c : Str) : rewriteFlagLine false false c =
    some ("#, ".data ++ joinCommaSpace (stripSplitComma (c.drop 2))) := by
  simp only [rewriteFlagLine]
  rw [if_neg (show ¬(false = true) from by simp)]
  rw [if_neg (show ¬(false = true ∧
    ¬(stripSplitComma (List.drop 2 c)).contains "fuzzy".data = true) from by simp)]
  rw [if_pos (stripSplitComma_ne_nil _)]

theorem writeComments_false_lines (cs : List Str) :
    (writeComments false false cs).1 = cs.map (fun c =>
      if "#,".data.isPrefixOf c then
        "#, ".data ++ joinCommaSpace (stripSplitComma (c.drop 2))
      else c) := by
  unfold writeComments
  suffices haux : ∀ (cs : List Str) (acc : List Str) (w : Bool),
      (cs.foldl (fun acc c =>
        if "#,".data.isPrefixOf c then
          match rewriteFlagLine false false c with
          | some l => (acc.1 ++ [l], true)
          | none => (acc.1, true)
        else (acc.1 ++ [c], acc.2)) (acc, w)).1 = acc ++ cs.map (fun c =>
          if "#,".data.isPrefixOf c then
            "#, ".data ++ joinCommaSpace (stripSplitComma (c.drop 2))
          else c) by
    simpa using haux cs [] false
  intro cs2
  induction cs2 with
  | nil => intro acc w; simp
  | cons c rest ih =>
    intro acc w
    rw [List.foldl_cons]
    by_cases hc : "#,".data.isPrefixOf c = true
    · rw [if_pos hc, rewriteFlagLine_noop]
      rw [ih]
      simp [hc]
      rw [if_pos (List.isPrefixOf_iff_prefix.mp hc)]
    · rw [if_neg hc]
      rw [ih]
      simp [hc]
      rw [if_neg (fun hcon => hc (List.isPrefixOf_iff_prefix.mpr hcon))]

theorem flags_norm_roundtrip (x : Str) :
    stripSplitComma (pyStrip (("#, ".data ++ joinCommaSpace (stripSplitComma x)).drop 2)) =
      stripSplitComma (pyStrip x) := by
  have hdrop : (("#, ".data ++ joinCommaSpace (stripSplitComma x)).drop 2) =
      ' ' :: joinCommaSpace (stripSplitComma x) := rfl
  rw [hdrop, sspc_strip, sspc_strip]
  exact stripSplitComma_space_join (stripSplitComma x)
    (stripSplitComma_props x) (stripSplitComma_ne_nil x)

theorem format_msgstr_contLines (v : Str) (hne : v.isEmpty = false) (hv : '\n' ∈ v) :
    format_msgstr_for_po v = "msgstr \"\"".data :: contLines (splitOnChar '\n' v) := by
  unfold format_msgstr_for_po
  rw [if_neg (by simp [hne]), if_pos hv]
  have haux : ∀ (l : List Str) (k n : Nat), l ≠ [] → k + l.length = n →
      (List.enumFrom k l).filterMap (fun p =>
        if p.1 < n - 1 then some (['\"'] ++ escape_po_string p.2 ++ "\\n\"".data)
        else if p.2 ≠ [] then some (['\"'] ++ escape_po_string p.2 ++ ['\"'])
        else none) = contLines l := by
    intro l
    induction l with
    | nil => intro k n h _; exact absurd rfl h
    | cons p rest ih =>
      intro k n _ hkn
      cases rest with
      | nil =>
        have hk : ¬(k < n - 1) := by
          simp at hkn
          omega
        by_cases hp : p = []
        · simp [hk, hp, contLines]
        · simp [hk, hp, contLines]
      | cons q rest2 =>
        have hk : k < n - 1 := by
          simp [List.length_cons] at hkn
          omega
        have ihx := ih (k + 1) n (by simp) (by simp [List.length_cons] at hkn ⊢; omega)
        rw [show List.enumFrom k (p :: q :: rest2) =
          (k, p) :: List.enumFrom (k + 1) (q :: rest2) from rfl]
        rw [List.filterMap_cons]
        simp [hk, contLines]
        simpa using ihx
  exact congrArg (List.cons "msgstr \"\"".data) (haux (splitOnChar '\n' v) 0
    (splitOnChar '\n' v).length (splitOnChar_ne_nil '\n' v) (by simp))

theorem msgidBlockLines_contLines (v : Str)
    (hN2 : ∀ p ∈ (splitOnChar '\n' v).dropLast,
      p ≠ (splitOnChar '\n' v).getLastD []) :
    msgidBlockLines v = "msgid \"\"".data :: contLines (splitOnChar '\n' v) := by
  unfold msgidBlockLines
  have haux : ∀ (l : List Str) (lp : Str), l ≠ [] → lp = l.getLastD [] →
      (∀ p ∈ l.dropLast, p ≠ lp) →
      l.filterMap (fun part =>
        if part ≠ lp then some (['\"'] ++ escape_po_string part ++ "\\n\"".data)
        else if part ≠ [] then some (['\"'] ++ escape_po_string part ++ ['\"'])
        else none) = contLines l := by
    intro l
    induction l with
    | nil => intro lp h _ _; exact absurd rfl h
    | cons p rest ih =>
      intro lp _ hlp hdl
      cases rest with
      | nil =>
        have hlpp : lp = p := by simpa using hlp
        by_cases hp : p = []
        · simp [hlpp, hp, contLines]
        · simp [hlpp, hp, contLines]
      | cons q rest2 =>
        have hlp2 : lp = (q :: rest2).getLastD [] := by
          rw [hlp]
          rfl
        have hpne : p ≠ lp := by
          apply hdl
          rw [show (p :: q :: rest2).dropLast = p :: (q :: rest2).dropLast from rfl]
          exact List.mem_cons_self _ _
        have ihx := ih lp (by simp) hlp2 (fun x hx => hdl x (by
          rw [show (p :: q :: rest2).dropLast = p :: (q :: rest2).dropLast from rfl]
          exact List.mem_cons_of_mem p hx))
        rw [List.filterMap_cons]
        simp [hpne, contLines]
        simpa using ihx
  exact congrArg (List.cons "msgid \"\"".data) (haux (splitOnChar '\n' v)
    ((splitOnChar '\n' v).getLastD []) (splitOnChar_ne_nil '\n' v) rfl hN2)

theorem flagsOfComments_cons (x : Str) (rest : List Str) :
    flagsOfComments (x :: rest) =
      (if "#,".data.isPrefixOf x then stripSplitComma (pyStrip (x.drop 2)) else []) ++
        flagsOfComments rest := by
  unfold flagsOfComments
  rw [List.map_cons, List.flatten_cons]

theorem parseComments_fold : ∀ (cs : List Str), (∀ x ∈ cs, ∃ r, x = '#' :: r) →
    ∀ (st0 : ParseState) (c : POEntry), st0.cur = some c →
    ∃ c2, List.foldl parseLine st0 ((writeComments false false cs).1) =
      ({ entries := st0.entries, cur := some c2, field := st0.field, lineNo := st0.lineNo + cs.length } : ParseState) ∧
      c2.msgid = c.msgid ∧ c2.msgstr = c.msgstr ∧ c2.msgstr_plural = c.msgstr_plural ∧
      c2.is_header = c.is_header ∧ c2.flags = c.flags ++ flagsOfComments cs := by
  intro cs
  induction cs with
  | nil =>
    intro _ st0 c hcur
    refine ⟨c, ?_, rfl, rfl, rfl, rfl, by simp [flagsOfComments]⟩
    rw [show (writeComments false false []).1 = [] from rfl]
    rw [List.foldl_nil]
    rcases st0 with ⟨es, cur0, fld, n⟩
    simp at hcur
    simp [hcur]
  | cons x rest ih =>
    intro hcs st0 c hcur
    obtain ⟨r, hx⟩ := hcs x (List.mem_cons_self x rest)
    subst hx
    rw [writeComments_false_lines, List.map_cons, List.foldl_cons]
    by_cases hflag : "#,".data.isPrefixOf ('#' :: r) = true
    · rw [if_pos hflag]
      obtain ⟨c2, hstep, h1, h2, h3, h4, h5, h6⟩ := parseLine_comment st0 c
        (',' :: ' ' :: joinCommaSpace (stripSplitComma (List.drop 2 ('#' :: r)))) hcur
      rw [show "#, ".data ++ joinCommaSpace (stripSplitComma (List.drop 2 ('#' :: r))) =
        '#' :: ',' :: ' ' :: joinCommaSpace (stripSplitComma (List.drop 2 ('#' :: r))) from rfl]
      rw [hstep]
      have hrest := ih (fun y hy => hcs y (List.mem_cons_of_mem _ hy))
        ({ entries := st0.entries, cur := some c2, field := st0.field, lineNo := st0.lineNo + 1 } : ParseState) c2 rfl
      rw [writeComments_false_lines] at hrest
      obtain ⟨c3, hf, g1, g2, g3, g4, g5⟩ := hrest
      refine ⟨c3, ?_, by rw [g1, h1], by rw [g2, h2], by rw [g3, h3], by rw [g4, h4], ?_⟩
      · rw [hf]
        simp [ParseState.mk.injEq]
        omega
      · rw [g5, h6]
        rw [flagsOfComments_cons, if_pos hflag]
        have hcontrib : (if "#,".data.isPrefixOf ('#' :: ',' :: ' ' :: joinCommaSpace (stripSplitComma (List.drop 2 ('#' :: r)))) then
            stripSplitComma (pyStrip (('#' :: ',' :: ' ' :: joinCommaSpace (stripSplitComma (List.drop 2 ('#' :: r)))).drop 2)) else []) =
            stripSplitComma (pyStrip (('#' :: r).drop 2)) := by
          rw [if_pos (show ("#,".data.isPrefixOf ('#' :: ',' :: ' ' :: joinCommaSpace (stripSplitComma (List.drop 2 ('#' :: r))))) = true from rfl)]
          rw [show ('#' :: ',' :: ' ' :: joinCommaSpace (stripSplitComma (List.drop 2 ('#' :: r)))).drop 2 =
            ("#, ".data ++ joinCommaSpace (stripSplitComma (List.drop 2 ('#' :: r)))).drop 2 from rfl]
          exact flags_norm_roundtrip (('#' :: r).drop 2)
        rw [hcontrib, List.append_assoc]
    · rw [if_neg hflag]
      obtain ⟨c2, hstep, h1, h2, h3, h4, h5, h6⟩ := parseLine_comment st0 c r hcur
      rw [hstep]
      have hrest := ih (fun y hy => hcs y (List.mem_cons_of_mem _ hy))
        ({ entries := st0.entries, cur := some c2, field := st0.field, lineNo := st0.lineNo + 1 } : ParseState) c2 rfl
      rw [writeComments_false_lines] at hrest
      obtain ⟨c3, hf, g1, g2, g3, g4, g5⟩ := hrest
      refine ⟨c3, ?_, by rw [g1, h1], by rw [g2, h2], by rw [g3, h3], by rw [g4, h4], ?_⟩
      · rw [hf]
        simp [ParseState.mk.injEq]
        omega
      · rw [g5, h6]
        rw [flagsOfComments_cons]
        have hfl : "#,".data.isPrefixOf ('#' :: r) = false := Bool.eq_false_iff.mpr hflag
        simp [hfl]

theorem unescape_escape_snoc_nl (p : Str) (hp : noBadPairs p = true) :
    unescape_po_string (escape_po_string p ++ ['\\', 'n']) = p ++ ['\n'] := by
  rw [← escape_snoc_nl]
  exact unescape_escape_of_noBadPairs (p ++ ['\n'])
    (noBadPairs_snoc '\n' (by decide) (by decide) p hp)

theorem parseCont_fold_msgstr : ∀ (parts : List Str) (st0 : ParseState) (c : POEntry),
    st0.cur = some c → st0.field = some PField.fmsgstr →
    (∀ p ∈ parts, noBadPairs p = true) →
    List.foldl parseLine st0 (contLines parts) =
      ({ entries := st0.entries, cur := some { c with msgstr := c.msgstr ++ joinNL parts }, field := some PField.fmsgstr, lineNo := st0.lineNo + (contLines parts).length } : ParseState) := by
  intro parts
  induction parts with
  | nil =>
    intro st0 c hcur hfield _
    rw [show contLines [] = [] from rfl, List.foldl_nil]
    rcases st0 with ⟨es, cur0, fld, n⟩
    simp at hcur hfield
    simp [hcur, hfield, joinNL]
  | cons p rest ih =>
    intro st0 c hcur hfield hnb
    cases rest with
    | nil =>
      by_cases hp : p = []
      · rw [show contLines [p] = [] from by rw [hp]; rfl, List.foldl_nil]
        rcases st0 with ⟨es, cur0, fld, n⟩
        simp at hcur hfield
        simp [hcur, hfield, joinNL, hp]
      · rw [show contLines [p] = [['\"'] ++ escape_po_string p ++ ['\"']] from by
          unfold contLines; rw [if_pos (by simp [hp])]]
        rw [List.foldl_cons, List.foldl_nil]
        rw [parseLine_cont st0 c (escape_po_string p) hcur]
        rw [hfield]
        rw [unescape_escape_of_noBadPairs p (hnb p (List.mem_cons_self p []))]
        rfl
    | cons q rest2 =>
      rw [show contLines (p :: q :: rest2) =
        (['\"'] ++ escape_po_string p ++ "\\n\"".data) :: contLines (q :: rest2) from rfl]
      rw [List.foldl_cons]
      rw [show ['\"'] ++ escape_po_string p ++ "\\n\"".data =
        ['\"'] ++ (escape_po_string p ++ ['\\', 'n']) ++ ['\"'] from by simp]
      rw [parseLine_cont st0 c (escape_po_string p ++ ['\\', 'n']) hcur]
      rw [hfield]
      rw [unescape_escape_snoc_nl p (hnb p (List.mem_cons_self p _))]
      rw [ih _ ({ c with msgstr := c.msgstr ++ (p ++ ['\n']) }) rfl rfl
        (fun x hx => hnb x (List.mem_cons_of_mem p hx))]
      simp [ParseState.mk.injEq, joinNL, List.append_assoc]
      omega

theorem parseCont_fold_msgid : ∀ (parts : List Str) (st0 : ParseState) (c : POEntry),
    st0.cur = some c → st0.field = some PField.fmsgid →
    (∀ p ∈ parts, noBadPairs p = true) →
    List.foldl parseLine st0 (contLines parts) =
      ({ entries := st0.entries, cur := some { c with msgid := c.msgid ++ joinNL parts }, field := some PField.fmsgid, lineNo := st0.lineNo + (contLines parts).length } : ParseState) := by
  intro parts
  induction parts with
  | nil =>
    intro st0 c hcur hfield _
    rw [show contLines [] = [] from rfl, List.foldl_nil]
    rcases st0 with ⟨es, cur0, fld, n⟩
    simp at hcur hfield
    simp [hcur, hfield, joinNL]
  | cons p rest ih =>
    intro st0 c hcur hfield hnb
    cases rest with
    | nil =>
      by_cases hp : p = []
      · rw [show contLines [p] = [] from by rw [hp]; rfl, List.foldl_nil]
        rcases st0 with ⟨es, cur0, fld, n⟩
        simp at hcur hfield
        simp [hcur, hfield, joinNL, hp]
      · rw [show contLines [p] = [['\"'] ++ escape_po_string p ++ ['\"']] from by
          unfold contLines; rw [if_pos (by simp [hp])]]
        rw [List.foldl_cons, List.foldl_nil]
        rw [parseLine_cont st0 c (escape_po_string p) hcur]
        rw [hfield]
        rw [unescape_escape_of_noBadPairs p (hnb p (List.mem_cons_self p []))]
        rfl
    | cons q rest2 =>
      rw [show contLines (p :: q :: rest2) =
        (['\"'] ++ escape_po_string p ++ "\\n\"".data) :: contLines (q :: rest2) from rfl]
      rw [List.foldl_cons]
      rw [show ['\"'] ++ escape_po_string p ++ "\\n\"".data =
        ['\"'] ++ (escape_po_string p ++ ['\\', 'n']) ++ ['\"'] from by simp]
      rw [parseLine_cont st0 c (escape_po_string p ++ ['\\', 'n']) hcur]
      rw [hfield]
      rw [unescape_escape_snoc_nl p (hnb p (List.mem_cons_self p _))]
      rw [ih _ ({ c with msgid := c.msgid ++ (p ++ ['\n']) }) rfl rfl
        (fun x hx => hnb x (List.mem_cons_of_mem p hx))]
      simp [ParseState.mk.injEq, joinNL, List.append_assoc]
      omega

theorem set_append_len (mp : List Str) (x v : Str) :
    (mp ++ [x]).set mp.length v = mp ++ [v] := by
  induction mp with
  | nil => rfl
  | cons a mp2 ih =>
    show (a :: (mp2 ++ [x])).set (mp2.length + 1) v = a :: (mp2 ++ [v])
    rw [List.set_cons_succ]
    rw [ih]

theorem parsePlural_fold : ∀ (ps : List Str) (k : Nat) (st0 : ParseState) (c : POEntry),
    st0.cur = some c → c.msgstr_plural.length = k →
    (∀ p ∈ ps, noBadPairs p = true) →
    ∃ fld, List.foldl parseLine st0 ((List.enumFrom k ps).map (fun p =>
        "msgstr[".data ++ natToStr p.1 ++ "] \"".data ++ escape_po_string p.2 ++ ['\"'])) =
      ({ entries := st0.entries, cur := some { c with msgstr_plural := c.msgstr_plural ++ ps }, field := fld, lineNo := st0.lineNo + ps.length } : ParseState) := by
  intro ps
  induction ps with
  | nil =>
    intro k st0 c hcur _ _
    refine ⟨st0.field, ?_⟩
    rw [show List.enumFrom k ([] : List Str) = [] from rfl, List.map_nil, List.foldl_nil]
    rcases st0 with ⟨es, cur0, fld, n⟩
    simp at hcur
    simp [hcur]
  | cons p rest ih =>
    intro k st0 c hcur hlen hnb
    rw [show List.enumFrom k (p :: rest) = (k, p) :: List.enumFrom (k + 1) rest from rfl]
    rw [List.map_cons, List.foldl_cons]
    rw [show "msgstr[".data ++ natToStr (k, p).1 ++ "] \"".data ++ escape_po_string (k, p).2 ++ ['\"'] =
      "msgstr[".data ++ (natToStr k ++ (']' :: ' ' :: '\"' :: (escape_po_string p ++ ['\"']))) from by simp]
    rw [parseLine_plural st0 c k (escape_po_string p) hcur]
    have hset : (c.msgstr_plural ++ List.replicate (k + 1 - c.msgstr_plural.length) []).set k
        (unescape_po_string (escape_po_string p)) = c.msgstr_plural ++ [p] := by
      rw [hlen, show k + 1 - k = 1 from by omega]
      rw [show List.replicate 1 ([] : Str) = [[]] from rfl]
      rw [unescape_escape_of_noBadPairs p (hnb p (List.mem_cons_self p rest))]
      rw [← hlen]
      exact set_append_len c.msgstr_plural [] p
    rw [hset]
    obtain ⟨fld, hrest⟩ := ih (k + 1)
      ({ entries := st0.entries, cur := some { c with msgstr_plural := c.msgstr_plural ++ [p] }, field := some (PField.fmsgstrIdx k), lineNo := st0.lineNo + 1 } : ParseState)
      ({ c with msgstr_plural := c.msgstr_plural ++ [p] }) rfl
      (by simp [hlen]) (fun x hx => hnb x (List.mem_cons_of_mem p hx))
    refine ⟨fld, ?_⟩
    rw [hrest]
    simp [ParseState.mk.injEq, List.append_assoc]
    omega

theorem parse_po_file_eq (lines : List Str) :
    parse_po_file lines = parseFinish (List.foldl parseLine {} lines) := rfl

theorem writeEntryAux_false (e : POEntry) : writeEntryAux false false e =
    (writeComments false false e.comments).1 ++
    ((if '\n' ∈ e.msgid ∨ e.msgid.length > 70 then msgidBlockLines e.msgid
      else ["msgid \"".data ++ escape_po_string e.msgid ++ ['\"']]) ++
     ((if ¬ e.msgid_plural.isEmpty then
        ["msgid_plural \"".data ++ escape_po_string e.msgid_plural ++ ['\"']] else []) ++
      (format_msgstr_for_po e.msgstr ++
       e.msgstr_plural.enum.map (fun p =>
        "msgstr[".data ++ natToStr p.1 ++ "] \"".data ++ escape_po_string p.2 ++ ['\"'])))) := by
  simp only [writeEntryAux]
  rw [if_neg (show ¬(false = true ∧ (writeComments false false e.comments).2 = false)
    from by simp)]
  simp [List.append_assoc]

theorem parseMsgstrSeg (v : Str) (hnb : noBadPairs v = true)
    (st0 : ParseState) (c : POEntry) (hcur : st0.cur = some c) :
    List.foldl parseLine st0 (format_msgstr_for_po v) =
      ({ entries := st0.entries, cur := some { c with msgstr := v }, field := some PField.fmsgstr, lineNo := st0.lineNo + (format_msgstr_for_po v).length } : ParseState) := by
  by_cases hv : v.isEmpty = true
  · have hvnil : v = [] := by
      cases v with
      | nil => rfl
      | cons a b => exact Bool.noConfusion hv
    subst hvnil
    rw [show format_msgstr_for_po [] = ["msgstr \"\"".data] from rfl]
    rw [List.foldl_cons, List.foldl_nil]
    rw [show ("msgstr \"\"".data) = "msgstr ".data ++ (['\"'] ++ ([] : Str) ++ ['\"']) from rfl]
    rw [parseLine_msgstr st0 c [] hcur]
    rfl
  · have hvf : v.isEmpty = false := Bool.eq_false_iff.mpr hv
    by_cases hnl : '\n' ∈ v
    · rw [format_msgstr_contLines v hvf hnl]
      rw [List.foldl_cons]
      rw [show ("msgstr \"\"".data) = "msgstr ".data ++ (['\"'] ++ ([] : Str) ++ ['\"']) from rfl]
      rw [parseLine_msgstr st0 c [] hcur]
      rw [parseCont_fold_msgstr (splitOnChar '\n' v) _ ({ c with msgstr := unescape_po_string [] }) rfl rfl
        (noBadPairs_split '\n' (by decide) (by decide) v hnb)]
      rw [show (unescape_po_string ([] : Str)) = [] from rfl]
      simp [ParseState.mk.injEq, joinNL_splitOnChar]
      omega
    · rw [show format_msgstr_for_po v =
        ["msgstr \"".data ++ escape_po_string v ++ ['\"']] from by
          unfold format_msgstr_for_po
          rw [if_neg (by simp [hvf]), if_neg hnl]]
      rw [List.foldl_cons, List.foldl_nil]
      rw [show "msgstr \"".data ++ escape_po_string v ++ ['\"'] =
        "msgstr ".data ++ (['\"'] ++ escape_po_string v ++ ['\"']) from by simp]
      rw [parseLine_msgstr st0 c (escape_po_string v) hcur]
      rw [unescape_escape_of_noBadPairs v hnb]
      rfl

theorem parsePluralKeySeg (mp : Str) (st0 : ParseState) (c : POEntry)
    (hcur : st0.cur = some c) :
    ∃ c2 fld, List.foldl parseLine st0
      (if ¬ mp.isEmpty then ["msgid_plural \"".data ++ escape_po_string mp ++ ['\"']] else []) =
      ({ entries := st0.entries, cur := some c2, field := fld, lineNo := st0.lineNo + (if ¬ mp.isEmpty then ["msgid_plural \"".data ++ escape_po_string mp ++ ['\"']] else []).length } : ParseState) ∧
      c2.msgid = c.msgid ∧ c2.msgstr = c.msgstr ∧ c2.msgstr_plural = c.msgstr_plural ∧
      c2.flags = c.flags ∧ c2.is_header = c.is_header := by
  by_cases hmp : ¬ mp.isEmpty = true
  · rw [if_pos hmp]
    refine ⟨{ c with msgid_plural := unescape_po_string (escape_po_string mp) },
      some PField.fmsgidPlural, ?_, by simp, by simp, by simp, by simp, by simp⟩
    rw [List.foldl_cons, List.foldl_nil]
    rw [show "msgid_plural \"".data ++ escape_po_string mp ++ ['\"'] =
      "msgid_plural ".data ++ (['\"'] ++ escape_po_string mp ++ ['\"']) from by simp]
    rw [parseLine_msgid_plural st0 c (escape_po_string mp) hcur]
    rfl
  · rw [if_neg hmp]
    refine ⟨c, st0.field, ?_, rfl, rfl, rfl, rfl, rfl⟩
    rw [List.foldl_nil]
    rcases st0 with ⟨es, cur0, fld, n⟩
    simp at hcur
    simp [hcur]

theorem parseMsgidSeg (v : Str) (hnb : noBadPairs v = true)
    (hN2 : ∀ p ∈ (splitOnChar '\n' v).dropLast, p ≠ (splitOnChar '\n' v).getLastD [])
    (st0 : ParseState) (c : POEntry) (hcur : st0.cur = some c) :
    ∃ c2, List.foldl parseLine st0 (if '\n' ∈ v ∨ v.length > 70 then msgidBlockLines v
        else ["msgid \"".data ++ escape_po_string v ++ ['\"']]) =
      ({ entries := st0.entries, cur := some c2, field := some PField.fmsgid, lineNo := st0.lineNo + (if '\n' ∈ v ∨ v.length > 70 then msgidBlockLines v else ["msgid \"".data ++ escape_po_string v ++ ['\"']]).length } : ParseState) ∧
      c2.msgid = v ∧ c2.msgstr = c.msgstr ∧ c2.msgstr_plural = c.msgstr_plural ∧
      c2.flags = c.flags ∧ (v = [] → st0.entries = [] → c2.is_header = true) := by
  by_cases hblock : '\n' ∈ v ∨ v.length > 70
  · rw [if_pos hblock]
    rw [msgidBlockLines_contLines v hN2]
    rw [List.foldl_cons]
    rw [show ("msgid \"\"".data) = "msgid ".data ++ (['\"'] ++ ([] : Str) ++ ['\"']) from rfl]
    rw [parseLine_msgid st0 c [] hcur]
    by_cases hes : st0.entries = []
    · rw [if_pos ⟨rfl, hes⟩]
      rw [parseCont_fold_msgid (splitOnChar '\n' v) _
        ({ c with msgid := unescape_po_string [], is_header := true }) rfl rfl
        (noBadPairs_split '\n' (by decide) (by decide) v hnb)]
      refine ⟨({ c with msgid := unescape_po_string [] ++ joinNL (splitOnChar '\n' v), is_header := true } : POEntry), ?_, ?_, rfl, rfl, rfl, fun _ _ => rfl⟩
      · simp [ParseState.mk.injEq]
        omega
      · show unescape_po_string [] ++ joinNL (splitOnChar '\n' v) = v
        rw [show (unescape_po_string ([] : Str)) = [] from rfl, List.nil_append,
          joinNL_splitOnChar]
    · rw [if_neg (fun hcon => hes hcon.2)]
      rw [parseCont_fold_msgid (splitOnChar '\n' v) _
        ({ c with msgid := unescape_po_string [] }) rfl rfl
        (noBadPairs_split '\n' (by decide) (by decide) v hnb)]
      refine ⟨({ c with msgid := unescape_po_string [] ++ joinNL (splitOnChar '\n' v) } : POEntry), ?_, ?_, rfl, rfl, rfl, fun _ h => absurd h hes⟩
      · simp [ParseState.mk.injEq]
        omega
      · show unescape_po_string [] ++ joinNL (splitOnChar '\n' v) = v
        rw [show (unescape_po_string ([] : Str)) = [] from rfl, List.nil_append,
          joinNL_splitOnChar]
  · rw [if_neg hblock]
    rw [List.foldl_cons, List.foldl_nil]
    rw [show "msgid \"".data ++ escape_po_string v ++ ['\"'] =
      "msgid ".data ++ (['\"'] ++ escape_po_string v ++ ['\"']) from by simp]
    rw [parseLine_msgid st0 c (escape_po_string v) hcur]
    rw [unescape_escape_of_noBadPairs v hnb]
    by_cases hcond : v.isEmpty = true ∧ st0.entries = []
    · rw [if_pos hcond]
      exact ⟨_, rfl, by simp, by simp, by simp, by simp, fun _ _ => by simp⟩
    · rw [if_neg hcond]
      refine ⟨_, rfl, by simp, by simp, by simp, by simp, fun hv hes => ?_⟩
      exact absurd ⟨by rw [hv]; rfl, hes⟩ hcond

theorem parseCommentsW (cs : List Str) (hcs : ∀ x ∈ cs, ∃ r, x = '#' :: r)
    (es : List POEntry) (fld0 : Option PField) (n0 : Nat) (c : POEntry) :
    ∃ c2 n2, List.foldl parseLine ({ entries := es, cur := some c, field := fld0, lineNo := n0 } : ParseState) ((writeComments false false cs).1) =
      ({ entries := es, cur := some c2, field := fld0, lineNo := n2 } : ParseState) ∧
      c2.msgid = c.msgid ∧ c2.msgstr = c.msgstr ∧ c2.msgstr_plural = c.msgstr_plural ∧
      c2.is_header = c.is_header ∧ c2.flags = c.flags ++ flagsOfComments cs := by
  obtain ⟨c2, h, h1, h2, h3, h4, h5⟩ := parseComments_fold cs hcs
    ({ entries := es, cur := some c, field := fld0, lineNo := n0 } : ParseState) c rfl
  exact ⟨c2, n0 + cs.length, h, h1, h2, h3, h4, h5⟩

theorem parseMsgidSegW (v : Str) (hnb : noBadPairs v = true)
    (hN2 : ∀ p ∈ (splitOnChar '\n' v).dropLast, p ≠ (splitOnChar '\n' v).getLastD [])
    (es : List POEntry) (fld0 : Option PField) (n0 : Nat) (c : POEntry) :
    ∃ c2 n2, List.foldl parseLine ({ entries := es, cur := some c, field := fld0, lineNo := n0 } : ParseState)
      (if '\n' ∈ v ∨ v.length > 70 then msgidBlockLines v
        else ["msgid \"".data ++ escape_po_string v ++ ['\"']]) =
      ({ entries := es, cur := some c2, field := some PField.fmsgid, lineNo := n2 } : ParseState) ∧
      c2.msgid = v ∧ c2.msgstr = c.msgstr ∧ c2.msgstr_plural = c.msgstr_plural ∧
      c2.flags = c.flags ∧ (v = [] → es = [] → c2.is_header = true) := by
  obtain ⟨c2, h, h1, h2, h3, h4, h5⟩ := parseMsgidSeg v hnb hN2
    ({ entries := es, cur := some c, field := fld0, lineNo := n0 } : ParseState) c rfl
  exact ⟨c2, _, h, h1, h2, h3, h4, h5⟩

theorem parseMsgstrSegW (v : Str) (hnb : noBadPairs v = true)
    (es : List POEntry) (fld0 : Option PField) (n0 : Nat) (c : POEntry) :
    ∃ n2, List.foldl parseLine ({ entries := es, cur := some c, field := fld0, lineNo := n0 } : ParseState)
      (format_msgstr_for_po v) =
      ({ entries := es, cur := some { c with msgstr := v }, field := some PField.fmsgstr, lineNo := n2 } : ParseState) :=
  ⟨_, parseMsgstrSeg v hnb
    ({ entries := es, cur := some c, field := fld0, lineNo := n0 } : ParseState) c rfl⟩

theorem parsePluralKeySegW (mp : Str)
    (es : List POEntry) (fld0 : Option PField) (n0 : Nat) (c : POEntry) :
    ∃ c2 fld n2, List.foldl parseLine ({ entries := es, cur := some c, field := fld0, lineNo := n0 } : ParseState)
      (if ¬ mp.isEmpty then ["msgid_plural \"".data ++ escape_po_string mp ++ ['\"']] else []) =
      ({ entries := es, cur := some c2, field := fld, lineNo := n2 } : ParseState) ∧
      c2.msgid = c.msgid ∧ c2.msgstr = c.msgstr ∧ c2.msgstr_plural = c.msgstr_plural ∧
      c2.flags = c.flags ∧ c2.is_header = c.is_header := by
  obtain ⟨c2, fld, h, h1, h2, h3, h4, h5⟩ := parsePluralKeySeg mp
    ({ entries := es, cur := some c, field := fld0, lineNo := n0 } : ParseState) c rfl
  exact ⟨c2, fld, _, h, h1, h2, h3, h4, h5⟩

theorem parsePluralFoldW (ps : List Str) (hnb : ∀ p ∈ ps, noBadPairs p = true)
    (es : List POEntry) (fld0 : Option PField) (n0 : Nat) (c : POEntry)
    (hlen : c.msgstr_plural.length = 0) :
    ∃ fld n2, List.foldl parseLine ({ entries := es, cur := some c, field := fld0, lineNo := n0 } : ParseState)
      ((List.enumFrom 0 ps).map (fun p =>
        "msgstr[".data ++ natToStr p.1 ++ "] \"".data ++ escape_po_string p.2 ++ ['\"'])) =
      ({ entries := es, cur := some { c with msgstr_plural := c.msgstr_plural ++ ps }, field := fld, lineNo := n2 } : ParseState) := by
  obtain ⟨fld, h⟩ := parsePlural_fold ps 0
    ({ entries := es, cur := some c, field := fld0, lineNo := n0 } : ParseState) c rfl hlen hnb
  exact ⟨fld, _, h⟩

theorem parseEntryBlock (e : POEntry) (st0 : ParseState) (hcur : st0.cur = none)
    (hsh : ∀ x ∈ e.comments, ∃ r, x = '#' :: r)
    (hflags : e.flags = flagsOfComments e.comments)
    (hnb1 : noBadPairs e.msgid = true) (hnb2 : noBadPairs e.msgstr = true)
    (hnb3 : ∀ p ∈ e.msgstr_plural, noBadPairs p = true)
    (hN2 : ∀ p ∈ (splitOnChar '\n' e.msgid).dropLast,
      p ≠ (splitOnChar '\n' e.msgid).getLastD []) :
    ∃ c2 fld n2, List.foldl parseLine st0 (writeEntryAux false false e) =
      ({ entries := st0.entries, cur := some c2, field := fld, lineNo := n2 } : ParseState) ∧
      c2.msgid = e.msgid ∧ c2.msgstr = e.msgstr ∧ c2.msgstr_plural = e.msgstr_plural ∧
      c2.flags = e.flags ∧
      (e.msgid = [] → st0.entries = [] → c2.is_header = true) := by
  rw [writeEntryAux_false e]
  rw [List.foldl_append, List.foldl_append, List.foldl_append, List.foldl_append]
  have hconv : ∀ (L : Str) (LS : List Str), (pyStrip L).isEmpty = false →
      List.foldl parseLine st0 (L :: LS) =
        List.foldl parseLine ({ st0 with cur := some ({ line_number := st0.lineNo + 1 } : POEntry) }) (L :: LS) := by
    intro L LS hnbk
    rw [List.foldl_cons, List.foldl_cons, parseLine_cur_none st0 L hnbk hcur]
  have hAB : ∃ cB nB, List.foldl parseLine (List.foldl parseLine st0
        ((writeComments false false e.comments).1))
        (if '\n' ∈ e.msgid ∨ e.msgid.length > 70 then msgidBlockLines e.msgid
          else ["msgid \"".data ++ escape_po_string e.msgid ++ ['\"']]) =
      ({ entries := st0.entries, cur := some cB, field := some PField.fmsgid, lineNo := nB } : ParseState) ∧
      cB.msgid = e.msgid ∧ cB.msgstr = [] ∧ cB.msgstr_plural = [] ∧ cB.flags = e.flags ∧
      (e.msgid = [] → st0.entries = [] → cB.is_header = true) := by
    cases hcm : e.comments with
    | nil =>
      rw [show (writeComments false false []).1 = [] from rfl, List.foldl_nil]
      have hBshape : ∃ L LS, (if '\n' ∈ e.msgid ∨ e.msgid.length > 70 then
          msgidBlockLines e.msgid
          else ["msgid \"".data ++ escape_po_string e.msgid ++ ['\"']]) = L :: LS ∧
          (pyStrip L).isEmpty = false := by
        by_cases hblock : '\n' ∈ e.msgid ∨ e.msgid.length > 70
        · rw [if_pos hblock, msgidBlockLines_contLines e.msgid hN2]
          exact ⟨"msgid \"\"".data, _, rfl, pyStrip_isEmpty_head 'm' _ (by decide)⟩
        · rw [if_neg hblock]
          exact ⟨"msgid \"".data ++ escape_po_string e.msgid ++ ['\"'], [], rfl,
            pyStrip_isEmpty_head 'm'
              ("sgid \"".data ++ (escape_po_string e.msgid ++ ['\"'])) (by decide)⟩
      obtain ⟨L, LS, hB, hLnb⟩ := hBshape
      rw [hB, hconv L LS hLnb, ← hB]
      obtain ⟨cB, nB, hfold, p1, p2, p3, p4, p5⟩ := parseMsgidSegW e.msgid hnb1 hN2
        st0.entries st0.field st0.lineNo ({ line_number := st0.lineNo + 1 } : POEntry)
      rw [hfold]
      refine ⟨cB, nB, rfl, p1, by rw [p2], by rw [p3], ?_, fun h1 h2 => p5 h1 h2⟩
      rw [p4, hflags, hcm]
      rfl
    | cons x cs =>
      have hsh2 : ∀ y ∈ x :: cs, ∃ r, y = '#' :: r := by
        rw [← hcm]
        exact hsh
      obtain ⟨r, hx⟩ := hsh2 x (List.mem_cons_self x cs)
      have hAform : (writeComments false false (x :: cs)).1 =
          (if "#,".data.isPrefixOf x then
            "#, ".data ++ joinCommaSpace (stripSplitComma (x.drop 2)) else x) ::
          cs.map (fun c => if "#,".data.isPrefixOf c then
            "#, ".data ++ joinCommaSpace (stripSplitComma (c.drop 2)) else c) := by
        rw [writeComments_false_lines, List.map_cons]
      have hhead : (pyStrip (if "#,".data.isPrefixOf x then
          "#, ".data ++ joinCommaSpace (stripSplitComma (x.drop 2)) else x)).isEmpty = false := by
        by_cases hf : "#,".data.isPrefixOf x = true
        · rw [if_pos hf]
          exact pyStrip_isEmpty_head '#'
            (',' :: ' ' :: joinCommaSpace (stripSplitComma (x.drop 2))) (by decide)
        · rw [if_neg hf, hx]
          exact pyStrip_isEmpty_head '#' r (by decide)
      rw [hAform, hconv _ _ hhead, ← hAform]
      obtain ⟨c1, n1, hfoldA, a1, a2, a3, a4, a5⟩ := parseCommentsW (x :: cs) hsh2
        st0.entries st0.field st0.lineNo ({ line_number := st0.lineNo + 1 } : POEntry)
      rw [hfoldA]
      obtain ⟨cB, nB, hfoldB, p1, p2, p3, p4, p5⟩ := parseMsgidSegW e.msgid hnb1 hN2
        st0.entries st0.field n1 c1
      rw [hfoldB]
      refine ⟨cB, nB, rfl, p1, by rw [p2, a2], by rw [p3, a3], ?_, fun h1 h2 => p5 h1 h2⟩
      rw [p4, a5, hflags, hcm]
      rfl
  obtain ⟨cB, nB, hfoldAB, q1, q2, q3, q4, q5⟩ := hAB
  rw [hfoldAB]
  obtain ⟨cC, fldC, nC, hfoldC, r1, r2, r3, r4, r5⟩ := parsePluralKeySegW e.msgid_plural
    st0.entries (some PField.fmsgid) nB cB
  rw [hfoldC]
  obtain ⟨nD, hfoldD⟩ := parseMsgstrSegW e.msgstr hnb2 st0.entries fldC nC cC
  rw [hfoldD]
  rw [show (List.enum e.msgstr_plural) = List.enumFrom 0 e.msgstr_plural from rfl]
  obtain ⟨fldE, nE, hfoldE⟩ := parsePluralFoldW e.msgstr_plural hnb3 st0.entries
    (some PField.fmsgstr) nD ({ cC with msgstr := e.msgstr }) (by simp [r3, q3])
  rw [hfoldE]
  refine ⟨_, fldE, nE, rfl, ?_, ?_, ?_, ?_, ?_⟩
  · show cC.msgid = e.msgid
    rw [r1, q1]
  · rfl
  · show cC.msgstr_plural ++ e.msgstr_plural = e.msgstr_plural
    rw [r3, q3]
    rfl
  · show cC.flags = e.flags
    rw [r4, q4]
  · intro h1 h2
    show cC.is_header = true
    rw [r5]
    exact q5 h1 h2

theorem flagsOfComments_append (a b : List Str) :
    flagsOfComments (a ++ b) = flagsOfComments a ++ flagsOfComments b := by
  unfold flagsOfComments
  rw [List.map_append, List.flatten_append]

theorem sharp_of_line (line : Str) (h : "#".data.isPrefixOf line = true) :
    ∃ r, line = '#' :: r := by
  cases line with
  | nil => exact Bool.noConfusion h
  | cons a r =>
    simp [List.isPrefixOf] at h
    exact ⟨r, by rw [h]⟩

theorem comma_prefix_sharp (line : Str) (h : "#".data.isPrefixOf line = false) :
    "#,".data.isPrefixOf line = false := by
  cases line with
  | nil => rfl
  | cons a r =>
    simp [List.isPrefixOf] at h ⊢
    intro hcon
    exact absurd hcon h

theorem parseLine_blank_shape (st : ParseState) (line : Str)
    (hb : (pyStrip line).isEmpty = true) :
    (parseLine st line).cur = none ∧ (parseLine st line).field = none ∧
    ((parseLine st line).entries = st.entries ∨
      ∃ c, st.cur = some c ∧ (!c.msgid.isEmpty || c.is_header) = true ∧
        (parseLine st line).entries = st.entries ++ [c]) := by
  cases hcur : st.cur with
  | none =>
    simp only [parseLine, hcur]
    rw [if_pos hb]
    exact ⟨rfl, rfl, Or.inl rfl⟩
  | some c =>
    simp only [parseLine, hcur]
    rw [if_pos hb]
    by_cases hc : (!c.msgid.isEmpty || c.is_header) = true
    · rw [if_pos hc]
      exact ⟨rfl, rfl, Or.inr ⟨c, rfl, hc, rfl⟩⟩
    · rw [if_neg hc]
      exact ⟨rfl, rfl, Or.inl rfl⟩

theorem parseLine_cur_shape (st : ParseState) (line : Str)
    (hnb : (pyStrip line).isEmpty = false) :
    (parseLine st line).entries = st.entries ∧
    ∀ c2, (parseLine st line).cur = some c2 →
      ∃ c0, (st.cur = some c0 ∨
          (st.cur = none ∧ c0 = ({ line_number := st.lineNo + 1 } : POEntry))) ∧
        c2.comments = c0.comments ++
          (if "#".data.isPrefixOf line then [line] else []) ∧
        c2.flags = c0.flags ++
          (if "#,".data.isPrefixOf line then stripSplitComma (pyStrip (line.drop 2)) else []) ∧
        (c2.is_header = true → (c0.is_header = true ∨ st.entries = [])) := by
  cases hcur : st.cur with
  | some c0 =>
    simp only [parseLine, hcur]
    rw [if_neg (by simp [hnb])]
    refine ⟨?_, ?_⟩
    · repeat' (first | rfl | split)
    · intro c2 hc2
      refine ⟨c0, Or.inl rfl, ?_⟩

      by_cases hsharp : "#".data.isPrefixOf line = true
      · rw [if_pos hsharp] at hc2
        rw [if_pos hsharp]
        by_cases hcolon : "#:".data.isPrefixOf line = true
        · rw [if_pos hcolon] at hc2
          have hcomma : "#,".data.isPrefixOf line = false := by
            obtain ⟨r, hr⟩ := sharp_of_line line hsharp
            subst hr
            cases r with
            | nil => rfl
            | cons a r2 =>
              simp [List.isPrefixOf] at hcolon ⊢
              intro hcon
              rw [← hcon] at hcolon
              exact absurd hcolon (by decide)
          rw [hcomma]
          injection hc2 with hc2
          subst hc2
          exact ⟨by simp, by simp, fun h => Or.inl (by simpa using h)⟩
        · rw [if_neg hcolon] at hc2
          by_cases hcomma : "#,".data.isPrefixOf line = true
          · rw [if_pos hcomma] at hc2
            rw [if_pos hcomma]
            injection hc2 with hc2
            subst hc2
            exact ⟨by simp, by simp, fun h => Or.inl (by simpa using h)⟩
          · rw [if_neg hcomma] at hc2
            rw [Bool.eq_false_iff.mpr hcomma]
            injection hc2 with hc2
            subst hc2
            exact ⟨by simp, by simp, fun h => Or.inl (by simpa using h)⟩
      · rw [if_neg hsharp] at hc2
        rw [if_neg hsharp]
        rw [if_neg (show ¬("#,".data.isPrefixOf line = true) from by
          rw [comma_prefix_sharp line (Bool.eq_false_iff.mpr hsharp)]
          simp)]
        simp only [List.append_nil]
        split at hc2
        · split at hc2
          · rename_i inner hqi
            split at hc2
            · rename_i hhdr
              injection hc2 with hc2
              subst hc2
              exact ⟨by simp, by simp, fun _ => Or.inr hhdr.2⟩
            · injection hc2 with hc2
              subst hc2
              exact ⟨by simp, by simp, fun h => Or.inl (by simpa using h)⟩
          · injection hc2 with hc2
            subst hc2
            exact ⟨rfl, rfl, fun h => Or.inl h⟩
        · split at hc2
          · split at hc2
            · injection hc2 with hc2
              subst hc2
              exact ⟨by simp, by simp, fun h => Or.inl (by simpa using h)⟩
            · injection hc2 with hc2
              subst hc2
              exact ⟨rfl, rfl, fun h => Or.inl h⟩
          · split at hc2
            · split at hc2
              · injection hc2 with hc2
                subst hc2
                exact ⟨by simp, by simp, fun h => Or.inl (by simpa using h)⟩
              · injection hc2 with hc2
                subst hc2
                exact ⟨rfl, rfl, fun h => Or.inl h⟩
            · split at hc2
              · injection hc2 with hc2
                subst hc2
                exact ⟨by simp, by simp, fun h => Or.inl (by simpa using h)⟩
              · split at hc2
                · split at hc2
                  · injection hc2 with hc2
                    subst hc2
                    exact ⟨by simp, by simp, fun h => Or.inl (by simpa using h)⟩
                  · injection hc2 with hc2
                    subst hc2
                    exact ⟨by simp, by simp, fun h => Or.inl (by simpa using h)⟩
                  · injection hc2 with hc2
                    subst hc2
                    exact ⟨by simp, by simp, fun h => Or.inl (by simpa using h)⟩
                  · injection hc2 with hc2
                    subst hc2
                    exact ⟨by simp, by simp, fun h => Or.inl (by simpa using h)⟩
                  · injection hc2 with hc2
                    subst hc2
                    exact ⟨rfl, rfl, fun h => Or.inl h⟩
                · injection hc2 with hc2
                  subst hc2
                  exact ⟨rfl, rfl, fun h => Or.inl h⟩
  | none =>
    simp only [parseLine, hcur]
    rw [if_neg (by simp [hnb])]
    refine ⟨?_, ?_⟩
    · repeat' (first | rfl | split)
    · intro c2 hc2
      refine ⟨({ line_number := st.lineNo + 1 } : POEntry), Or.inr ⟨trivial, rfl⟩, ?_⟩

      by_cases hsharp : "#".data.isPrefixOf line = true
      · rw [if_pos hsharp] at hc2
        rw [if_pos hsharp]
        by_cases hcolon : "#:".data.isPrefixOf line = true
        · rw [if_pos hcolon] at hc2
          have hcomma : "#,".data.isPrefixOf line = false := by
            obtain ⟨r, hr⟩ := sharp_of_line line hsharp
            subst hr
            cases r with
            | nil => rfl
            | cons a r2 =>
              simp [List.isPrefixOf] at hcolon ⊢
              intro hcon
              rw [← hcon] at hcolon
              exact absurd hcolon (by decide)
          rw [hcomma]
          injection hc2 with hc2
          subst hc2
          exact ⟨by simp, by simp, fun h => Or.inl (by simpa using h)⟩
        · rw [if_neg hcolon] at hc2
          by_cases hcomma : "#,".data.isPrefixOf line = true
          · rw [if_pos hcomma] at hc2
            rw [if_pos hcomma]
            injection hc2 with hc2
            subst hc2
            exact ⟨by simp, by simp, fun h => Or.inl (by simpa using h)⟩
          · rw [if_neg hcomma] at hc2
            rw [Bool.eq_false_iff.mpr hcomma]
            injection hc2 with hc2
            subst hc2
            exact ⟨by simp, by simp, fun h => Or.inl (by simpa using h)⟩
      · rw [if_neg hsharp] at hc2
        rw [if_neg hsharp]
        rw [if_neg (show ¬("#,".data.isPrefixOf line = true) from by
          rw [comma_prefix_sharp line (Bool.eq_false_iff.mpr hsharp)]
          simp)]
        simp only [List.append_nil]
        split at hc2
        · split at hc2
          · rename_i inner hqi
            split at hc2
            · rename_i hhdr
              injection hc2 with hc2
              subst hc2
              exact ⟨by simp, by simp, fun _ => Or.inr hhdr.2⟩
            · injection hc2 with hc2
              subst hc2
              exact ⟨by simp, by simp, fun h => Or.inl (by simpa using h)⟩
          · injection hc2 with hc2
            subst hc2
            exact ⟨rfl, rfl, fun h => Or.inl h⟩
        · split at hc2
          · split at hc2
            · injection hc2 with hc2
              subst hc2
              exact ⟨by simp, by simp, fun h => Or.inl (by simpa using h)⟩
            · injection hc2 with hc2
              subst hc2
              exact ⟨rfl, rfl, fun h => Or.inl h⟩
          · split at hc2
            · split at hc2
              · injection hc2 with hc2
                subst hc2
                exact ⟨by simp, by simp, fun h => Or.inl (by simpa using h)⟩
              · injection hc2 with hc2
                subst hc2
                exact ⟨rfl, rfl, fun h => Or.inl h⟩
            · split at hc2
              · injection hc2 with hc2
                subst hc2
                exact ⟨by simp, by simp, fun h => Or.inl (by simpa using h)⟩
              · split at hc2
                · split at hc2
                  · injection hc2 with hc2
                    subst hc2
                    exact ⟨by simp, by simp, fun h => Or.inl (by simpa using h)⟩
                  · injection hc2 with hc2
                    subst hc2
                    exact ⟨by simp, by simp, fun h => Or.inl (by simpa using h)⟩
                  · injection hc2 with hc2
                    subst hc2
                    exact ⟨by simp, by simp, fun h => Or.inl (by simpa using h)⟩
                  · injection hc2 with hc2
                    subst hc2
                    exact ⟨by simp, by simp, fun h => Or.inl (by simpa using h)⟩
                  · injection hc2 with hc2
                    subst hc2
                    exact ⟨rfl, rfl, fun h => Or.inl h⟩
                · injection hc2 with hc2
                  subst hc2
                  exact ⟨rfl, rfl, fun h => Or.inl h⟩

theorem parseLine_inv (st : ParseState) (line : Str) (h : parseInv st) :
    parseInv (parseLine st line) := by
  obtain ⟨h1, h2, h3, h4⟩ := h
  by_cases hb : (pyStrip line).isEmpty = true
  · obtain ⟨hc, _, hent⟩ := parseLine_blank_shape st line hb
    refine ⟨?_, ?_, ?_, ?_⟩
    · intro e he
      rcases hent with he2 | ⟨c, hcur, hflush, he2⟩
      · rw [he2] at he
        exact h1 e he
      · rw [he2] at he
        rcases List.mem_append.mp he with h5 | h5
        · exact h1 e h5
        · rcases List.mem_singleton.mp h5 with h6
          subst h6
          exact h2 e hcur
    · intro c hcur2
      rw [hc] at hcur2
      exact Option.noConfusion hcur2
    · intro e he
      rcases hent with he2 | ⟨c, hcur, hflush, he2⟩
      · rw [he2] at he
        exact h3 e he
      · rw [he2] at he
        cases hes : st.entries with
        | nil =>
          rw [hes] at he
          simp at he
        | cons a es1 =>
          rw [hes] at he
          rw [show ((a :: es1) ++ [c]).drop 1 = es1 ++ [c] from rfl] at he
          rcases List.mem_append.mp he with h5 | h5
          · exact h3 e (by rw [hes]; exact h5)
          · rcases List.mem_singleton.mp h5 with h6
            subst h6
            intro hnil
            by_cases hh : e.is_header = true
            · have h7 := h4 e hcur hh
              rw [hes] at h7
              exact List.noConfusion h7
            · rw [hnil] at hflush
              simp at hflush
              exact hh hflush
    · intro c hcur2
      rw [hc] at hcur2
      exact Option.noConfusion hcur2
  · have hnb : (pyStrip line).isEmpty = false := Bool.eq_false_iff.mpr hb
    obtain ⟨hent, hcurT⟩ := parseLine_cur_shape st line hnb
    refine ⟨?_, ?_, ?_, ?_⟩
    · intro e he
      rw [hent] at he
      exact h1 e he
    · intro c2 hc2
      obtain ⟨c0, hbase, hcom, hflg, _⟩ := hcurT c2 hc2
      have hc0 : (∀ x ∈ c0.comments, ∃ r, x = '#' :: r) ∧
          c0.flags = flagsOfComments c0.comments := by
        rcases hbase with hbase | ⟨_, hbase⟩
        · exact h2 c0 hbase
        · subst hbase
          exact ⟨fun x hx => absurd hx (List.not_mem_nil x), rfl⟩
      constructor
      · intro x hx
        rw [hcom] at hx
        rcases List.mem_append.mp hx with h5 | h5
        · exact hc0.1 x h5
        · by_cases hsharp : "#".data.isPrefixOf line = true
          · rw [if_pos hsharp] at h5
            rcases List.mem_singleton.mp h5 with h6
            subst h6
            exact sharp_of_line _ hsharp
          · rw [if_neg hsharp] at h5
            simp at h5
      · rw [hcom, hflg, hc0.2, flagsOfComments_append]
        congr 1
        by_cases hsharp : "#".data.isPrefixOf line = true
        · rw [if_pos hsharp]
          rw [flagsOfComments_cons line []]
          rw [show flagsOfComments [] = [] from rfl, List.append_nil]
        · rw [if_neg hsharp]
          rw [show flagsOfComments ([] : List Str) = [] from rfl]
          rw [if_neg (show ¬("#,".data.isPrefixOf line = true) from by
            rw [comma_prefix_sharp line (Bool.eq_false_iff.mpr hsharp)]
            simp)]
    · intro e he
      rw [hent] at he
      exact h3 e he
    · intro c2 hc2 hh
      obtain ⟨c0, hbase, _, _, hhd⟩ := hcurT c2 hc2
      rcases hhd hh with h5 | h5
      · rcases hbase with hbase | ⟨_, hbase⟩
        · rw [hent]
          exact h4 c0 hbase h5
        · subst hbase
          exact absurd h5 (by simp)
      · rw [hent]
        exact h5

theorem foldl_parseInv : ∀ (lines : List Str) (st : ParseState), parseInv st →
    parseInv (List.foldl parseLine st lines) := by
  intro lines
  induction lines with
  | nil => intro st h; exact h
  | cons l rest ih =>
    intro st h
    rw [List.foldl_cons]
    exact ih (parseLine st l) (parseLine_inv st l h)

theorem parseInv_init : parseInv ({} : ParseState) := by
  refine ⟨?_, ?_, ?_, ?_⟩
  · intro e he
    simp [ParseState.entries] at he
  · intro c hc
    simp [ParseState.cur] at hc
  · intro e he
    simp [ParseState.entries] at he
  · intro c hc
    simp [ParseState.cur] at hc

theorem parseFinish_shape (st : ParseState) (h : parseInv st) :
    (∀ e ∈ parseFinish st, (∀ x ∈ e.comments, ∃ r, x = '#' :: r) ∧
      e.flags = flagsOfComments e.comments) ∧
    (∀ e ∈ (parseFinish st).drop 1, e.msgid ≠ []) := by
  obtain ⟨h1, h2, h3, h4⟩ := h
  cases hcur : st.cur with
  | none =>
    simp only [parseFinish, hcur]
    exact ⟨h1, h3⟩
  | some c =>
    simp only [parseFinish, hcur]
    by_cases hflush : (!c.msgid.isEmpty || c.is_header) = true
    · rw [if_pos hflush]
      constructor
      · intro e he
        rcases List.mem_append.mp he with h5 | h5
        · exact h1 e h5
        · rcases List.mem_singleton.mp h5 with h6
          subst h6
          exact h2 e hcur
      · intro e he
        cases hes : st.entries with
        | nil =>
          rw [hes] at he
          simp at he
        | cons a es1 =>
          rw [hes] at he
          rw [show ((a :: es1) ++ [c]).drop 1 = es1 ++ [c] from rfl] at he
          rcases List.mem_append.mp he with h5 | h5
          · exact h3 e (by rw [hes]; exact h5)
          · rcases List.mem_singleton.mp h5 with h6
            subst h6
            intro hnil
            by_cases hh : e.is_header = true
            · have h7 := h4 e hcur hh
              rw [hes] at h7
              exact List.noConfusion h7
            · rw [hnil] at hflush
              simp at hflush
              exact hh hflush
    · rw [if_neg hflush]
      exact ⟨h1, h3⟩

theorem parse_po_file_inv (f : List Str) :
    (∀ e ∈ parse_po_file f, (∀ x ∈ e.comments, ∃ r, x = '#' :: r) ∧
      e.flags = flagsOfComments e.comments) ∧
    (∀ e ∈ (parse_po_file f).drop 1, e.msgid ≠ []) := by
  rw [parse_po_file_eq]
  exact parseFinish_shape _ (foldl_parseInv f {} parseInv_init)

theorem roundtrip_fold : ∀ (es : List POEntry) (st0 : ParseState), st0.cur = none →
    (∀ e ∈ es, (∀ x ∈ e.comments, ∃ r, x = '#' :: r) ∧
      e.flags = flagsOfComments e.comments) →
    (∀ e ∈ es, contentSafe e) →
    (∀ e ∈ es.drop 1, e.msgid ≠ []) →
    (∀ e, es.head? = some e → e.msgid = [] → st0.entries = []) →
    ∃ es2, parseFinish (List.foldl parseLine st0 (write_po_file [] [] es)) =
      st0.entries ++ es2 ∧ es2.map keyFields = es.map keyFields := by
  intro es
  induction es with
  | nil =>
    intro st0 hcur _ _ _ _
    refine ⟨[], ?_, rfl⟩
    rw [show write_po_file [] [] [] = [] from rfl, List.foldl_nil]
    simp [parseFinish, hcur]
  | cons e rest ih =>
    intro st0 hcur hshape hsafe htail hhd
    obtain ⟨hsh, hflags⟩ := hshape e (List.mem_cons_self e rest)
    obtain ⟨hnb1, hnb2, hnb3, hN2⟩ := hsafe e (List.mem_cons_self e rest)
    obtain ⟨c2, fld, n2, hfoldB, k1, k2, k3, k4, k5⟩ :=
      parseEntryBlock e st0 hcur hsh hflags hnb1 hnb2 hnb3 hN2
    have hflushable : (!c2.msgid.isEmpty || c2.is_header) = true := by
      by_cases hmid : e.msgid = []
      · have hes0 := hhd e rfl hmid
        have h6 := k5 hmid hes0
        simp [h6]
      · rw [k1]
        cases hme : e.msgid with
        | nil => exact absurd hme hmid
        | cons a r => simp
    cases rest with
    | nil =>
      rw [show write_po_file [] [] [e] = writeEntryAux false false e from rfl]
      rw [hfoldB]
      refine ⟨[c2], ?_, ?_⟩
      · simp only [parseFinish]
        rw [if_pos hflushable]
      · simp [keyFields, k1, k2, k3, k4]
    | cons e2 rest2 =>
      rw [show write_po_file [] [] (e :: e2 :: rest2) =
        writeEntryAux false false e ++ ([] :: write_po_file [] [] (e2 :: rest2)) from by
          rw [write_po_file]
          rw [show (writeEntryV2 [] [] e) = writeEntryAux false false e from rfl]
          simp]
      rw [List.foldl_append]
      rw [hfoldB]
      rw [List.foldl_cons]
      rw [parseLine_nil_flush _ c2 rfl hflushable]
      have htail2 : ∀ x ∈ (e2 :: rest2).drop 1, x.msgid ≠ [] := by
        intro x hx
        exact htail x (List.mem_cons_of_mem e2 hx)
      have hhd2 : ∀ x, (e2 :: rest2).head? = some x → x.msgid = [] →
          (({ entries := st0.entries ++ [c2], cur := none, field := none, lineNo := n2 + 1 } : ParseState)).entries = [] := by
        intro x hx hxe
        have hx2 : x = e2 := by
          injection hx with hx
          exact hx.symm
        subst hx2
        exact absurd hxe (htail x (List.mem_cons_self x rest2))
      obtain ⟨es2, hrest, hmap⟩ := ih
        ({ entries := st0.entries ++ [c2], cur := none, field := none, lineNo := n2 + 1 } : ParseState) rfl
        (fun x hx => hshape x (List.mem_cons_of_mem e hx))
        (fun x hx => hsafe x (List.mem_cons_of_mem e hx))
        htail2 hhd2
      refine ⟨c2 :: es2, ?_, ?_⟩
      · rw [hrest]
        simp
      · rw [List.map_cons, List.map_cons, hmap]
        rw [show keyFields c2 = keyFields e from by
          unfold keyFields
          rw [k1, k2, k3, k4]]

/-- C2 counterexample: two PO files whose parse is changed by a write/re-parse
cycle with empty removeFuzzyFor/addFuzzyFor.  The first file (multi-line msgid
"a\nb\na") trips the writer's by-value comparison of each part against the
final part, losing the newline after the interior "a".  The second file
(msgid backslash-n, built from continuation lines) trips the fixed-order
unescaping: the roundtrip turns backslash-n into backslash-newline. -/
theorem C2_counterexample :
    ((parse_po_file (write_po_file [] [] (parse_po_file
        ["msgid \"x\"".data, "msgstr \"y\"".data, [],
         "msgid \"\"".data, "\"a\\n\"".data, "\"b\\n\"".data, "\"a\"".data,
         "msgstr \"z\"".data]))).map keyFields ≠
      (parse_po_file
        ["msgid \"x\"".data, "msgstr \"y\"".data, [],
         "msgid \"\"".data, "\"a\\n\"".data, "\"b\\n\"".data, "\"a\"".data,
         "msgstr \"z\"".data]).map keyFields) ∧
    ((parse_po_file (write_po_file [] [] (parse_po_file
        ["msgid \"\"".data, "\"\\\\\"".data, "\"n\"".data, "msgstr \"w\"".data]))).map keyFields ≠
      (parse_po_file
        ["msgid \"\"".data, "\"\\\\\"".data, "\"n\"".data, "msgstr \"w\"".data]).map keyFields) := by
  constructor
  · decide
  · decide

/-- C2 (amended): parse-write-parse preserves every entry's key, translation,
plural translations and flag set, provided each parsed entry is content-safe:
its msgid, msgstr and plural strings contain no backslash immediately followed
by a literal letter n or t, and no non-final newline segment of the msgid
equals the final segment by value.  Without these conditions the claim fails
(see the counterexample). -/
theorem C2_parse_write_roundtrip (f : List Str)
    (h : ∀ e ∈ parse_po_file f, contentSafe e) :
    (parse_po_file (write_po_file [] [] (parse_po_file f))).map keyFields =
      (parse_po_file f).map keyFields := by
  obtain ⟨hshape, htail⟩ := parse_po_file_inv f
  obtain ⟨es2, hfin, hmap⟩ := roundtrip_fold (parse_po_file f) {} rfl hshape h htail
    (fun _ _ _ => rfl)
  rw [parse_po_file_eq (write_po_file [] [] (parse_po_file f))]
  rw [hfin]
  simpa using hmap

/-- C2 witness: the amended roundtrip evaluated on a concrete file containing
a flagged single-line entry, a multi-line entry and a plural entry. -/
theorem C2_witness :
    (∀ e ∈ parse_po_file
      ["# note".data, "#, fuzzy".data, "msgid \"hello\"".data, "msgstr \"salut\"".data, [],
       "msgid \"\"".data, "\"one\\n\"".data, "\"two\"".data, "msgstr \"a\\nb\"".data, [],
       "msgid \"cat\"".data, "msgid_plural \"cats\"".data,
       "msgstr[0] \"chat\"".data, "msgstr[1] \"chats\"".data], contentSafe e) ∧
    (parse_po_file (write_po_file [] [] (parse_po_file
      ["# note".data, "#, fuzzy".data, "msgid \"hello\"".data, "msgstr \"salut\"".data, [],
       "msgid \"\"".data, "\"one\\n\"".data, "\"two\"".data, "msgstr \"a\\nb\"".data, [],
       "msgid \"cat\"".data, "msgid_plural \"cats\"".data,
       "msgstr[0] \"chat\"".data, "msgstr[1] \"chats\"".data]))).map keyFields =
      (parse_po_file
      ["# note".data, "#, fuzzy".data, "msgid \"hello\"".data, "msgstr \"salut\"".data, [],
       "msgid \"\"".data, "\"one\\n\"".data, "\"two\"".data, "msgstr \"a\\nb\"".data, [],
       "msgid \"cat\"".data, "msgid_plural \"cats\"".data,
       "msgstr[0] \"chat\"".data, "msgstr[1] \"chats\"".data]).map keyFields :=
  ⟨by decide, C2_parse_write_roundtrip
    ["# note".data, "#, fuzzy".data, "msgid \"hello\"".data, "msgstr \"salut\"".data, [],
     "msgid \"\"".data, "\"one\\n\"".data, "\"two\"".data, "msgstr \"a\\nb\"".data, [],
     "msgid \"cat\"".data, "msgid_plural \"cats\"".data,
     "msgstr[0] \"chat\"".data, "msgstr[1] \"chats\"".data] (by decide)⟩

end KOA
